import Mathlib

/-!
Verification development for the justjshtml HTML5 parser.

Strings manipulated character-by-character by the source are modelled as
`List Char`; JavaScript `Map` objects are modelled as insertion-ordered
association lists; mutable DOM nodes are modelled as a heap (a list of
node records addressed by index).  Functions are translated from the
TypeScript source files; the few constants that live in the repository
file `constants.ts` (absent from the provided sources) are modelled from
the specification and marked as such.  Parts of the program that no
theorem in this file depends on (for example most tokenizer states and
the table insertion modes) are represented by `Option`-valued functions
returning `none`; every theorem below evaluates strictly inside the
translated fragment.
-/

namespace JustHTML

/-! ## Generic helpers -/

/-- Association-list lookup with `Nat` keys, mirroring `Map.get` on a map
whose entries were inserted in list order. -/
def lookupNat (k : Nat) : List (Nat × Char) → Option Char
  | [] => none
  | (key, v) :: rest => if k = key then some v else lookupNat k rest

/-- Association-list lookup with `String` keys, mirroring `Map.get`. -/
def lookupStr (k : String) : List (String × String) → Option String
  | [] => none
  | (key, v) :: rest => if k = key then some v else lookupStr k rest

/-- Membership test for `String`-keyed association lists, mirroring `Map.has`. -/
def hasKeyStr (k : String) (l : List (String × String)) : Bool :=
  (lookupStr k l).isSome

/-- Mirrors `text.indexOf(ch, i)`: index of the first occurrence of `ch` in
`l`, offset by the base index `base`. -/
def indexOfAux (ch : Char) : List Char → Nat → Option Nat
  | [], _ => none
  | c :: rest, base => if c = ch then some base else indexOfAux ch rest (base + 1)

/-- Mirrors `text.indexOf(ch, i)` on a character list `text`. -/
def indexOfFrom (text : List Char) (ch : Char) (i : Nat) : Option Nat :=
  indexOfAux ch (text.drop i) i

/-- Length of the longest run of characters satisfying `p` at the head of a
list; used to translate `while (j < length && p(text[j])) j += 1`. -/
def countWhile (p : Char → Bool) : List Char → Nat
  | [] => 0
  | c :: rest => if p c then countWhile p rest + 1 else 0

/-- Mirrors `text.slice(a, b)` on a character list. -/
def sliceChars (text : List Char) (a b : Nat) : List Char :=
  (text.drop a).take (b - a)

/-! ## Entity decoder (`src/src/entities.ts`) -/

/-- Translated from `entities.ts`: `LEGACY_ENTITIES`, the named character
references HTML allows in legacy (no-semicolon) contexts. -/
def LEGACY_ENTITIES : List String :=
  ["gt", "lt", "amp", "quot", "nbsp", "AMP", "QUOT", "GT", "LT", "COPY",
   "REG", "AElig", "Aacute", "Acirc", "Agrave", "Aring", "Atilde", "Auml",
   "Ccedil", "ETH", "Eacute", "Ecirc", "Egrave", "Euml", "Iacute", "Icirc",
   "Igrave", "Iuml", "Ntilde", "Oacute", "Ocirc", "Ograve", "Oslash",
   "Otilde", "Ouml", "THORN", "Uacute", "Ucirc", "Ugrave", "Uuml", "Yacute",
   "aacute", "acirc", "acute", "aelig", "agrave", "aring", "atilde", "auml",
   "brvbar", "ccedil", "cedil", "cent", "copy", "curren", "deg", "divide",
   "eacute", "ecirc", "egrave", "eth", "euml", "frac12", "frac14", "frac34",
   "iacute", "icirc", "iexcl", "igrave", "iquest", "iuml", "laquo", "macr",
   "micro", "middot", "not", "ntilde", "oacute", "ocirc", "ograve", "ordf",
   "ordm", "oslash", "otilde", "ouml", "para", "plusmn", "pound", "raquo",
   "reg", "sect", "shy", "sup1", "sup2", "sup3", "szlig", "thorn", "times",
   "uacute", "ucirc", "ugrave", "uml", "uuml", "yacute", "yen", "yuml"]

/-- Translated from `entities.ts`: `NUMERIC_REPLACEMENTS`, the HTML5
numeric character reference replacement table. -/
def NUMERIC_REPLACEMENTS : List (Nat × Char) :=
  [(0x00, '�'), (0x80, '€'), (0x82, '‚'), (0x83, 'ƒ'),
   (0x84, '„'), (0x85, '…'), (0x86, '†'), (0x87, '‡'),
   (0x88, 'ˆ'), (0x89, '‰'), (0x8a, 'Š'), (0x8b, '‹'),
   (0x8c, 'Œ'), (0x8e, 'Ž'), (0x91, '‘'), (0x92, '’'),
   (0x93, '“'), (0x94, '”'), (0x95, '•'), (0x96, '–'),
   (0x97, '—'), (0x98, '˜'), (0x99, '™'), (0x9a, 'š'),
   (0x9b, '›'), (0x9c, 'œ'), (0x9e, 'ž'), (0x9f, 'Ÿ')]

/-- Value of a digit character in the given base (10 or 16), as accepted by
`Number.parseInt`. -/
def digitValBase (base : Nat) (c : Char) : Option Nat :=
  if '0' ≤ c ∧ c ≤ '9' then some (c.toNat - '0'.toNat)
  else if base = 16 ∧ 'a' ≤ c ∧ c ≤ 'f' then some (c.toNat - 'a'.toNat + 10)
  else if base = 16 ∧ 'A' ≤ c ∧ c ≤ 'F' then some (c.toNat - 'A'.toNat + 10)
  else none

/-- Digit accumulation of `Number.parseInt(text, base)`; stops at the first
non-digit, like `parseInt`.  The callers in `entities.ts` only pass
strings of valid digits.  JavaScript returns a float, but any value that
would be rounded (above 2^53) is far above 0x10FFFF, where
`decodeNumericEntity` is a constant, so the exact natural number model
agrees with the source on all outputs. -/
def parseIntAux (base : Nat) : List Char → Nat → Nat
  | [], acc => acc
  | c :: rest, acc =>
    match digitValBase base c with
    | some v => parseIntAux base rest (acc * base + v)
    | none => acc

/-- Mirrors `Number.parseInt(text, base)` on a nonempty valid digit string. -/
def parseIntDigits (base : Nat) (text : List Char) : Nat :=
  parseIntAux base text 0

/-- Core of `decodeNumericEntity` from `entities.ts`, operating on the
already-parsed code point: replacement-table lookup, out-of-range and
surrogate checks, then `String.fromCodePoint`. -/
def decodeNumericCodepoint (codepoint : Nat) : List Char :=
  match lookupNat codepoint NUMERIC_REPLACEMENTS with
  | some replacement => [replacement]
  | none =>
    if codepoint > 0x10ffff then ['�']
    else if 0xd800 ≤ codepoint ∧ codepoint ≤ 0xdfff then ['�']
    else [Char.ofNat codepoint]

/-- Translated from `entities.ts`: `decodeNumericEntity(text, isHex)`
decodes a numeric character reference body (without the `&#` and the
trailing semicolon). -/
def decodeNumericEntity (text : List Char) (isHex : Bool) : List Char :=
  let base := if isHex then 16 else 10
  decodeNumericCodepoint (parseIntDigits base text)

/-- Modelled from the spec: the windows-1252 mapping referenced in section
4.2 for code points 0x80..0x9F (the WHATWG windows-1252 index; bytes with
no printable assignment map to themselves). -/
def windows1252Mapped (b : Nat) : Nat :=
  if b = 0x80 then 0x20AC else if b = 0x81 then 0x81
  else if b = 0x82 then 0x201A else if b = 0x83 then 0x0192
  else if b = 0x84 then 0x201E else if b = 0x85 then 0x2026
  else if b = 0x86 then 0x2020 else if b = 0x87 then 0x2021
  else if b = 0x88 then 0x02C6 else if b = 0x89 then 0x2030
  else if b = 0x8a then 0x0160 else if b = 0x8b then 0x2039
  else if b = 0x8c then 0x0152 else if b = 0x8d then 0x8d
  else if b = 0x8e then 0x017D else if b = 0x8f then 0x8f
  else if b = 0x90 then 0x90 else if b = 0x91 then 0x2018
  else if b = 0x92 then 0x2019 else if b = 0x93 then 0x201C
  else if b = 0x94 then 0x201D else if b = 0x95 then 0x2022
  else if b = 0x96 then 0x2013 else if b = 0x97 then 0x2014
  else if b = 0x98 then 0x02DC else if b = 0x99 then 0x2122
  else if b = 0x9a then 0x0161 else if b = 0x9b then 0x203A
  else if b = 0x9c then 0x0153 else if b = 0x9d then 0x9d
  else if b = 0x9e then 0x017E else if b = 0x9f then 0x0178
  else b

/-- Mirrors `isAsciiAlpha` from `entities.ts`. -/
def isAsciiAlpha (c : Char) : Bool :=
  (0x41 ≤ c.toNat ∧ c.toNat ≤ 0x5a) ∨ (0x61 ≤ c.toNat ∧ c.toNat ≤ 0x7a)

/-- Mirrors `isAsciiDigit` from `entities.ts`. -/
def isAsciiDigit (c : Char) : Bool :=
  0x30 ≤ c.toNat ∧ c.toNat ≤ 0x39

/-- Mirrors `isAsciiAlphanumeric` from `entities.ts`. -/
def isAsciiAlphanumeric (c : Char) : Bool :=
  isAsciiAlpha c || isAsciiDigit c

/-- Mirrors the hex-digit test `"0123456789abcdefABCDEF".includes(c)`. -/
def isHexDigitChar (c : Char) : Bool :=
  isAsciiDigit c || ('a' ≤ c ∧ c ≤ 'f') || ('A' ≤ c ∧ c ≤ 'F')

/-- Descending longest-prefix search over `LEGACY_ENTITIES`, translating
the `for (let k = entityName.length; k > 0; k -= 1)` loops of
`decodeEntitiesInText`.  Returns the replacement and the matched length. -/
def legacyBestMatch (entities : List (String × String)) (entityName : List Char) :
    Nat → Option (String × Nat)
  | 0 => none
  | k + 1 =>
    let pre := String.mk (entityName.take (k + 1))
    if LEGACY_ENTITIES.contains pre ∧ hasKeyStr pre entities then
      match lookupStr pre entities with
      | some v => some (v, k + 1)
      | none => none
    else legacyBestMatch entities entityName k

/-- Loop body of `decodeEntitiesInText` from `entities.ts`, translated with
a fuel argument; the source loop advances `i` by at least one position per
iteration, so `text.length + 1` units of fuel always suffice (on fuel
exhaustion the accumulated output is returned, which no run in this file
reaches). -/
def decodeEntitiesLoop (entities : List (String × String)) (inAttribute : Bool)
    (text : List Char) : Nat → Nat → List Char → List Char
  | 0, _, acc => acc
  | fuel + 1, i, acc =>
    if i < text.length then
      match indexOfFrom text '&' i with
      | none => acc ++ text.drop i
      | some nextAmp =>
        let acc := acc ++ sliceChars text i nextAmp
        let i := nextAmp
        let j := i + 1
        if (text.drop j).head? = some '#' then
          -- Numeric entity
          let j := j + 1
          let isHex := (text.drop j).head? = some 'x' ∨ (text.drop j).head? = some 'X'
          let j := if isHex then j + 1 else j
          let digitStart := j
          let j := j + (if isHex then countWhile isHexDigitChar (text.drop j)
                        else countWhile isAsciiDigit (text.drop j))
          let hasSemicolon := (text.drop j).head? = some ';'
          let digitText := sliceChars text digitStart j
          if digitText ≠ [] then
            decodeEntitiesLoop entities inAttribute text fuel
              (if hasSemicolon then j + 1 else j)
              (acc ++ decodeNumericEntity digitText isHex)
          else
            decodeEntitiesLoop entities inAttribute text fuel
              (if hasSemicolon then j + 1 else j)
              (acc ++ sliceChars text i (if hasSemicolon then j + 1 else j))
        else
          -- Named entity (ASCII letters and digits)
          let j := j + countWhile (fun c => isAsciiAlpha c || isAsciiDigit c) (text.drop j)
          let entityName := sliceChars text (i + 1) j
          let hasSemicolon := (text.drop j).head? = some ';'
          if entityName = [] then
            decodeEntitiesLoop entities inAttribute text fuel (i + 1) (acc ++ ['&'])
          else if hasSemicolon ∧ hasKeyStr (String.mk entityName) entities then
            decodeEntitiesLoop entities inAttribute text fuel (j + 1)
              (acc ++ ((lookupStr (String.mk entityName) entities).getD "").toList)
          else
            match if hasSemicolon ∧ ¬inAttribute then
                    legacyBestMatch entities entityName entityName.length
                  else none with
            | some (bestMatch, bestMatchLen) =>
              decodeEntitiesLoop entities inAttribute text fuel (i + 1 + bestMatchLen)
                (acc ++ bestMatch.toList)
            | none =>
              if LEGACY_ENTITIES.contains (String.mk entityName) ∧
                  hasKeyStr (String.mk entityName) entities then
                let nextChar := (text.drop j).head?
                let nextBlocks : Bool := match nextChar with
                  | some c => isAsciiAlphanumeric c || c = '='
                  | none => false
                if inAttribute ∧ nextBlocks then
                  decodeEntitiesLoop entities inAttribute text fuel (i + 1) (acc ++ ['&'])
                else
                  decodeEntitiesLoop entities inAttribute text fuel j
                    (acc ++ ((lookupStr (String.mk entityName) entities).getD "").toList)
              else
                match legacyBestMatch entities entityName entityName.length with
                | some (bestMatch, bestMatchLen) =>
                  if inAttribute then
                    decodeEntitiesLoop entities inAttribute text fuel (i + 1) (acc ++ ['&'])
                  else
                    decodeEntitiesLoop entities inAttribute text fuel (i + 1 + bestMatchLen)
                      (acc ++ bestMatch.toList)
                | none =>
                  if hasSemicolon then
                    decodeEntitiesLoop entities inAttribute text fuel (j + 1)
                      (acc ++ sliceChars text i (j + 1))
                  else
                    decodeEntitiesLoop entities inAttribute text fuel (i + 1) (acc ++ ['&'])
    else acc

/-- Translated from `entities.ts`: `decodeEntitiesInText(text, inAttribute)`
decodes HTML character references in `text`.  The static `NAMED_ENTITIES`
table lives in `entities-data.ts` (a data dependency outside the provided
sources), so it is passed as the `entities` parameter. -/
def decodeEntitiesInText (entities : List (String × String)) (inAttribute : Bool)
    (text : List Char) : List Char :=
  decodeEntitiesLoop entities inAttribute text (text.length + 1) 0 []

/-! ## Encoding sniffer (`encoding.ts`)

Byte streams are modelled as `List Nat` (each element a byte). -/

/-- Mirrors the `ASCII_WHITESPACE` byte set. -/
def isAsciiWhitespaceByte (b : Nat) : Bool :=
  b = 0x09 ∨ b = 0x0a ∨ b = 0x0c ∨ b = 0x0d ∨ b = 0x20

/-- Mirrors `asciiLowerByte`. -/
def asciiLowerByte (b : Nat) : Nat :=
  if 0x41 ≤ b ∧ b ≤ 0x5a then b ||| 0x20 else b

/-- Mirrors `isAsciiAlphaByte`. -/
def isAsciiAlphaByte (b : Nat) : Bool :=
  let c := asciiLowerByte b
  0x61 ≤ c ∧ c ≤ 0x7a

/-- Byte-list variant of `countWhile`, for the index-advancing loops of the
prescan. -/
def countWhileB (p : Nat → Bool) : List Nat → Nat
  | [] => 0
  | b :: rest => if p b then countWhileB p rest + 1 else 0

/-- Mirrors `skipAsciiWhitespace(data, i)`. -/
def skipAsciiWhitespace (data : List Nat) (i : Nat) : Nat :=
  i + countWhileB isAsciiWhitespaceByte (data.drop i)

/-- Mirrors `stripAsciiWhitespace` on a present byte slice. -/
def stripAsciiWhitespaceBytes (value : List Nat) : List Nat :=
  ((value.dropWhile isAsciiWhitespaceByte).reverse.dropWhile
    isAsciiWhitespaceByte).reverse

/-- Mirrors `asciiDecodeIgnore`: keep only bytes at most 0x7f as characters. -/
def asciiDecodeIgnore (bytes : List Nat) : String :=
  String.mk ((bytes.filter (fun b => b ≤ 0x7f)).map Char.ofNat)

/-- Mirrors `indexOfByte(data, byte, start)`. -/
def indexOfByteAux (byte : Nat) : List Nat → Nat → Option Nat
  | [], _ => none
  | b :: rest, base => if b = byte then some base else indexOfByteAux byte rest (base + 1)

/-- Index of the first occurrence of `byte` in `data` at or after `start`. -/
def indexOfByte (data : List Nat) (byte : Nat) (start : Nat) : Option Nat :=
  indexOfByteAux byte (data.drop start) start

/-- Worker for `indexOfSubarray`; the scan index increases by one per step,
so `data.length + 1` units of fuel cover every start position. -/
def indexOfSubarrayAux (data pattern : List Nat) : Nat → Nat → Option Nat
  | _, 0 => none
  | i, fuel + 1 =>
    if i + pattern.length ≤ data.length then
      if (data.drop i).take pattern.length = pattern then some i
      else indexOfSubarrayAux data pattern (i + 1) fuel
    else none

/-- Mirrors `indexOfSubarray(data, pattern, start)`. -/
def indexOfSubarray (data pattern : List Nat) (start : Nat) : Option Nat :=
  indexOfSubarrayAux data pattern start (data.length + 1)

/-- Mirrors `bytesEqualLower(data, start, end, asciiLowerPattern)`. -/
def bytesEqualLower (data : List Nat) (start stop : Nat) (pattern : List Nat) : Bool :=
  if stop - start ≠ pattern.length then false
  else ((data.drop start).take (stop - start)).map asciiLowerByte = pattern

/-- Mirrors `bytesEqualIgnoreAsciiCase(data, asciiLowerPattern)`. -/
def bytesEqualIgnoreAsciiCase (data pattern : List Nat) : Bool :=
  if data.length ≠ pattern.length then false
  else data.map asciiLowerByte = pattern

/-- An encoding label as accepted by `normalizeEncodingLabel`: either a
string or a raw byte sequence. -/
inductive EncodingLabel where
  | str (s : String)
  | bytes (b : List Nat)

/-- Translated from `encoding.ts`: `normalizeEncodingLabel` folds known
aliases to canonical encoding names (UTF-7 folds to windows-1252) and
rejects unknown labels.  A missing or empty-string label is falsy in the
source and yields no encoding. -/
def normalizeEncodingLabel : Option EncodingLabel → Option String
  | none => none
  | some (EncodingLabel.str "") => none
  | some label =>
    let s := match label with
      | EncodingLabel.str s => s
      | EncodingLabel.bytes b => asciiDecodeIgnore b
    match s.trim.toLower with
    | "utf-7" | "utf7" | "x-utf-7" => some "windows-1252"
    | "utf-8" | "utf8" => some "utf-8"
    | "iso-8859-1" | "iso8859-1" | "latin1" | "latin-1" | "l1" | "cp819"
    | "ibm819" => some "windows-1252"
    | "windows-1252" | "windows1252" | "cp1252" | "x-cp1252" =>
      some "windows-1252"
    | "iso-8859-2" | "iso8859-2" | "latin2" | "latin-2" => some "iso-8859-2"
    | "euc-jp" | "eucjp" => some "euc-jp"
    | "utf-16" | "utf16" => some "utf-16"
    | "utf-16le" | "utf16le" => some "utf-16le"
    | "utf-16be" | "utf16be" => some "utf-16be"
    | _ => none

/-- Translated from `encoding.ts`: `normalizeMetaDeclaredEncoding` maps
UTF-16/32 variants declared in markup to UTF-8. -/
def normalizeMetaDeclaredEncoding (label : EncodingLabel) : Option String :=
  match normalizeEncodingLabel (some label) with
  | none => none
  | some "utf-16" | some "utf-16le" | some "utf-16be" | some "utf-32"
  | some "utf-32le" | some "utf-32b" => some "utf-8"
  | some enc => some enc

/-- Translated from `encoding.ts`: `sniffBOM` recognizes the three byte
order marks and reports the detected encoding with the BOM length. -/
def sniffBOM (data : List Nat) : Option String × Nat :=
  if 3 ≤ data.length ∧ data.take 3 = [0xef, 0xbb, 0xbf] then (some "utf-8", 3)
  else if 2 ≤ data.length ∧ data.take 2 = [0xff, 0xfe] then (some "utf-16le", 2)
  else if 2 ≤ data.length ∧ data.take 2 = [0xfe, 0xff] then (some "utf-16be", 2)
  else (none, 0)

/-- Translated from `encoding.ts`: `extractCharsetFromContent` finds a
`charset=` declaration inside a `content` attribute value, honoring
whitespace normalization and optional quoting. -/
def extractCharsetFromContent (contentBytes : Option (List Nat)) : Option (List Nat) :=
  match contentBytes with
  | none => none
  | some content =>
    if content.length = 0 then none
    else
      let normalized := content.map (fun ch =>
        if isAsciiWhitespaceByte ch then 0x20 else asciiLowerByte ch)
      let charsetNeedle : List Nat := [0x63, 0x68, 0x61, 0x72, 0x73, 0x65, 0x74]
      match indexOfSubarray normalized charsetNeedle 0 with
      | none => none
      | some idx =>
        let n := normalized.length
        let i := skipAsciiWhitespace normalized (idx + charsetNeedle.length)
        if i ≥ n ∨ normalized.get? i ≠ some 0x3d then none
        else
          let i := skipAsciiWhitespace normalized (i + 1)
          if i ≥ n then none
          else
            let quote : Option Nat :=
              if normalized.get? i = some 0x22 ∨ normalized.get? i = some 0x27 then
                normalized.get? i
              else none
            let i := if quote.isSome then i + 1 else i
            let start := i
            let stopAt : Nat → Bool := fun ch =>
              match quote with
              | some q => ch = q
              | none => isAsciiWhitespaceByte ch ∨ ch = 0x3b
            let i := i + countWhileB (fun ch => ¬ stopAt ch) (normalized.drop i)
            if quote.isSome ∧ (i ≥ n ∨ normalized.get? i ≠ quote) then none
            else some ((normalized.drop start).take (i - start))

/-- Outcome of the meta attribute-scanning loop of `preScanForMetaCharset`
(lines 334-416 of `encoding.ts`): final index, whether `>` was seen, the
collected `charset` / `http-equiv` / `content` attribute values, and
whether the loop aborted on an unclosed quoted value. -/
structure MetaAttrResult where
  k : Nat
  sawGt : Bool
  charset : Option (List Nat)
  httpEquiv : Option (List Nat)
  content : Option (List Nat)
  unclosedQuote : Bool

/-- Attribute-scanning loop of `preScanForMetaCharset`, translated with
fuel (the index `k` strictly increases every iteration). -/
def metaAttrLoop (data : List Nat) : Nat → Nat → Option (List Nat) →
    Option (List Nat) → Option (List Nat) → MetaAttrResult
  | 0, k, charset, httpEquiv, content =>
    ⟨k, false, charset, httpEquiv, content, false⟩
  | fuel + 1, k, charset, httpEquiv, content =>
    let n := data.length
    if k < n ∧ k < 65536 then
      let ch := (data.get? k).getD 0
      if ch = 0x3e then ⟨k + 1, true, charset, httpEquiv, content, false⟩
      else if ch = 0x3c then ⟨k, false, charset, httpEquiv, content, false⟩
      else if isAsciiWhitespaceByte ch ∨ ch = 0x2f then
        metaAttrLoop data fuel (k + 1) charset httpEquiv content
      else
        let attrStart := k
        let k := k + countWhileB (fun c =>
          ¬ (isAsciiWhitespaceByte c ∨ c = 0x3d ∨ c = 0x3e ∨ c = 0x2f ∨ c = 0x3c))
          (data.drop k)
        let attrEnd := k
        let k := skipAsciiWhitespace data k
        if k < n ∧ data.get? k = some 0x3d then
          let k := skipAsciiWhitespace data (k + 1)
          if k ≥ n then ⟨k, false, charset, httpEquiv, content, false⟩
          else
            let q := (data.get? k).getD 0
            if q = 0x22 ∨ q = 0x27 then
              let valStart := k + 1
              match indexOfByte data q valStart with
              | none => ⟨k, false, none, none, none, true⟩
              | some endQuote =>
                let value := (data.drop valStart).take (endQuote - valStart)
                let k := endQuote + 1
                if bytesEqualLower data attrStart attrEnd
                    [0x63, 0x68, 0x61, 0x72, 0x73, 0x65, 0x74] then
                  metaAttrLoop data fuel k
                    (some (stripAsciiWhitespaceBytes value)) httpEquiv content
                else if bytesEqualLower data attrStart attrEnd
                    [0x68, 0x74, 0x74, 0x70, 0x2d, 0x65, 0x71, 0x75, 0x69, 0x76] then
                  metaAttrLoop data fuel k charset (some value) content
                else if bytesEqualLower data attrStart attrEnd
                    [0x63, 0x6f, 0x6e, 0x74, 0x65, 0x6e, 0x74] then
                  metaAttrLoop data fuel k charset httpEquiv (some value)
                else metaAttrLoop data fuel k charset httpEquiv content
            else
              let valStart := k
              let k := k + countWhileB (fun c =>
                ¬ (isAsciiWhitespaceByte c ∨ c = 0x3e ∨ c = 0x3c)) (data.drop k)
              let value := (data.drop valStart).take (k - valStart)
              if bytesEqualLower data attrStart attrEnd
                  [0x63, 0x68, 0x61, 0x72, 0x73, 0x65, 0x74] then
                metaAttrLoop data fuel k
                  (some (stripAsciiWhitespaceBytes value)) httpEquiv content
              else if bytesEqualLower data attrStart attrEnd
                  [0x68, 0x74, 0x74, 0x70, 0x2d, 0x65, 0x71, 0x75, 0x69, 0x76] then
                metaAttrLoop data fuel k charset (some value) content
              else if bytesEqualLower data attrStart attrEnd
                  [0x63, 0x6f, 0x6e, 0x74, 0x65, 0x6e, 0x74] then
                metaAttrLoop data fuel k charset httpEquiv (some value)
              else metaAttrLoop data fuel k charset httpEquiv content
        else
          -- No value: classify with `value` undefined.
          if bytesEqualLower data attrStart attrEnd
              [0x63, 0x68, 0x61, 0x72, 0x73, 0x65, 0x74] then
            metaAttrLoop data fuel k none httpEquiv content
          else if bytesEqualLower data attrStart attrEnd
              [0x68, 0x74, 0x74, 0x70, 0x2d, 0x65, 0x71, 0x75, 0x69, 0x76] then
            metaAttrLoop data fuel k charset none content
          else if bytesEqualLower data attrStart attrEnd
              [0x63, 0x6f, 0x6e, 0x74, 0x65, 0x6e, 0x74] then
            metaAttrLoop data fuel k charset httpEquiv none
          else metaAttrLoop data fuel k charset httpEquiv content
    else ⟨k, false, charset, httpEquiv, content, false⟩

/-- Tag-skipping loop of `preScanForMetaCharset` (quote-aware skip to the
closing `>`), translated with fuel. -/
def skipTagLoop (data : List Nat) : Nat → Nat → Option Nat → Nat → Nat × Nat
  | 0, k, _, nonComment => (k, nonComment)
  | fuel + 1, k, quote, nonComment =>
    if k < data.length ∧ k < 65536 ∧ nonComment < 1024 then
      let ch := (data.get? k).getD 0
      match quote with
      | none =>
        if ch = 0x22 ∨ ch = 0x27 then
          skipTagLoop data fuel (k + 1) (some ch) (nonComment + 1)
        else if ch = 0x3e then (k + 1, nonComment + 1)
        else skipTagLoop data fuel (k + 1) none (nonComment + 1)
      | some q =>
        if ch = q then skipTagLoop data fuel (k + 1) none (nonComment + 1)
        else skipTagLoop data fuel (k + 1) (some q) (nonComment + 1)
    else (k, nonComment)

/-- Main loop of `preScanForMetaCharset`, translated with fuel (the index
`i` strictly increases every iteration, so `data.length + 1` units
suffice; on exhaustion the scan reports no encoding, which matches the
loop-exit behavior). -/
def preScanLoop (data : List Nat) : Nat → Nat → Nat → Option String
  | 0, _, _ => none
  | fuel + 1, i, nonComment =>
    let n := data.length
    if i < n ∧ i < 65536 ∧ nonComment < 1024 then
      if (data.get? i).getD 0 ≠ 0x3c then preScanLoop data fuel (i + 1) (nonComment + 1)
      else if i + 3 < n ∧ data.get? (i + 1) = some 0x21 ∧
          data.get? (i + 2) = some 0x2d ∧ data.get? (i + 3) = some 0x2d then
        match indexOfSubarray data [0x2d, 0x2d, 0x3e] (i + 4) with
        | none => none
        | some e => preScanLoop data fuel (e + 3) nonComment
      else
        let j := i + 1
        if data.get? j = some 0x2f then
          let (k, nc) := skipTagLoop data (n + 1) i none nonComment
          preScanLoop data fuel k nc
        else if j ≥ n ∨ ¬ isAsciiAlphaByte ((data.get? j).getD 0) then
          preScanLoop data fuel (i + 1) (nonComment + 1)
        else
          let nameStart := j
          let j := j + countWhileB isAsciiAlphaByte (data.drop j)
          if ¬ bytesEqualLower data nameStart j [0x6d, 0x65, 0x74, 0x61] then
            let (k, nc) := skipTagLoop data (n + 1) i none nonComment
            preScanLoop data fuel k nc
          else
            let startI := i
            let r := metaAttrLoop data (n + 1) j none none none
            if r.sawGt then
              let fromCharset : Option String :=
                match r.charset with
                | some cs =>
                  if cs.length ≠ 0 then
                    normalizeMetaDeclaredEncoding (EncodingLabel.bytes cs)
                  else none
                | none => none
              match fromCharset with
              | some enc => some enc
              | none =>
                let fromContent : Option String :=
                  match r.httpEquiv, r.content with
                  | some he, some content =>
                    if bytesEqualIgnoreAsciiCase he
                        [0x63, 0x6f, 0x6e, 0x74, 0x65, 0x6e, 0x74, 0x2d,
                         0x74, 0x79, 0x70, 0x65] then
                      match extractCharsetFromContent (some content) with
                      | some extracted =>
                        normalizeMetaDeclaredEncoding (EncodingLabel.bytes extracted)
                      | none => none
                    else none
                  | _, _ => none
                match fromContent with
                | some enc => some enc
                | none =>
                  preScanLoop data fuel r.k (nonComment + (r.k - startI))
            else
              let bump := if r.unclosedQuote then 2 else 1
              preScanLoop data fuel (i + bump) (nonComment + bump)
    else none

/-- Translated from `encoding.ts`: `preScanForMetaCharset` scans up to 1024
non-comment bytes (65536 total) for a `<meta>` declared encoding. -/
def preScanForMetaCharset (data : List Nat) : Option String :=
  preScanLoop data (data.length + 1) 0 0

/-- Translated from `encoding.ts`: `sniffHTMLEncoding` resolves the
encoding of an HTML byte stream from the transport hint, then the BOM,
then the meta prescan, defaulting to windows-1252.  Returns the encoding
name with the number of BOM bytes to skip. -/
def sniffHTMLEncoding (data : List Nat) (transportEncoding : Option EncodingLabel) :
    String × Nat :=
  match normalizeEncodingLabel transportEncoding with
  | some transport => (transport, 0)
  | none =>
    match sniffBOM data with
    | (some bomEnc, bomLength) => (bomEnc, bomLength)
    | (none, _) =>
      match preScanForMetaCharset data with
      | some metaEnc => (metaEnc, 0)
      | none => ("windows-1252", 0)

/-! ## Node model (`src/src/node.ts`)

The mutable `Node` objects of the source (with `parentNode` back
references and shared references held by the open-elements stack) are
modelled as records stored in a heap: a list of `NodeData` addressed by
index.  Every `Node` method that mutates the tree becomes a function from
heaps to heaps; methods that throw return `none`. -/

/-- Payload of `Node.data`: absent, text, or a doctype record. -/
inductive NodePayload where
  | nothing
  | text (s : String)
  | doctype (name publicId systemId : Option String) (forceQuirks : Bool)
  deriving Repr, DecidableEq

/-- One node record: the fields of the `Node` class, with object
references replaced by heap indices. -/
structure NodeData where
  name : String
  nspace : Option String := some "html"
  payload : NodePayload := NodePayload.nothing
  attrs : List (String × Option String) := []
  children : List Nat := []
  parent : Option Nat := none
  templateContent : Option Nat := none
  deriving Repr, DecidableEq

instance : Inhabited NodeData := ⟨{ name := "" }⟩

/-- A node heap; index `i` holds the node created `i`-th. -/
abbrev Heap := List NodeData

/-- Reads a node record (out-of-range reads return the default record; the
source never holds dangling references). -/
def getNode (h : Heap) (i : Nat) : NodeData :=
  (h.get? i).getD default

/-- Updates the node record at index `i` in place. -/
def modifyNode (h : Heap) (i : Nat) (f : NodeData → NodeData) : Heap :=
  match h.get? i with
  | some nd => h.set i (f nd)
  | none => h

/-- Translated from `node.ts`: the `Node` constructor.  Allocates the node
(and, for an HTML-namespace `template`, its `#document-fragment` content
node) at the end of the heap and returns the new index. -/
def mkNode (h : Heap) (name : String) (payload : NodePayload)
    (nspace : Option String) (attrs : List (String × Option String)) : Heap × Nat :=
  let id := h.length
  if name = "template" ∧ nspace = some "html" then
    (h ++ [{ name := name, nspace := nspace, payload := payload, attrs := attrs,
             templateContent := some (id + 1) },
           { name := "#document-fragment" }], id)
  else
    (h ++ [{ name := name, nspace := nspace, payload := payload, attrs := attrs }], id)

/-- Translated from `node.ts`: `appendChild` pushes the node onto the
child list and redirects its parent reference. -/
def nodeAppendChild (h : Heap) (self node : Nat) : Heap :=
  let h := modifyNode h self (fun nd => { nd with children := nd.children ++ [node] })
  modifyNode h node (fun nd => { nd with parent := some self })

/-- Translated from `node.ts`: `removeChild` splices out the first
occurrence of the node and clears its parent reference; a non-child
argument throws (`none`). -/
def nodeRemoveChild (h : Heap) (self node : Nat) : Option Heap :=
  if node ∈ (getNode h self).children then
    let h := modifyNode h self (fun nd => { nd with children := nd.children.erase node })
    some (modifyNode h node (fun nd => { nd with parent := none }))
  else none

/-- Inserts `node` immediately before the first occurrence of `ref`,
mirroring `childNodes.splice(indexOf(ref), 0, node)`. -/
def insertIntoList (ref node : Nat) : List Nat → List Nat
  | [] => []
  | x :: rest =>
    if x = ref then node :: x :: rest else x :: insertIntoList ref node rest

/-- Translated from `node.ts`: `insertBefore` appends when the reference is
absent, splices before the reference when present, and throws (`none`)
when the reference is not a child. -/
def nodeInsertBefore (h : Heap) (self node : Nat) (referenceNode : Option Nat) :
    Option Heap :=
  match referenceNode with
  | none => some (nodeAppendChild h self node)
  | some ref =>
    if ref ∈ (getNode h self).children then
      let h := modifyNode h self
        (fun nd => { nd with children := insertIntoList ref node nd.children })
      some (modifyNode h node (fun nd => { nd with parent := some self }))
    else none

/-- Replaces the first occurrence of `oldN` by `newN`, mirroring
`childNodes[i] = newNode`. -/
def replaceInList (oldN newN : Nat) : List Nat → List Nat
  | [] => []
  | x :: rest =>
    if x = oldN then newN :: rest else x :: replaceInList oldN newN rest

/-- Translated from `node.ts`: `replaceChild` overwrites the child-list
slot of the old node, detaches the old node, and attaches the new one; a
non-child old node throws (`none`). -/
def nodeReplaceChild (h : Heap) (self newNode oldNode : Nat) : Option Heap :=
  if oldNode ∈ (getNode h self).children then
    let h := modifyNode h self
      (fun nd => { nd with children := replaceInList oldNode newNode nd.children })
    let h := modifyNode h oldNode (fun nd => { nd with parent := none })
    some (modifyNode h newNode (fun nd => { nd with parent := some self }))
  else none

/-- A pending deep-clone step: clone `src` and either append the clone to
`parent` or install it as the `templateContent` of `owner`. -/
inductive CloneTask where
  | intoParent (src parent : Nat)
  | intoTemplate (src owner : Nat)
  deriving Repr, DecidableEq

/-- Translated from `node.ts`: the deep branch of `cloneNode` (`cloneNode(true)`),
as an explicit depth-first worklist so that the recursion is structural in
the fuel: each step copies one node (attrs copied, child list empty),
links the copy, and schedules the node's children and template content.
One unit of fuel per cloned node suffices; on exhaustion the heap so far
is returned (no run in this file reaches that). -/
def cloneRun : Nat → Heap → List CloneTask → Heap
  | 0, h, _ => h
  | _ + 1, h, [] => h
  | fuel + 1, h, task :: rest =>
    let src := match task with
      | CloneTask.intoParent s _ => s
      | CloneTask.intoTemplate s _ => s
    let nd := getNode h src
    let (h, cloneId) := mkNode h nd.name nd.payload nd.nspace nd.attrs
    let h := match task with
      | CloneTask.intoParent _ parent => nodeAppendChild h parent cloneId
      | CloneTask.intoTemplate _ owner =>
        modifyNode h owner (fun d => { d with templateContent := some cloneId })
    let tasks :=
      (nd.children.map (fun c => CloneTask.intoParent c cloneId)) ++
      (match nd.templateContent with
       | some tc => [CloneTask.intoTemplate tc cloneId]
       | none => []) ++ rest
    cloneRun fuel h tasks

/-! ### Tree invariants (section 3 of the spec) -/

/-- Invariant (i) of the spec: every node in a child list points back to
the list owner through `parentNode`. -/
def parentOk (h : Heap) : Prop :=
  ∀ p, p < h.length → ∀ c, c ∈ (getNode h p).children →
    (getNode h c).parent = some p

/-- Invariant (ii) of the spec, across lists: a node appears in the child
lists of at most one parent. -/
def childListsDisjoint (h : Heap) : Prop :=
  ∀ p, p < h.length → ∀ q, q < h.length →
    ∀ c, c ∈ (getNode h p).children → c ∈ (getNode h q).children → p = q

/-- Invariant (ii) of the spec, within a list: a node appears at most once
in any single child list. -/
def childOnceInList (h : Heap) : Prop :=
  ∀ p, p < h.length → ∀ c, ((getNode h p).children).count c ≤ 1

/-- A node outside every child list (freshly created, or removed). -/
def detachedNode (h : Heap) (c : Nat) : Prop :=
  ∀ p, p < h.length → c ∉ (getNode h p).children

/-! ## Tokens (`tokens.ts`) -/

/-- Mirrors `TagKind`. -/
inductive TagKind where
  | Start
  | End
  deriving Repr, DecidableEq

/-- Mirrors the `Token` union type. -/
inductive Token where
  | tag (kind : TagKind) (name : String) (attrs : List (String × Option String))
      (selfClosing : Bool)
  | character (data : String)
  | comment (data : String)
  | doctype (name publicId systemId : Option String) (forceQuirks : Bool)
  | eof
  deriving Repr, DecidableEq

/-- Mirrors `TokenSinkResult`. -/
inductive TokenSinkResult where
  | Continue
  | Plaintext
  deriving Repr, DecidableEq

/-! ## Tokenizer (`tokenizer.ts`)

Tokenizer states keep the numeric values of the source const enum
`State` (`Data = 0` ... `PlainText = 48` ...), because `flushText`
compares states by order.  Only the states that the theorems below
exercise (`Data`, `TagOpen`, `EndTagOpen`, `TagName`) are translated;
`stepTok` answers `none` for the rest, and every evaluation in this file
stays within the translated states. -/

/-- Numeric values of the tokenizer-state enum used in this development. -/
def StData : Nat := 0
/-- `State.TagOpen`. -/
def StTagOpen : Nat := 1
/-- `State.EndTagOpen`. -/
def StEndTagOpen : Nat := 2
/-- `State.TagName`. -/
def StTagName : Nat := 3
/-- `State.BeforeAttributeName`. -/
def StBeforeAttributeName : Nat := 4
/-- `State.SelfClosingStartTag`. -/
def StSelfClosingStartTag : Nat := 12
/-- `State.MarkupDeclarationOpen`. -/
def StMarkupDeclarationOpen : Nat := 13
/-- `State.BogusComment`. -/
def StBogusComment : Nat := 20
/-- `State.CDATASection`. -/
def StCDATASection : Nat := 37
/-- `State.CDATASectionEnd`. -/
def StCDATASectionEnd : Nat := 39
/-- `State.RCDATA`. -/
def StRCDATA : Nat := 40
/-- `State.RawText`. -/
def StRawText : Nat := 44
/-- `State.PlainText`. -/
def StPlainText : Nat := 48

/-- Mirrors `TokenizerOpts`. -/
structure TokenizerOpts where
  initialState : Option Nat := none
  initialRawTextTag : Option String := none
  discardBom : Bool := false
  xmlCoercion : Bool := false

/-- Tokenizer error codes exercised by this development (`ErrorCode`). -/
inductive TokErrorCode where
  | DuplicateAttribute
  | UnexpectedQuestionMarkInsteadOfTagName
  | InvalidFirstCharacterOfTagName
  | EofBeforeTagName
  | MissingEndTagName
  | EofInTag
  | EndTagWithAttributes
  | UnexpectedNullCharacter
  deriving Repr, DecidableEq

/-- The abstract tokenizer sink (`TokenizerSink`): the token consumer, the
character consumer, and the optional read-only `openElements` view, of
which `emitCurrentTag` only reads each entry's `namespace` field (so the
view is modelled as the list of namespaces; `none` when the sink has no
such property).  Sink operations return `none` when they run into program
behavior outside this development. -/
structure Sink (σ : Type) where
  processToken : σ → Token → Option (σ × Option TokenSinkResult)
  processCharacters : σ → String → Option σ
  openElementsNS : σ → Option (List (Option String))

/-- Mutable state of `createTokenizer`, one field per closure variable
used by the translated states (string-array buffers are modelled as
strings; the doctype/comment buffers only feed untranslated states). -/
structure TokSt where
  state : Nat := StData
  buffer : List Char := []
  pos : Nat := 0
  reconsume : Bool := false
  currentChar : Option Char := none
  ignoreLF : Bool := false
  errors : List (TokErrorCode × Nat) := []
  textBuffer : List String := []
  currentTagName : String := ""
  currentTagAttrs : List (String × String) := []
  currentAttrName : String := ""
  currentAttrValue : String := ""
  currentAttrValueHasAmp : Bool := false
  currentTagSelfClosing : Bool := false
  currentTagKind : TagKind := TagKind.Start
  currentComment : String := ""
  lastStartTagName : Option String := none
  rawTextTagName : Option String := none
  deriving Repr

/-- Mirrors the tokenizer helper `isAsciiAlpha` (same test as in
`entities.ts`). -/
def isAsciiAlphaC (c : Char) : Bool :=
  (0x41 ≤ c.toNat ∧ c.toNat ≤ 0x5a) ∨ (0x61 ≤ c.toNat ∧ c.toNat ≤ 0x7a)

/-- Mirrors `asciiLower` on a single character. -/
def asciiLower (c : Char) : Char :=
  if 0x41 ≤ c.toNat ∧ c.toNat ≤ 0x5a then Char.ofNat (c.toNat + 0x20) else c

/-- Inner loop of `getChar`: reads the next raw character, normalizing
`\r\n` and lone `\r` to `\n` via the `ignoreLF` latch.  Returns the new
position, the new latch, and the character (`none` at end of input).
The position advances every iteration, so remaining-length fuel
suffices. -/
def getCharLoop (buffer : List Char) : Nat → Nat → Bool → Nat × Bool × Option Char
  | 0, pos, ignoreLF => (pos, ignoreLF, none)
  | fuel + 1, pos, ignoreLF =>
    if pos ≥ buffer.length then (pos, ignoreLF, none)
    else
      let c := (buffer.get? pos).getD ' '
      let pos := pos + 1
      if c = '\r' then (pos, true, some '\n')
      else if c = '\n' ∧ ignoreLF then getCharLoop buffer fuel pos false
      else (pos, false, some c)

/-- Translated from `tokenizer.ts`: `getChar`, honoring the re-consume
flag. -/
def getChar (ts : TokSt) : TokSt × Option Char :=
  if ts.reconsume then ({ ts with reconsume := false }, ts.currentChar)
  else
    let (pos, ign, c) :=
      getCharLoop ts.buffer (ts.buffer.length - ts.pos + 1) ts.pos ts.ignoreLF
    ({ ts with pos := pos, ignoreLF := ign, currentChar := c }, c)

/-- Mirrors `reconsumeCurrent`. -/
def reconsumeCurrent (ts : TokSt) : TokSt :=
  { ts with reconsume := true }

/-- Mirrors the tokenizer `appendText` (pushes a nonempty chunk onto the
text buffer). -/
def tokAppendText (ts : TokSt) (s : String) : TokSt :=
  if s ≠ "" then { ts with textBuffer := ts.textBuffer ++ [s] } else ts

/-- Mirrors `emitError`: records the code at the last-read offset. -/
def tokEmitError (ts : TokSt) (code : TokErrorCode) : TokSt :=
  { ts with errors := ts.errors ++ [(code, ts.pos - 1)] }

/-- Translated from `tokenizer.ts`: `flushText` joins the buffered text,
entity-decodes it outside CDATA / raw-text / plaintext states when it
contains an ampersand, and hands it to the sink.  The XML-coercion option
is outside this development (`none`). -/
def flushText {σ : Type} (entities : List (String × String)) (opts : TokenizerOpts)
    (S : Sink σ) (ts : TokSt) (s : σ) : Option (TokSt × σ) :=
  if ts.textBuffer = [] then some (ts, s)
  else
    let data := String.join ts.textBuffer
    let ts := { ts with textBuffer := [] }
    let inCDATA := StCDATASection ≤ ts.state ∧ ts.state ≤ StCDATASectionEnd
    let data :=
      if ¬inCDATA ∧ ts.state < StRawText ∧ ts.state < StPlainText ∧
          data.toList.contains '&' then
        String.mk (decodeEntitiesInText entities false data.toList)
      else data
    if opts.xmlCoercion then none
    else
      match S.processCharacters s data with
      | some s => some (ts, s)
      | none => none

/-- Mirrors `startNewAttribute`. -/
def startNewAttribute (ts : TokSt) : TokSt :=
  { ts with currentAttrName := "", currentAttrValue := "",
            currentAttrValueHasAmp := false }

/-- Translated from `tokenizer.ts`: `finishAttribute`.  A pending
attribute whose name is already in the tag's attribute map raises a
`DuplicateAttribute` error and is discarded; otherwise the (possibly
entity-decoded) value is appended to the map. -/
def finishAttribute (entities : List (String × String)) (ts : TokSt) : TokSt :=
  if ts.currentAttrName = "" then ts
  else
    let name := ts.currentAttrName
    let ts := { ts with currentAttrName := "" }
    if (ts.currentTagAttrs.map Prod.fst).contains name then
      let ts := tokEmitError ts TokErrorCode.DuplicateAttribute
      { ts with currentAttrValue := "", currentAttrValueHasAmp := false }
    else
      let value := ts.currentAttrValue
      let ts := { ts with currentAttrValue := "" }
      let value :=
        if ts.currentAttrValueHasAmp then
          String.mk (decodeEntitiesInText entities true value.toList)
        else value
      { ts with currentAttrValueHasAmp := false,
                currentTagAttrs := ts.currentTagAttrs ++ [(name, value)] }

/-- Mirrors `RCDATA_ELEMENTS`. -/
def RCDATA_ELEMENTS : List String := ["title", "textarea"]

/-- Mirrors `RAW_TEXT_SWITCH_TAGS`. -/
def RAW_TEXT_SWITCH_TAGS : List String :=
  ["script", "style", "xmp", "iframe", "noembed", "noframes", "textarea", "title"]

/-- Target of the raw-text state switch once the namespace check passed:
the new state and whether the raw-text sentinel latches the tag name. -/
def rawSwitchTarget (name : String) : Nat × Bool :=
  if RCDATA_ELEMENTS.contains name then (StRCDATA, true)
  else if RAW_TEXT_SWITCH_TAGS.contains name then (StRawText, true)
  else (StPlainText, false)

/-- The raw-text/RCDATA/PLAINTEXT switch check performed by
`emitCurrentTag` for a start tag (lines 526-546 of `tokenizer.ts`): the
tag must be a raw-text-switching name and the sink's current open element
must be absent or in the HTML namespace.  Returns `none` when no switch
happens. -/
def rawTextSwitchDecision (name : String) (stackNS : Option (List (Option String))) :
    Option (Nat × Bool) :=
  let needsRawTextCheck := RAW_TEXT_SWITCH_TAGS.contains name ∨ name = "plaintext"
  if needsRawTextCheck then
    let stack := stackNS.getD []
    match stack.getLast? with
    | none => some (rawSwitchTarget name)
    | some nspace =>
      if nspace = some "html" then some (rawSwitchTarget name) else none
  else none

/-- Translated from `tokenizer.ts`: `emitCurrentTag` builds the tag token,
latches the last start tag, performs the raw-text switch check, lets the
sink process the token (honoring a requested PLAINTEXT switch), and
clears the tag-building state.  Returns the updated tokenizer and sink
states and the `switchedToRawText` flag. -/
def emitCurrentTag {σ : Type} (S : Sink σ) (ts : TokSt) (s : σ) :
    Option (TokSt × σ × Bool) :=
  let name := ts.currentTagName
  let tagToken := Token.tag ts.currentTagKind name
    (ts.currentTagAttrs.map (fun p => (p.1, some p.2))) ts.currentTagSelfClosing
  let (ts, switched) :=
    if ts.currentTagKind = TagKind.Start then
      let ts := { ts with lastStartTagName := some name }
      match rawTextSwitchDecision name (S.openElementsNS s) with
      | some (st, setRaw) =>
        ({ ts with state := st,
                   rawTextTagName := if setRaw then some name else ts.rawTextTagName },
         true)
      | none => (ts, false)
    else (ts, false)
  match S.processToken s tagToken with
  | none => none
  | some (s, result) =>
    let (ts, switched) :=
      if result = some TokenSinkResult.Plaintext then
        ({ ts with state := StPlainText }, true)
      else (ts, switched)
    some ({ ts with currentTagName := "", currentTagAttrs := [],
                    currentAttrName := "", currentAttrValue := "",
                    currentAttrValueHasAmp := false,
                    currentTagSelfClosing := false,
                    currentTagKind := TagKind.Start }, s, switched)

/-- Lets the sink process a token whose result is ignored (`emitToken`). -/
def tokEmitToken {σ : Type} (S : Sink σ) (s : σ) (t : Token) : Option σ :=
  match S.processToken s t with
  | some (s, _) => some s
  | none => none

/-- Translated from `tokenizer.ts`: the `Data` state. -/
def stateData {σ : Type} (entities : List (String × String)) (opts : TokenizerOpts)
    (S : Sink σ) (ts : TokSt) (s : σ) : Option (TokSt × σ × Bool) :=
  let (ts, c) := getChar ts
  match c with
  | none =>
    match flushText entities opts S ts s with
    | none => none
    | some (ts, s) =>
      match tokEmitToken S s Token.eof with
      | none => none
      | some s => some (ts, s, true)
  | some '<' =>
    match flushText entities opts S ts s with
    | none => none
    | some (ts, s) => some ({ ts with state := StTagOpen }, s, false)
  | some c => some (tokAppendText ts (String.mk [c]), s, false)

/-- Translated from `tokenizer.ts`: the `TagOpen` state. -/
def stateTagOpen {σ : Type} (entities : List (String × String)) (opts : TokenizerOpts)
    (S : Sink σ) (ts : TokSt) (s : σ) : Option (TokSt × σ × Bool) :=
  let (ts, c) := getChar ts
  match c with
  | none =>
    let ts := tokAppendText ts "<"
    match flushText entities opts S ts s with
    | none => none
    | some (ts, s) =>
      match tokEmitToken S s Token.eof with
      | none => none
      | some s => some (ts, s, true)
  | some '!' => some ({ ts with state := StMarkupDeclarationOpen }, s, false)
  | some '/' => some ({ ts with state := StEndTagOpen }, s, false)
  | some '?' =>
    let ts := tokEmitError ts TokErrorCode.UnexpectedQuestionMarkInsteadOfTagName
    let ts := { ts with currentComment := "" }
    let ts := reconsumeCurrent ts
    some ({ ts with state := StBogusComment }, s, false)
  | some c =>
    if isAsciiAlphaC c then
      some ({ ts with currentTagKind := TagKind.Start,
                      currentTagName := String.mk [asciiLower c],
                      currentTagAttrs := [],
                      currentTagSelfClosing := false,
                      state := StTagName }, s, false)
    else
      let ts := tokEmitError ts TokErrorCode.InvalidFirstCharacterOfTagName
      let ts := tokAppendText ts "<"
      let ts := reconsumeCurrent ts
      some ({ ts with state := StData }, s, false)

/-- Translated from `tokenizer.ts`: the `EndTagOpen` state. -/
def stateEndTagOpen {σ : Type} (entities : List (String × String))
    (opts : TokenizerOpts) (S : Sink σ) (ts : TokSt) (s : σ) :
    Option (TokSt × σ × Bool) :=
  let (ts, c) := getChar ts
  match c with
  | none =>
    let ts := tokEmitError ts TokErrorCode.EofBeforeTagName
    let ts := tokAppendText ts "</"
    match flushText entities opts S ts s with
    | none => none
    | some (ts, s) =>
      match tokEmitToken S s Token.eof with
      | none => none
      | some s => some (ts, s, true)
  | some '>' =>
    let ts := tokEmitError ts TokErrorCode.MissingEndTagName
    some ({ ts with state := StData }, s, false)
  | some c =>
    if isAsciiAlphaC c then
      some ({ ts with currentTagKind := TagKind.End,
                      currentTagName := String.mk [asciiLower c],
                      currentTagAttrs := [],
                      currentTagSelfClosing := false,
                      state := StTagName }, s, false)
    else
      let ts := tokEmitError ts TokErrorCode.InvalidFirstCharacterOfTagName
      let ts := { ts with currentComment := "" }
      let ts := reconsumeCurrent ts
      some ({ ts with state := StBogusComment }, s, false)

/-- Translated from `tokenizer.ts`: the `TagName` state. -/
def stateTagName {σ : Type} (S : Sink σ) (ts : TokSt) (s : σ) :
    Option (TokSt × σ × Bool) :=
  let (ts, c) := getChar ts
  match c with
  | none =>
    let ts := tokEmitError ts TokErrorCode.EofInTag
    match tokEmitToken S s Token.eof with
    | none => none
    | some s => some (ts, s, true)
  | some '\t' | some '\n' | some '\x0c' | some ' ' | some '\r' =>
    let ts :=
      if ts.currentTagKind = TagKind.End then
        tokEmitError ts TokErrorCode.EndTagWithAttributes
      else ts
    some ({ ts with state := StBeforeAttributeName }, s, false)
  | some '/' => some ({ ts with state := StSelfClosingStartTag }, s, false)
  | some '>' =>
    match emitCurrentTag S ts s with
    | none => none
    | some (ts, s, switched) =>
      if ¬switched then some ({ ts with state := StData }, s, false)
      else some (ts, s, false)
  | some '\x00' =>
    let ts := tokEmitError ts TokErrorCode.UnexpectedNullCharacter
    some ({ ts with currentTagName := ts.currentTagName ++ "�" }, s, false)
  | some c =>
    some ({ ts with currentTagName := ts.currentTagName.push (asciiLower c) }, s,
      false)

/-- Translated from `tokenizer.ts`: `step` dispatches on the current state;
states outside this development answer `none`. -/
def stepTok {σ : Type} (entities : List (String × String)) (opts : TokenizerOpts)
    (S : Sink σ) (ts : TokSt) (s : σ) : Option (TokSt × σ × Bool) :=
  if ts.state = StData then stateData entities opts S ts s
  else if ts.state = StTagOpen then stateTagOpen entities opts S ts s
  else if ts.state = StEndTagOpen then stateEndTagOpen entities opts S ts s
  else if ts.state = StTagName then stateTagName S ts s
  else none

/-- Translated from `tokenizer.ts`: `initialize`. -/
def initTok (opts : TokenizerOpts) (input : String) : TokSt :=
  let chars := input.toList
  let chars :=
    if opts.discardBom ∧ chars.head? = some '﻿' then chars.drop 1 else chars
  { state := opts.initialState.getD StData,
    buffer := chars,
    rawTextTagName := opts.initialRawTextTag }

/-- The `run` loop (`while (true) if (step()) break`), fuel-bounded: every
step either consumes input or immediately follows a re-consume, so twice
the input length plus a constant covers every run in this file. -/
def runTokLoop {σ : Type} (entities : List (String × String)) (opts : TokenizerOpts)
    (S : Sink σ) : Nat → TokSt → σ → Option (TokSt × σ)
  | 0, _, _ => none
  | fuel + 1, ts, s =>
    match stepTok entities opts S ts s with
    | none => none
    | some (ts, s, done) =>
      if done then some (ts, s) else runTokLoop entities opts S fuel ts s

/-- Translated from `tokenizer.ts`: `run` (initialize, then step to end of
input). -/
def runTok {σ : Type} (entities : List (String × String)) (opts : TokenizerOpts)
    (S : Sink σ) (input : String) (s : σ) : Option (TokSt × σ) :=
  runTokLoop entities opts S (2 * input.length + 8) (initTok opts input) s

/-! ## Stream adapter (`stream.ts`) -/

/-- Mirrors `StreamEvent`. -/
inductive StreamEvent where
  | start (name : String) (attrs : List (String × Option String))
  | endTag (name : String)
  | comment (data : String)
  | doctype (name publicId systemId : Option String)
  | text (data : String)
  deriving Repr, DecidableEq

/-- Translated from `stream.ts`: `StreamSink` records one event per token
or character chunk; the sink state is its `events` array.  It exposes no
`openElements` property. -/
def streamSink : Sink (List StreamEvent) where
  processToken := fun events t =>
    match t with
    | Token.tag TagKind.Start name attrs _ =>
      some (events ++ [StreamEvent.start name attrs], some TokenSinkResult.Continue)
    | Token.tag TagKind.End name _ _ =>
      some (events ++ [StreamEvent.endTag name], some TokenSinkResult.Continue)
    | Token.comment d =>
      some (events ++ [StreamEvent.comment d], some TokenSinkResult.Continue)
    | Token.doctype n p sys _ =>
      some (events ++ [StreamEvent.doctype n p sys], some TokenSinkResult.Continue)
    | _ => some (events, some TokenSinkResult.Continue)
  processCharacters := fun events d => some (events ++ [StreamEvent.text d])
  openElementsNS := fun _ => none

/-- Is the event a `("text", data)` event? -/
def isTextEvent : StreamEvent → Bool
  | StreamEvent.text _ => true
  | _ => false

/-- Per-batch yield loop of the `stream` generator (lines 1564-1582 of the
source): buffers consecutive text events into one and flushes the buffer
before each non-text event and at the end of the batch. -/
def batchYieldAux : List StreamEvent → Option String → List StreamEvent
  | [], some t => [StreamEvent.text t]
  | [], none => []
  | StreamEvent.text d :: rest, acc =>
    batchYieldAux rest (some ((acc.getD "") ++ d))
  | e :: rest, some t => StreamEvent.text t :: e :: batchYieldAux rest none
  | e :: rest, none => e :: batchYieldAux rest none

/-- Events yielded for one drained `sink.events` batch. -/
def batchYield (events : List StreamEvent) : List StreamEvent :=
  batchYieldAux events none

/-- Main loop of the `stream` generator: one tokenizer step, then drain
and yield the sink's event batch; stop after the EOF step. -/
def streamLoop (entities : List (String × String)) (opts : TokenizerOpts) :
    Nat → TokSt → List StreamEvent → Option (List StreamEvent)
  | 0, _, _ => none
  | fuel + 1, ts, out =>
    match stepTok entities opts streamSink ts [] with
    | none => none
    | some (ts, events, isEof) =>
      let out := out ++ batchYield events
      if isEof then some out else streamLoop entities opts fuel ts out

/-- Translated from `stream.ts`: `stream(html, options)` on string input,
returning the full event sequence (the generator run to completion). -/
def stream (entities : List (String × String)) (opts : TokenizerOpts)
    (input : String) : Option (List StreamEvent) :=
  streamLoop entities opts (2 * input.length + 8) (initTok opts input) []

/-- Whether a stream contains two consecutive text events. -/
def hasConsecutiveTextEvents : List StreamEvent → Bool
  | e1 :: e2 :: rest =>
    (isTextEvent e1 && isTextEvent e2) || hasConsecutiveTextEvents (e2 :: rest)
  | _ => false

/-! ## Tree builder (`src/src/treebuilder.ts`)

Insertion modes keep the numeric values of `InsertionMode` from
`treebuilder_utils`.  The translated mode handlers are exactly those the
theorems below drive tokens through (`INITIAL`, `BEFORE_HTML`,
`BEFORE_HEAD`, `IN_HEAD`, `IN_HEAD_NOSCRIPT`, `AFTER_HEAD`, `TEXT`,
`IN_BODY` for the tags exercised here, `AFTER_BODY`, `AFTER_AFTER_BODY`,
`IN_SELECT`, `IN_TEMPLATE`); the table and frameset modes, foreign
content, the adoption agency and the doctype handler are outside this
development and answer `none`. -/

/-- `InsertionMode.INITIAL`. -/
def ModeINITIAL : Nat := 0
/-- `InsertionMode.BEFORE_HTML`. -/
def ModeBEFORE_HTML : Nat := 1
/-- `InsertionMode.BEFORE_HEAD`. -/
def ModeBEFORE_HEAD : Nat := 2
/-- `InsertionMode.IN_HEAD`. -/
def ModeIN_HEAD : Nat := 3
/-- `InsertionMode.IN_HEAD_NOSCRIPT`. -/
def ModeIN_HEAD_NOSCRIPT : Nat := 4
/-- `InsertionMode.AFTER_HEAD`. -/
def ModeAFTER_HEAD : Nat := 5
/-- `InsertionMode.TEXT`. -/
def ModeTEXT : Nat := 6
/-- `InsertionMode.IN_BODY`. -/
def ModeIN_BODY : Nat := 7
/-- `InsertionMode.AFTER_BODY`. -/
def ModeAFTER_BODY : Nat := 8
/-- `InsertionMode.AFTER_AFTER_BODY`. -/
def ModeAFTER_AFTER_BODY : Nat := 9
/-- `InsertionMode.IN_FRAMESET`. -/
def ModeIN_FRAMESET : Nat := 17
/-- `InsertionMode.IN_SELECT`. -/
def ModeIN_SELECT : Nat := 20
/-- `InsertionMode.IN_TEMPLATE`. -/
def ModeIN_TEMPLATE : Nat := 21

/-- Mirrors `QuirksMode`. -/
inductive QuirksMode where
  | NoQuirks
  | LimitedQuirks
  | Quirks
  deriving Repr, DecidableEq

/-- Tree-builder error codes (`ErrorCode` in `treebuilder.ts`). -/
inductive TBErrorCode where
  | AdoptionAgency13
  | EndTagTooEarly
  | ExpectedClosingTagButGotEof
  | ExpectedDoctypeButGotChars
  | ExpectedDoctypeButGotEndTag
  | ExpectedDoctypeButGotEof
  | ExpectedDoctypeButGotStartTag
  | ExpectedNamedClosingTagButGotEof
  | FosterParentingCharacter
  | InvalidCodepoint
  | InvalidCodepointBeforeHead
  | InvalidCodepointInBody
  | InvalidCodepointInSelect
  | NonVoidHtmlElementStartTagWithTrailingSolidus
  | UnexpectedDoctype
  | UnexpectedEndTag
  | UnexpectedEndTagAfterHead
  | UnexpectedEndTagBeforeHead
  | UnexpectedEndTagBeforeHtml
  | UnexpectedHiddenInputAfterHead
  | UnexpectedStartTag
  | UnexpectedStartTagIgnored
  | UnexpectedStartTagImpliesEndTag
  | UnexpectedTokenAfterAfterBody
  | UnexpectedTokenAfterBody
  | UnknownDoctype
  deriving Repr, DecidableEq

/-- An entry of the active-formatting list: a marker or a formatting
record. -/
inductive FmtEntry where
  | marker
  | entry (name : String) (attrs : List (String × Option String)) (node : Nat)
      (signature : String)
  deriving Repr, DecidableEq

/-- Mirrors `FragmentContext` (`context.ts`). -/
structure FragmentContext where
  tagName : String
  nspace : Option String := none
  deriving Repr

/-- Mirrors `TreeBuilderState`, with nodes as heap indices. -/
structure TB where
  heap : Heap := []
  fragmentContext : Option FragmentContext := none
  iframeSrcdoc : Bool := false
  collectErrors : Bool := false
  errors : List (TBErrorCode × Option String) := []
  fragmentContextElement : Option Nat := none
  document : Nat := 0
  mode : Nat := ModeINITIAL
  originalMode : Option Nat := none
  tableTextOriginalMode : Option Nat := none
  openElements : List Nat := []
  headElement : Option Nat := none
  formElement : Option Nat := none
  framesetOk : Bool := true
  quirksMode : QuirksMode := QuirksMode.NoQuirks
  ignoreLF : Bool := false
  activeFormatting : List FmtEntry := []
  insertFromTable : Bool := false
  pendingTableText : List String := []
  templateModes : List Nat := []
  tokenizerStateOverride : Option TokenSinkResult := none
  deriving Repr

/-- A reprocess instruction: new insertion mode, token override, force-HTML
flag. -/
abbrev Reproc := Nat × Token × Bool

/-- Result type of a translated mode handler: the updated builder and an
optional reprocess instruction; `none` marks source behavior outside this
development. -/
abbrev MRes := Option (TB × Option Reproc)

/-- Mirrors `isAllWhitespace` from `treebuilder_utils`. -/
def isAllWhitespace (text : String) : Bool :=
  text.toList.all (fun ch =>
    ch = '\t' ∨ ch = '\n' ∨ ch = '\x0c' ∨ ch = '\r' ∨ ch = ' ')

/-- Mirrors `BEFORE_HEAD_IMPLIED_END_TAGS`. -/
def BEFORE_HEAD_IMPLIED_END_TAGS : List String := ["body", "br", "head", "html"]

/-- Mirrors `EOF_ALLOWED_UNCLOSED`. -/
def EOF_ALLOWED_UNCLOSED : List String :=
  ["dd", "dt", "li", "optgroup", "option", "p", "rb", "rp", "rt", "rtc",
   "tbody", "td", "tfoot", "th", "thead", "tr", "body", "html"]

/-- Mirrors `SELECT_END_TAG_TABLE_ELEMENTS`. -/
def SELECT_END_TAG_TABLE_ELEMENTS : List String :=
  ["caption", "col", "colgroup", "tbody", "td", "tfoot", "th", "thead", "tr",
   "table"]

/-- Mirrors `SELECT_ALLOWED_ELEMENTS`. -/
def SELECT_ALLOWED_ELEMENTS : List String :=
  ["p", "div", "span", "button", "datalist", "selectedcontent"]

/-- Mirrors `SELECT_HEAD_TAGS`. -/
def SELECT_HEAD_TAGS : List String :=
  ["base", "basefont", "bgsound", "link", "meta", "noframes", "script",
   "style", "template", "title"]

/-- Modelled from the spec: `TABLE_FOSTER_TARGETS` from the repository
file `constants.ts` (not among the provided sources); section 4.4 names
the foster targets as table, tbody, tfoot, thead, tr. -/
def TABLE_FOSTER_TARGETS : List String := ["table", "tbody", "tfoot", "thead", "tr"]

/-- Modelled from the spec: `TABLE_ALLOWED_CHILDREN` from `constants.ts`
(not among the provided sources); the tags allowed directly inside a
table per the HTML standard the spec defers to. -/
def TABLE_ALLOWED_CHILDREN : List String :=
  ["caption", "col", "colgroup", "tbody", "td", "tfoot", "th", "thead", "tr",
   "style", "script", "template", "form"]

/-- Modelled from the spec: `FORMATTING_ELEMENTS` from `constants.ts` (not
among the provided sources); the active-formatting element names of the
HTML standard the spec glossary refers to. -/
def FORMATTING_ELEMENTS : List String :=
  ["a", "b", "big", "code", "em", "font", "i", "nobr", "s", "small",
   "strike", "strong", "tt", "u"]

/-- Modelled from the spec: `IMPLIED_END_TAGS` from `constants.ts` (not
among the provided sources); the generate-implied-end-tags set of the
HTML standard referenced in section 7. -/
def IMPLIED_END_TAGS : List String :=
  ["dd", "dt", "li", "optgroup", "option", "p", "rb", "rp", "rt", "rtc"]

/-- Modelled from the spec: `SPECIAL_ELEMENTS` from `constants.ts` (not
among the provided sources); the "special" element category of the HTML
standard, consulted by `anyOtherEndTag` (a path no theorem below
reaches). -/
def SPECIAL_ELEMENTS : List String :=
  ["address", "applet", "area", "article", "aside", "base", "basefont",
   "bgsound", "blockquote", "body", "br", "button", "caption", "center",
   "col", "colgroup", "dd", "details", "dir", "div", "dl", "dt", "embed",
   "fieldset", "figcaption", "figure", "footer", "form", "frame",
   "frameset", "h1", "h2", "h3", "h4", "h5", "h6", "head", "header",
   "hgroup", "hr", "html", "iframe", "img", "input", "keygen", "li",
   "link", "listing", "main", "marquee", "menu", "meta", "nav", "noembed",
   "noframes", "noscript", "object", "ol", "p", "param", "plaintext",
   "pre", "script", "search", "section", "select", "source", "style",
   "summary", "table", "tbody", "td", "template", "textarea", "tfoot",
   "th", "thead", "title", "tr", "track", "ul", "wbr", "xmp"]

/-- Mirrors `isTemplateNode` on a heap node. -/
def isTemplateNodeH (h : Heap) (i : Nat) : Bool :=
  (getNode h i).name = "template" ∧ (getNode h i).templateContent.isSome

/-- Looks up an attribute value in a node attribute map (`Map.get`). -/
def lookupAttr (k : String) : List (String × Option String) → Option (Option String)
  | [] => none
  | (key, v) :: rest => if k = key then some v else lookupAttr k rest

/-- Mirrors `Map.has` on a node attribute map. -/
def hasAttrKey (k : String) (attrs : List (String × Option String)) : Bool :=
  (lookupAttr k attrs).isSome

/-- Mirrors `parseError` (errors are only recorded when `collectErrors` is
set). -/
def parseErrorTB (tb : TB) (code : TBErrorCode) (tagName : Option String := none) :
    TB :=
  if ¬tb.collectErrors then tb
  else { tb with errors := tb.errors ++ [(code, tagName)] }

/-- Mirrors `unexpectedEndTag`. -/
def unexpectedEndTagTB (tb : TB) (name : String) : TB :=
  parseErrorTB tb TBErrorCode.UnexpectedEndTag (some name)

/-- Mirrors `unexpectedStartTag`. -/
def unexpectedStartTagTB (tb : TB) (name : String) : TB :=
  parseErrorTB tb TBErrorCode.UnexpectedStartTag (some name)

/-- Mirrors `invalidCodepoint`. -/
def invalidCodepointTB (tb : TB) : TB :=
  parseErrorTB tb TBErrorCode.InvalidCodepoint

/-- Mirrors `setQuirksMode`. -/
def setQuirksModeTB (tb : TB) (mode : QuirksMode) : TB :=
  { tb with quirksMode := mode }

/-- Mirrors `currentNodeOrHTML`: the top of the open-elements stack, else
the document's `html` child, else the document's first child. -/
def currentNodeOrHTML (tb : TB) : Option Nat :=
  match tb.openElements.getLast? with
  | some n => some n
  | none =>
    match (getNode tb.heap tb.document).children.find?
        (fun c => (getNode tb.heap c).name = "html") with
    | some c => some c
    | none => (getNode tb.heap tb.document).children.head?

/-- Mirrors `appendCommentToDocument`. -/
def appendCommentToDocument (tb : TB) (text : String) : TB :=
  let (h, node) := mkNode tb.heap "#comment" (NodePayload.text text) (some "html") []
  { tb with heap := nodeAppendChild h tb.document node }

/-- Mirrors `appendComment`; `none` models the non-null assertion on a
missing target. -/
def appendComment (tb : TB) (text : String) (parent : Option Nat := none) :
    Option TB :=
  match (match parent with | some p => some p | none => currentNodeOrHTML tb) with
  | none => none
  | some target0 =>
    let target :=
      if isTemplateNodeH tb.heap target0 then
        ((getNode tb.heap target0).templateContent).getD target0
      else target0
    let (h, node) := mkNode tb.heap "#comment" (NodePayload.text text) (some "html") []
    some { tb with heap := nodeAppendChild h target node }

/-- Mirrors `findLastOnStack`: topmost open element with the given name. -/
def findLastOnStack (tb : TB) (name : String) : Option Nat :=
  tb.openElements.reverse.find? (fun n => (getNode tb.heap n).name = name)

/-- Mirrors `shouldFosterParenting`. -/
def shouldFosterParenting (tb : TB) (target : Nat) (forTag : Option String)
    (isText : Bool) : Bool :=
  if ¬tb.insertFromTable then false
  else if ¬TABLE_FOSTER_TARGETS.contains (getNode tb.heap target).name then false
  else if isText then true
  else
    match forTag with
    | some t => if TABLE_ALLOWED_CHILDREN.contains t then false else true
    | none => true

/-- Index of the first occurrence of an element in a list (`indexOf`),
`none` for `-1`. -/
def listIndexOf (l : List Nat) (x : Nat) : Option Nat :=
  l.indexOf? x

/-- Mirrors `appropriateInsertionLocation`; `none` models the non-null
assertions on the fallback target or a dangling table reference. -/
def appropriateInsertionLocation (tb : TB) (overrideTarget : Option Nat)
    (fosterParenting : Bool) : Option (Nat × Nat) :=
  match (match overrideTarget with
         | some t => some t
         | none => currentNodeOrHTML tb) with
  | none => none
  | some target =>
    if fosterParenting ∧ TABLE_FOSTER_TARGETS.contains (getNode tb.heap target).name then
      let lastTemplate := findLastOnStack tb "template"
      let lastTable := findLastOnStack tb "table"
      match lastTemplate with
      | some tpl =>
        let templateWins :=
          match lastTable with
          | none => true
          | some tblForCompare =>
            ((listIndexOf tb.openElements tpl).getD 0) >
              ((listIndexOf tb.openElements tblForCompare).getD 0)
        if templateWins then
          match (getNode tb.heap tpl).templateContent with
          | some tc => some (tc, (getNode tb.heap tc).children.length)
          | none => none
        else
          match lastTable with
          | none => some (target, (getNode tb.heap target).children.length)
          | some tbl =>
            match (getNode tb.heap tbl).parent with
            | none => some (target, (getNode tb.heap target).children.length)
            | some parent =>
              match listIndexOf (getNode tb.heap parent).children tbl with
              | some pos => some (parent, pos)
              | none => none
      | none =>
        match lastTable with
        | none => some (target, (getNode tb.heap target).children.length)
        | some tbl =>
          match (getNode tb.heap tbl).parent with
          | none => some (target, (getNode tb.heap target).children.length)
          | some parent =>
            match listIndexOf (getNode tb.heap parent).children tbl with
            | some pos => some (parent, pos)
            | none => none
    else if isTemplateNodeH tb.heap target then
      match (getNode tb.heap target).templateContent with
      | some tc => some (tc, (getNode tb.heap tc).children.length)
      | none => none
    else some (target, (getNode tb.heap target).children.length)

/-- Mirrors `insertNodeAt`. -/
def insertNodeAt (h : Heap) (parent : Nat) (index : Nat) (node : Nat) : Option Heap :=
  let ref :=
    if index < (getNode h parent).children.length then
      (getNode h parent).children.get? index
    else none
  nodeInsertBefore h parent node ref

/-- Mirrors `createRoot`: appends a fresh `html` element to the document
and pushes it. -/
def createRoot (tb : TB) (attrs : List (String × Option String)) : TB × Nat :=
  let (h, node) := mkNode tb.heap "html" NodePayload.nothing (some "html") attrs
  ({ tb with heap := nodeAppendChild h tb.document node,
             openElements := tb.openElements ++ [node] }, node)

/-- Mirrors `insertElement`: creates the element and inserts it at the
normal or foster-parenting location, optionally pushing it. -/
def insertElement (tb : TB) (tagName : String) (attrs : List (String × Option String))
    (push : Bool) (nspace : Option String := some "html") : Option (TB × Nat) :=
  let (h, node) := mkNode tb.heap tagName NodePayload.nothing nspace attrs
  let tb := { tb with heap := h }
  if ¬tb.insertFromTable then
    match currentNodeOrHTML tb with
    | none => none
    | some target =>
      let parent :=
        if isTemplateNodeH tb.heap target then
          ((getNode tb.heap target).templateContent).getD target
        else target
      let tb := { tb with heap := nodeAppendChild tb.heap parent node }
      let tb :=
        if push then { tb with openElements := tb.openElements ++ [node] } else tb
      some (tb, node)
  else
    match currentNodeOrHTML tb with
    | none => none
    | some target =>
      let foster := shouldFosterParenting tb target (some tagName) false
      match appropriateInsertionLocation tb none foster with
      | none => none
      | some (parent, position) =>
        match insertNodeAt tb.heap parent position node with
        | none => none
        | some h =>
          let tb := { tb with heap := h }
          let tb :=
            if push then { tb with openElements := tb.openElements ++ [node] } else tb
          some (tb, node)

/-- Mirrors `insertPhantom`. -/
def insertPhantom (tb : TB) (name : String) : Option (TB × Nat) :=
  insertElement tb name [] true (some "html")

/-- Mirrors `insertBodyIfMissing`; `none` models the non-null assertion on
a missing `html` element. -/
def insertBodyIfMissing (tb : TB) : Option TB :=
  match findLastOnStack tb "html" with
  | none => none
  | some htmlNode =>
    let (h, node) := mkNode tb.heap "body" NodePayload.nothing (some "html") []
    let h := nodeAppendChild h htmlNode node
    some { tb with heap := h, openElements := tb.openElements ++ [node] }

/-- Mirrors `popCurrent`. -/
def popCurrent (tb : TB) : TB :=
  { tb with openElements := tb.openElements.dropLast }

/-- Mirrors `addMissingAttributes`. -/
def addMissingAttributes (h : Heap) (node : Nat)
    (attrs : List (String × Option String)) : Heap :=
  attrs.foldl (fun h p =>
    if ¬hasAttrKey p.1 (getNode h node).attrs then
      modifyNode h node (fun nd => { nd with attrs := nd.attrs ++ [p] })
    else h) h

/-- Mirrors `popOpenElementIf`: pops the current node when it has the
given name; reports whether it popped. -/
def popOpenElementIf (tb : TB) (name : String) : TB × Bool :=
  match tb.openElements.getLast? with
  | some top =>
    if (getNode tb.heap top).name = name then
      ({ tb with openElements := tb.openElements.dropLast }, true)
    else (tb, false)
  | none => (tb, false)

/-- Loop of `popUntilInclusive`: pop until the named element is popped. -/
def popUntilInclusiveLoop (h : Heap) (name : String) : Nat → List Nat → List Nat
  | 0, els => els
  | fuel + 1, els =>
    match els.getLast? with
    | none => els
    | some top =>
      let els := els.dropLast
      if (getNode h top).name = name then els
      else popUntilInclusiveLoop h name fuel els

/-- Mirrors `popUntilInclusive`. -/
def popUntilInclusive (tb : TB) (name : String) : TB :=
  let els := popUntilInclusiveLoop tb.heap name (tb.openElements.length + 1)
    tb.openElements
  { tb with openElements := els }

/-- Loop of `popUntilAnyInclusive`. -/
def popUntilAnyInclusiveLoop (h : Heap) (names : List String) :
    Nat → List Nat → List Nat
  | 0, els => els
  | fuel + 1, els =>
    match els.getLast? with
    | none => els
    | some top =>
      let els := els.dropLast
      if names.contains (getNode h top).name then els
      else popUntilAnyInclusiveLoop h names fuel els

/-- Mirrors `popUntilAnyInclusive`. -/
def popUntilAnyInclusive (tb : TB) (names : List String) : TB :=
  let els := popUntilAnyInclusiveLoop tb.heap names (tb.openElements.length + 1)
    tb.openElements
  { tb with openElements := els }

/-- Loop of `generateImpliedEndTags`. -/
def genImpliedLoop (h : Heap) (exclude : Option String) : Nat → List Nat → List Nat
  | 0, els => els
  | fuel + 1, els =>
    match els.getLast? with
    | none => els
    | some top =>
      let name := (getNode h top).name
      if IMPLIED_END_TAGS.contains name ∧ exclude ≠ some name then
        genImpliedLoop h exclude fuel els.dropLast
      else els

/-- Mirrors `generateImpliedEndTags`. -/
def generateImpliedEndTags (tb : TB) (exclude : Option String) : TB :=
  let els := genImpliedLoop tb.heap exclude (tb.openElements.length + 1)
    tb.openElements
  { tb with openElements := els }

/-- Loop of `clearActiveFormattingUpToMarker`. -/
def clearAFLoop : Nat → List FmtEntry → List FmtEntry
  | 0, af => af
  | fuel + 1, af =>
    match af.getLast? with
    | none => af
    | some e =>
      let af := af.dropLast
      if e = FmtEntry.marker then af else clearAFLoop fuel af

/-- Mirrors `clearActiveFormattingUpToMarker`. -/
def clearActiveFormattingUpToMarker (tb : TB) : TB :=
  let af := clearAFLoop (tb.activeFormatting.length + 1) tb.activeFormatting
  { tb with activeFormatting := af }

/-- Mirrors `pushFormattingMarker`. -/
def pushFormattingMarker (tb : TB) : TB :=
  { tb with activeFormatting := tb.activeFormatting ++ [FmtEntry.marker] }

/-- Reverse walk of `findActiveFormattingIndex` (stops at a marker). -/
def findAFIdxAux (name : String) : List (Nat × FmtEntry) → Option Nat
  | [] => none
  | (_, FmtEntry.marker) :: _ => none
  | (i, FmtEntry.entry n _ _ _) :: rest =>
    if n = name then some i else findAFIdxAux name rest

/-- Mirrors `findActiveFormattingIndex`. -/
def findActiveFormattingIndex (tb : TB) (name : String) : Option Nat :=
  findAFIdxAux name tb.activeFormatting.enum.reverse

/-- Insertion step of a string insertion sort (`keys.sort()`). -/
def insertSorted (x : String) : List String → List String
  | [] => [x]
  | y :: rest => if x ≤ y then x :: y :: rest else y :: insertSorted x rest

/-- Sorted keys, mirroring JavaScript default string sort. -/
def sortStrings (l : List String) : List String := l.foldr insertSorted []

/-- Mirrors `attrsSignature`. -/
def attrsSignature (attrs : List (String × Option String)) : String :=
  if attrs = [] then ""
  else
    let keys := sortStrings (attrs.map Prod.fst)
    keys.foldl (fun out key =>
      let value := match lookupAttr key attrs with
        | some (some v) => v
        | _ => ""
      out ++ key ++ "\x00" ++ value ++ "\x01") ""

/-- Mirrors `appendActiveFormattingEntry`. -/
def appendActiveFormattingEntry (tb : TB) (name : String)
    (attrs : List (String × Option String)) (node : Nat) : TB :=
  let af := tb.activeFormatting ++
    [FmtEntry.entry name attrs node (attrsSignature attrs)]
  { tb with activeFormatting := af }

/-- Whether a formatting entry halts the reconstruct back-walk: a marker
or an entry whose node is on the open-elements stack. -/
def isMarkerOrOnStack (openEls : List Nat) : FmtEntry → Bool
  | FmtEntry.marker => true
  | FmtEntry.entry _ _ node _ => openEls.contains node

/-- Back-walk of `reconstructActiveFormattingElements` locating the resume
index (the entry after the last marker-or-on-stack entry). -/
def reconstructStartIdx (af : List FmtEntry) (openEls : List Nat) : Nat → Nat
  | 0 => 0
  | i + 1 =>
    match af.get? i with
    | some e =>
      if isMarkerOrOnStack openEls e then i + 1
      else reconstructStartIdx af openEls i
    | none => i + 1

/-- Forward rebuild loop of `reconstructActiveFormattingElements`: inserts
a fresh element for each entry from the resume index on and repoints the
entry at it. -/
def reconstructLoop : Nat → TB → Nat → Option TB
  | 0, _, _ => none
  | fuel + 1, tb, index =>
    if h : index < tb.activeFormatting.length then
      match tb.activeFormatting.get ⟨index, h⟩ with
      | FmtEntry.marker => reconstructLoop fuel tb (index + 1)
      | FmtEntry.entry name attrs _ signature =>
        match insertElement tb name attrs true (some "html") with
        | none => none
        | some (tb, newNode) =>
          let af :=
            tb.activeFormatting.set index (FmtEntry.entry name attrs newNode signature)
          let tb := { tb with activeFormatting := af }
          reconstructLoop fuel tb (index + 1)
    else some tb

/-- Mirrors `reconstructActiveFormattingElements`. -/
def reconstructActiveFormattingElements (tb : TB) : Option TB :=
  if tb.activeFormatting = [] then some tb
  else
    match tb.activeFormatting.getLast? with
    | none => some tb
    | some lastEntry =>
      if lastEntry = FmtEntry.marker then some tb
      else
        match lastEntry with
        | FmtEntry.marker => some tb
        | FmtEntry.entry _ _ node _ =>
          if tb.openElements.contains node then some tb
          else
            let index :=
              reconstructStartIdx tb.activeFormatting tb.openElements
                (tb.activeFormatting.length - 1)
            reconstructLoop (tb.activeFormatting.length + 1) tb index

/-- Walk of `resetInsertionMode` over the reversed open-elements stack. -/
def resetInsertionModeLoop (h : Heap) (templateModes : List Nat) :
    List Nat → Option Nat
  | [] => none
  | node :: rest =>
    let name := (getNode h node).name
    if name = "select" then some ModeIN_SELECT
    else if name = "td" ∨ name = "th" then some 16
    else if name = "tr" then some 15
    else if name = "tbody" ∨ name = "tfoot" ∨ name = "thead" then some 14
    else if name = "caption" then some 12
    else if name = "table" then some 10
    else if name = "template" ∧ templateModes ≠ [] then templateModes.getLast?
    else if name = "head" then some ModeIN_HEAD
    else if name = "html" then some ModeIN_BODY
    else resetInsertionModeLoop h templateModes rest

/-- Mirrors `resetInsertionMode`. -/
def resetInsertionMode (tb : TB) : TB :=
  let m := (resetInsertionModeLoop tb.heap tb.templateModes
    tb.openElements.reverse).getD ModeIN_BODY
  { tb with mode := m }

/-- Mirrors `isSpecialElement`. -/
def isSpecialElement (h : Heap) (node : Nat) : Bool :=
  let nd := getNode h node
  if nd.nspace ≠ none ∧ nd.nspace ≠ some "html" then false
  else SPECIAL_ELEMENTS.contains nd.name

/-- Walk of `anyOtherEndTag` over the stack from the top. -/
def anyOtherEndTagLoop (tb : TB) (name : String) : Nat → Nat → TB
  | 0, _ => tb
  | fuel + 1, index =>
    match tb.openElements.get? index with
    | none => tb
    | some node =>
      if (getNode tb.heap node).name = name then
        let tb :=
          if index ≠ tb.openElements.length - 1 then
            parseErrorTB tb TBErrorCode.EndTagTooEarly none
          else tb
        { tb with openElements := tb.openElements.take index }
      else if isSpecialElement tb.heap node then unexpectedEndTagTB tb name
      else
        match index with
        | 0 => tb
        | i + 1 => anyOtherEndTagLoop tb name fuel i

/-- Mirrors `anyOtherEndTag`. -/
def anyOtherEndTag (tb : TB) (name : String) : TB :=
  match tb.openElements.length with
  | 0 => tb
  | n + 1 => anyOtherEndTagLoop tb name (n + 2) n

/-- Mirrors `appendText` of the tree builder: honors the ignore-LF latch,
concatenates into a trailing text node, and otherwise appends a fresh
text node (foster-parenting the text when inserting into a table
context). -/
def appendTextTB (tb : TB) (text : String) : Option TB :=
  if text = "" then some tb
  else
    let step1 : Option (TB × String) :=
      if tb.ignoreLF then
        let tb := { tb with ignoreLF := false }
        if text.toList.head? = some '\n' then
          let text := String.mk (text.toList.drop 1)
          if text = "" then none else some (tb, text)
        else some (tb, text)
      else some (tb, text)
    match step1 with
    | none => some { tb with ignoreLF := false }
    | some (tb, text) =>
      if tb.openElements = [] then some tb
      else
        match tb.openElements.getLast? with
        | none => some tb
        | some target =>
          if ¬TABLE_FOSTER_TARGETS.contains (getNode tb.heap target).name ∧
              ¬isTemplateNodeH tb.heap target then
            let children := (getNode tb.heap target).children
            match children.getLast? with
            | some lastChild =>
              if (getNode tb.heap lastChild).name = "#text" then
                let h := modifyNode tb.heap lastChild (fun nd =>
                  let old := match nd.payload with
                    | NodePayload.text s => s
                    | _ => ""
                  { nd with payload := NodePayload.text (old ++ text) })
                some { tb with heap := h }
              else
                let (h, node) :=
                  mkNode tb.heap "#text" (NodePayload.text text) (some "html") []
                some { tb with heap := nodeAppendChild h target node }
            | none =>
              let (h, node) :=
                mkNode tb.heap "#text" (NodePayload.text text) (some "html") []
              some { tb with heap := nodeAppendChild h target node }
          else
            match currentNodeOrHTML tb with
            | none => none
            | some adjustedTarget =>
              let foster := shouldFosterParenting tb adjustedTarget none true
              match (if foster then reconstructActiveFormattingElements tb
                     else some tb) with
              | none => none
              | some tb =>
                match appropriateInsertionLocation tb none foster with
                | none => none
                | some (parent, position) =>
                  let prev :=
                    if position > 0 then
                      (getNode tb.heap parent).children.get? (position - 1)
                    else none
                  match prev with
                  | some node =>
                    if (getNode tb.heap node).name = "#text" then
                      let h := modifyNode tb.heap node (fun nd =>
                        let old := match nd.payload with
                          | NodePayload.text s => s
                          | _ => ""
                        { nd with payload := NodePayload.text (old ++ text) })
                      some { tb with heap := h }
                    else
                      let (h, node) :=
                        mkNode tb.heap "#text" (NodePayload.text text) (some "html") []
                      match insertNodeAt h parent position node with
                      | none => none
                      | some h => some { tb with heap := h }
                  | none =>
                    let (h, node) :=
                      mkNode tb.heap "#text" (NodePayload.text text) (some "html") []
                    match insertNodeAt h parent position node with
                    | none => none
                    | some h => some { tb with heap := h }

/-! ### Mode handlers -/

/-- Removes every NUL character, mirroring `replaceAll("\x00", "")`. -/
def removeNulls (s : String) : String :=
  String.mk (s.toList.filter (· ≠ '\x00'))

/-- Removes every form-feed character, mirroring `replaceAll("\x0C", "")`. -/
def removeFormFeeds (s : String) : String :=
  String.mk (s.toList.filter (· ≠ '\x0c'))

/-- Translated from `treebuilder.ts`: the `INITIAL` insertion mode. -/
def modeInitial (tb : TB) (token : Token) : MRes :=
  match token with
  | Token.character data =>
    if isAllWhitespace data then some (tb, none)
    else
      let tb := parseErrorTB tb TBErrorCode.ExpectedDoctypeButGotChars
      let tb := setQuirksModeTB tb QuirksMode.Quirks
      some (tb, some (ModeBEFORE_HTML, token, false))
  | Token.comment d => some (appendCommentToDocument tb d, none)
  | Token.eof =>
    let tb := parseErrorTB tb TBErrorCode.ExpectedDoctypeButGotEof
    let tb := setQuirksModeTB tb QuirksMode.Quirks
    let tb := { tb with mode := ModeBEFORE_HTML }
    some (tb, some (ModeBEFORE_HTML, token, false))
  | Token.tag kind name _ _ =>
    let code := if kind = TagKind.Start then TBErrorCode.ExpectedDoctypeButGotStartTag
      else TBErrorCode.ExpectedDoctypeButGotEndTag
    let tb := parseErrorTB tb code (some name)
    let tb := setQuirksModeTB tb QuirksMode.Quirks
    some (tb, some (ModeBEFORE_HTML, token, false))
  | Token.doctype .. =>
    let tb := setQuirksModeTB tb QuirksMode.Quirks
    some (tb, some (ModeBEFORE_HTML, token, false))

/-- Shared fall-through tail of `modeBeforeHtml`: create the `html` root
and reprocess in `BEFORE_HEAD`. -/
def beforeHtmlFallThrough (tb : TB) (token : Token) : MRes :=
  let (tb, _) := createRoot tb []
  let tb := { tb with mode := ModeBEFORE_HEAD }
  some (tb, some (ModeBEFORE_HEAD, token, false))

/-- Translated from `treebuilder.ts`: the `BEFORE_HTML` insertion mode. -/
def modeBeforeHtml (tb : TB) (token : Token) : MRes :=
  if (match token with
      | Token.character data => isAllWhitespace data
      | _ => false) then
    some (tb, none)
  else
    match token with
    | Token.comment d => some (appendCommentToDocument tb d, none)
    | Token.tag kind name attrs _ =>
      if kind = TagKind.Start ∧ name = "html" then
        let (tb, _) := createRoot tb attrs
        some ({ tb with mode := ModeBEFORE_HEAD }, none)
      else if kind = TagKind.End ∧ BEFORE_HEAD_IMPLIED_END_TAGS.contains name then
        let (tb, _) := createRoot tb []
        let tb := { tb with mode := ModeBEFORE_HEAD }
        some (tb, some (ModeBEFORE_HEAD, token, false))
      else if kind = TagKind.End then
        some (parseErrorTB tb TBErrorCode.UnexpectedEndTagBeforeHtml (some name), none)
      else beforeHtmlFallThrough tb token
    | Token.eof => beforeHtmlFallThrough tb token
    | Token.character data =>
      let stripped := String.mk (data.toList.dropWhile (fun c =>
        c = '\t' ∨ c = '\n' ∨ c = '\x0c' ∨ c = '\r' ∨ c = ' '))
      let token :=
        if stripped.length ≠ data.length then Token.character stripped else token
      beforeHtmlFallThrough tb token
    | Token.doctype .. => beforeHtmlFallThrough tb token

/-- Shared fall-through tail of `modeBeforeHead`: insert the phantom
`head` and reprocess in `IN_HEAD`. -/
def beforeHeadFallThrough (tb : TB) (token : Token) : MRes :=
  match insertPhantom tb "head" with
  | none => none
  | some (tb, head) =>
    let tb := { tb with headElement := some head, mode := ModeIN_HEAD }
    some (tb, some (ModeIN_HEAD, token, false))

/-- Translated from `treebuilder.ts`: the `BEFORE_HEAD` insertion mode. -/
def modeBeforeHead (tb : TB) (token : Token) : MRes :=
  match token with
  | Token.character data0 =>
    let (tb, data) :=
      if data0.toList.contains '\x00' then
        (parseErrorTB tb TBErrorCode.InvalidCodepointBeforeHead, removeNulls data0)
      else (tb, data0)
    if data = "" ∧ data0.toList.contains '\x00' then some (tb, none)
    else if isAllWhitespace data then some (tb, none)
    else beforeHeadFallThrough tb (Token.character data)
  | Token.comment d =>
    match appendComment tb d none with
    | none => none
    | some tb => some (tb, none)
  | Token.tag kind name attrs _ =>
    if kind = TagKind.Start then
      if name = "html" then
        match tb.openElements.head? with
        | none => none
        | some html =>
          some ({ tb with heap := addMissingAttributes tb.heap html attrs }, none)
      else if name = "head" then
        match insertElement tb name attrs true with
        | none => none
        | some (tb, head) =>
          some ({ tb with headElement := some head, mode := ModeIN_HEAD }, none)
      else beforeHeadFallThrough tb token
    else
      if BEFORE_HEAD_IMPLIED_END_TAGS.contains name then
        beforeHeadFallThrough tb token
      else
        some (parseErrorTB tb TBErrorCode.UnexpectedEndTagBeforeHead (some name), none)
  | Token.eof => beforeHeadFallThrough tb token
  | Token.doctype .. => beforeHeadFallThrough tb token

/-- Shared fall-through tail of `modeInHead`: pop the head and reprocess
in `AFTER_HEAD`. -/
def inHeadFallThrough (tb : TB) (token : Token) : MRes :=
  let tb := popCurrent tb
  let tb := { tb with mode := ModeAFTER_HEAD }
  some (tb, some (ModeAFTER_HEAD, token, false))

/-- Translated from `treebuilder.ts`: the `IN_HEAD` insertion mode. -/
def modeInHead (tb : TB) (token : Token) : MRes :=
  match token with
  | Token.character data =>
    if isAllWhitespace data then
      match appendTextTB tb data with
      | none => none
      | some tb => some (tb, none)
    else
      let chars := data.toList
      let i := countWhile (fun c =>
        c = '\t' ∨ c = '\n' ∨ c = '\x0c' ∨ c = '\r' ∨ c = ' ') chars
      let leadingWs := String.mk (chars.take i)
      let remaining := String.mk (chars.drop i)
      let wantLeading : Bool :=
        (leadingWs ≠ "" : Bool) &&
        (match tb.openElements.getLast? with
         | some top => !(getNode tb.heap top).children.isEmpty
         | none => false)
      match (if wantLeading then appendTextTB tb leadingWs else some tb) with
      | none => none
      | some tb =>
        let tb := popCurrent tb
        let tb := { tb with mode := ModeAFTER_HEAD }
        some (tb, some (ModeAFTER_HEAD, Token.character remaining, false))
  | Token.comment d =>
    match appendComment tb d none with
    | none => none
    | some tb => some (tb, none)
  | Token.tag kind name attrs _ =>
    if kind = TagKind.Start ∧ name = "html" then inHeadFallThrough tb token
    else if kind = TagKind.Start ∧
        (name = "base" ∨ name = "basefont" ∨ name = "bgsound" ∨ name = "link" ∨
         name = "meta") then
      match insertElement tb name attrs false with
      | none => none
      | some (tb, _) => some (tb, none)
    else if kind = TagKind.Start ∧ name = "template" then
      match insertElement tb name attrs true with
      | none => none
      | some (tb, _) =>
        let tb := pushFormattingMarker tb
        let tb := { tb with framesetOk := false, mode := ModeIN_TEMPLATE,
                            templateModes := tb.templateModes ++ [ModeIN_TEMPLATE] }
        some (tb, none)
    else if kind = TagKind.End ∧ name = "template" then
      let hasTemplate :=
        tb.openElements.any (fun n => (getNode tb.heap n).name = "template")
      if ¬hasTemplate then some (tb, none)
      else
        let tb := generateImpliedEndTags tb none
        let tb := popUntilInclusive tb "template"
        let tb := clearActiveFormattingUpToMarker tb
        let tb := { tb with templateModes := tb.templateModes.dropLast }
        let tb := resetInsertionMode tb
        some (tb, none)
    else if kind = TagKind.Start ∧
        (name = "noframes" ∨ name = "script" ∨ name = "style" ∨ name = "title") then
      match insertElement tb name attrs true with
      | none => none
      | some (tb, _) =>
        some ({ tb with originalMode := some tb.mode, mode := ModeTEXT }, none)
    else if kind = TagKind.Start ∧ name = "noscript" then
      match insertElement tb name attrs true with
      | none => none
      | some (tb, _) => some ({ tb with mode := ModeIN_HEAD_NOSCRIPT }, none)
    else if kind = TagKind.End ∧ name = "head" then
      let tb := popCurrent tb
      some ({ tb with mode := ModeAFTER_HEAD }, none)
    else if kind = TagKind.End ∧ (name = "body" ∨ name = "br" ∨ name = "html") then
      inHeadFallThrough tb token
    else inHeadFallThrough tb token
  | Token.eof => inHeadFallThrough tb token
  | Token.doctype .. => inHeadFallThrough tb token

/-- Translated from `treebuilder.ts`: the `TEXT` insertion mode.  The
`state.originalMode || IN_BODY` fallback treats both an unset mode and
the falsy `INITIAL` as `IN_BODY`. -/
def modeText (tb : TB) (token : Token) : MRes :=
  match token with
  | Token.character data =>
    match appendTextTB tb data with
    | none => none
    | some tb => some (tb, none)
  | Token.eof =>
    let tagName := tb.openElements.getLast?.map (fun n => (getNode tb.heap n).name)
    let tb := parseErrorTB tb TBErrorCode.ExpectedNamedClosingTagButGotEof tagName
    let tb := popCurrent tb
    let m0 := tb.originalMode.getD 0
    let m := if m0 = 0 then ModeIN_BODY else m0
    let tb := { tb with mode := m }
    some (tb, some (m, token, false))
  | _ =>
    let tb := popCurrent tb
    let m0 := tb.originalMode.getD 0
    let m := if m0 = 0 then ModeIN_BODY else m0
    some ({ tb with mode := m }, none)

/-- Translated from `treebuilder.ts`: `handleCharactersInBody`. -/
def handleCharactersInBody (tb : TB) (data : String) : MRes :=
  let (tb, data) :=
    if data.toList.contains '\x00' then (invalidCodepointTB tb, removeNulls data)
    else (tb, data)
  if isAllWhitespace data then
    match reconstructActiveFormattingElements tb with
    | none => none
    | some tb =>
      match appendTextTB tb data with
      | none => none
      | some tb => some (tb, none)
  else
    match reconstructActiveFormattingElements tb with
    | none => none
    | some tb =>
      let tb := { tb with framesetOk := false }
      match appendTextTB tb data with
      | none => none
      | some tb => some (tb, none)

/-- Translated from `treebuilder.ts`: `handleCommentInBody`. -/
def handleCommentInBody (tb : TB) (d : String) : MRes :=
  match appendComment tb d none with
  | none => none
  | some tb => some (tb, none)

/-- Marks a source handler that is outside this development. -/
def hNotTranslated : TB → Token → MRes := fun _ _ => none

/-- Translated from `treebuilder.ts`: `handleBodyStartHtml`. -/
def handleBodyStartHtml (tb : TB) (token : Token) : MRes :=
  match token with
  | Token.tag _ name attrs _ =>
    if tb.templateModes ≠ [] then some (unexpectedStartTagTB tb name, none)
    else
      match tb.openElements.head? with
      | some first =>
        some ({ tb with heap := addMissingAttributes tb.heap first attrs }, none)
      | none => some (tb, none)
  | _ => none

/-- Translated from `treebuilder.ts`: `handleBodyStartSelect`. -/
def handleBodyStartSelect (tb : TB) (token : Token) : MRes :=
  match token with
  | Token.tag _ name attrs _ =>
    match reconstructActiveFormattingElements tb with
    | none => none
    | some tb =>
      match insertElement tb name attrs true with
      | none => none
      | some (tb, _) =>
        let tb := { tb with framesetOk := false }
        let tb := resetInsertionMode tb
        some (tb, none)
  | _ => none

/-- Translated from `treebuilder.ts`: `handleBodyStartOption`. -/
def handleBodyStartOption (tb : TB) (token : Token) : MRes :=
  match token with
  | Token.tag _ name attrs _ =>
    let (tb, _) := popOpenElementIf tb "option"
    match reconstructActiveFormattingElements tb with
    | none => none
    | some tb =>
      match insertElement tb name attrs true with
      | none => none
      | some (tb, _) => some (tb, none)
  | _ => none

/-- Translated from `treebuilder.ts`: `handleBodyStartOptgroup`. -/
def handleBodyStartOptgroup (tb : TB) (token : Token) : MRes :=
  match token with
  | Token.tag _ name attrs _ =>
    let (tb, _) := popOpenElementIf tb "option"
    match reconstructActiveFormattingElements tb with
    | none => none
    | some tb =>
      match insertElement tb name attrs true with
      | none => none
      | some (tb, _) => some (tb, none)
  | _ => none

/-- Translated from `treebuilder.ts`: `handleBodyStartDefault`. -/
def handleBodyStartDefault (tb : TB) (token : Token) : MRes :=
  match token with
  | Token.tag _ name attrs selfClosing =>
    match reconstructActiveFormattingElements tb with
    | none => none
    | some tb =>
      match insertElement tb name attrs true with
      | none => none
      | some (tb, _) =>
        let tb :=
          if selfClosing then
            parseErrorTB tb
              TBErrorCode.NonVoidHtmlElementStartTagWithTrailingSolidus (some name)
          else tb
        some ({ tb with framesetOk := false }, none)
  | _ => none

/-- Keys of the source `BODY_START_HANDLERS` map whose handlers are not
needed by (and not translated for) this development. -/
def BODY_START_OTHER_NAMES : List String :=
  ["a", "address", "applet", "area", "article", "aside", "b", "base",
   "basefont", "bgsound", "big", "blockquote", "body", "br", "button",
   "caption", "center", "code", "col", "colgroup", "dd", "details",
   "dialog", "dir", "div", "dl", "dt", "em", "embed", "fieldset",
   "figcaption", "figure", "font", "footer", "form", "frame", "frameset",
   "h1", "h2", "h3", "h4", "h5", "h6", "head", "header", "hgroup", "hr",
   "i", "image", "img", "input", "keygen", "li", "link", "listing",
   "main", "marquee", "math", "menu", "meta", "nav", "nobr", "noframes",
   "object", "ol", "p", "param", "plaintext", "pre", "rb", "rp", "rt",
   "rtc", "s", "script", "search", "section", "small", "source", "strike",
   "strong", "style", "summary", "svg", "table", "tbody", "td",
   "template", "textarea", "tfoot", "th", "thead", "title", "tr", "track",
   "tt", "u", "ul", "wbr", "xmp"]

/-- The `BODY_START_HANDLERS.get(name) ?? handleBodyStartDefault` lookup:
translated handlers by name, the remaining mapped names marked
untranslated, and `handleBodyStartDefault` for names outside the map. -/
def bodyStartHandler (name : String) : TB → Token → MRes :=
  if name = "html" then handleBodyStartHtml
  else if name = "optgroup" then handleBodyStartOptgroup
  else if name = "option" then handleBodyStartOption
  else if name = "select" then handleBodyStartSelect
  else if BODY_START_OTHER_NAMES.contains name then hNotTranslated
  else handleBodyStartDefault

/-- Keys of the source `BODY_END_HANDLERS` map (all outside this
development). -/
def BODY_END_HANDLER_NAMES : List String :=
  ["address", "applet", "article", "aside", "blockquote", "body", "button",
   "center", "dd", "details", "dialog", "dir", "div", "dl", "dt",
   "fieldset", "figcaption", "figure", "footer", "form", "h1", "h2", "h3",
   "h4", "h5", "h6", "header", "hgroup", "html", "li", "listing", "main",
   "marquee", "menu", "nav", "object", "ol", "p", "pre", "search",
   "section", "summary", "table", "template", "ul"]

/-- Translated from `treebuilder.ts`: `handleTagInBody`.  The end-tag
`br` case synthesizes a start tag and dispatches it like `modeInBody`
does; formatting end tags would run the adoption agency (outside this
development), and the mapped end-tag handlers are likewise outside it. -/
def handleTagInBody (tb : TB) (token : Token) : MRes :=
  match token with
  | Token.tag TagKind.Start name _ _ => bodyStartHandler name tb token
  | Token.tag TagKind.End name _ _ =>
    if name = "br" then
      let tb := unexpectedEndTagTB tb name
      let brTag := Token.tag TagKind.Start "br" [] false
      bodyStartHandler "br" tb brTag
    else if FORMATTING_ELEMENTS.contains name then none
    else if BODY_END_HANDLER_NAMES.contains name then none
    else some (anyOtherEndTag tb name, none)
  | _ => none

/-- The EOF arm of `modeInTemplate`, split out because `handleEofInBody`
re-enters `modeInTemplate` only ever with an EOF token (keeping all
recursion structural). -/
def modeInTemplateEof (tb : TB) : MRes :=
  let hasTemplate :=
    tb.openElements.any (fun n => (getNode tb.heap n).name = "template")
  if ¬hasTemplate then some (tb, none)
  else
    let tb := parseErrorTB tb TBErrorCode.ExpectedClosingTagButGotEof
      (some "template")
    let tb := popUntilInclusive tb "template"
    let tb := clearActiveFormattingUpToMarker tb
    let tb := { tb with templateModes := tb.templateModes.dropLast }
    let tb := resetInsertionMode tb
    some (tb, some (tb.mode, Token.eof, false))

/-- Translated from `treebuilder.ts`: `handleEofInBody`. -/
def handleEofInBody (tb : TB) : MRes :=
  if tb.templateModes ≠ [] then modeInTemplateEof tb
  else
    let tb :=
      match tb.openElements.find? (fun n =>
        ¬EOF_ALLOWED_UNCLOSED.contains (getNode tb.heap n).name) with
      | some node =>
        parseErrorTB tb TBErrorCode.ExpectedClosingTagButGotEof
          (some (getNode tb.heap node).name)
      | none => tb
    let tb := { tb with mode := ModeAFTER_BODY }
    some (tb, some (ModeAFTER_BODY, Token.eof, false))

/-- Translated from `treebuilder.ts`: the `IN_BODY` insertion mode. -/
def modeInBody (tb : TB) (token : Token) : MRes :=
  match token with
  | Token.character data => handleCharactersInBody tb data
  | Token.comment d => handleCommentInBody tb d
  | Token.tag kind name attrs sc => handleTagInBody tb (Token.tag kind name attrs sc)
  | Token.eof => handleEofInBody tb
  | Token.doctype .. => some (tb, none)

/-- Translated from `treebuilder.ts`: the `IN_TEMPLATE` insertion mode. -/
def modeInTemplate (tb : TB) (token : Token) : MRes :=
  match token with
  | Token.character _ => modeInBody tb token
  | Token.comment _ => modeInBody tb token
  | Token.tag kind name _ _ =>
    if kind = TagKind.Start then
      if name = "caption" ∨ name = "colgroup" ∨ name = "tbody" ∨
          name = "tfoot" ∨ name = "thead" then
        let tb := { tb with templateModes := tb.templateModes.dropLast ++ [10],
                            mode := 10 }
        some (tb, some (10, token, false))
      else if name = "col" then
        let tb := { tb with templateModes := tb.templateModes.dropLast ++ [13],
                            mode := 13 }
        some (tb, some (13, token, false))
      else if name = "tr" then
        let tb := { tb with templateModes := tb.templateModes.dropLast ++ [14],
                            mode := 14 }
        some (tb, some (14, token, false))
      else if name = "td" ∨ name = "th" then
        let tb := { tb with templateModes := tb.templateModes.dropLast ++ [15],
                            mode := 15 }
        some (tb, some (15, token, false))
      else if ¬SELECT_HEAD_TAGS.contains name then
        let tb := { tb with
          templateModes := tb.templateModes.dropLast ++ [ModeIN_BODY],
          mode := ModeIN_BODY }
        some (tb, some (ModeIN_BODY, token, false))
      else modeInHead tb token
    else
      if name = "template" then modeInHead tb token
      else if SELECT_HEAD_TAGS.contains name then modeInHead tb token
      else some (tb, none)
  | Token.eof => modeInTemplateEof tb
  | Token.doctype .. => some (tb, none)

/-- Translated from `treebuilder.ts`: the `IN_HEAD_NOSCRIPT` insertion
mode. -/
def modeInHeadNoscript (tb : TB) (token : Token) : MRes :=
  match token with
  | Token.character data =>
    if isAllWhitespace data then modeInHead tb token
    else
      let tb := unexpectedStartTagTB tb "text"
      let tb := popCurrent tb
      let tb := { tb with mode := ModeIN_HEAD }
      some (tb, some (ModeIN_HEAD, token, false))
  | Token.comment _ => modeInHead tb token
  | Token.tag kind name _ _ =>
    if kind = TagKind.Start then
      if name = "html" then modeInBody tb token
      else if name = "basefont" ∨ name = "bgsound" ∨ name = "link" ∨
          name = "meta" ∨ name = "noframes" ∨ name = "style" then
        modeInHead tb token
      else if name = "head" ∨ name = "noscript" then
        some (unexpectedStartTagTB tb name, none)
      else
        let tb := unexpectedStartTagTB tb name
        let tb := popCurrent tb
        let tb := { tb with mode := ModeIN_HEAD }
        some (tb, some (ModeIN_HEAD, token, false))
    else if name = "noscript" then
      let tb := popCurrent tb
      some ({ tb with mode := ModeIN_HEAD }, none)
    else if name = "br" then
      let tb := unexpectedEndTagTB tb name
      let tb := popCurrent tb
      let tb := { tb with mode := ModeIN_HEAD }
      some (tb, some (ModeIN_HEAD, token, false))
    else some (unexpectedEndTagTB tb name, none)
  | Token.eof =>
    let tb := parseErrorTB tb TBErrorCode.ExpectedClosingTagButGotEof
      (some "noscript")
    let tb := popCurrent tb
    let tb := { tb with mode := ModeIN_HEAD }
    some (tb, some (ModeIN_HEAD, token, false))
  | Token.doctype .. => some (tb, none)

/-- Shared fall-through tail of `modeAfterHead`: ensure a `body` and
reprocess in `IN_BODY`. -/
def afterHeadFallThrough (tb : TB) (token : Token) : MRes :=
  match insertBodyIfMissing tb with
  | none => none
  | some tb => some (tb, some (ModeIN_BODY, token, false))

/-- Translated from `treebuilder.ts`: the `AFTER_HEAD` insertion mode. -/
def modeAfterHead (tb : TB) (token : Token) : MRes :=
  match token with
  | Token.character data0 =>
    let (tb, data) :=
      if data0.toList.contains '\x00' then
        (parseErrorTB tb TBErrorCode.InvalidCodepointInBody, removeNulls data0)
      else (tb, data0)
    let (tb, data) :=
      if data.toList.contains '\x0c' then
        (parseErrorTB tb TBErrorCode.InvalidCodepointInBody, removeFormFeeds data)
      else (tb, data)
    if data = "" ∨ isAllWhitespace data then
      if data ≠ "" then
        match appendTextTB tb data with
        | none => none
        | some tb => some (tb, none)
      else some (tb, none)
    else
      match insertBodyIfMissing tb with
      | none => none
      | some tb => some (tb, some (ModeIN_BODY, Token.character data, false))
  | Token.comment d =>
    match appendComment tb d none with
    | none => none
    | some tb => some (tb, none)
  | Token.tag kind name attrs _ =>
    if kind = TagKind.Start then
      if name = "html" then
        match insertBodyIfMissing tb with
        | none => none
        | some tb => some (tb, some (ModeIN_BODY, token, false))
      else if name = "body" then
        match insertElement tb name attrs true with
        | none => none
        | some (tb, _) =>
          some ({ tb with mode := ModeIN_BODY, framesetOk := false }, none)
      else if name = "frameset" then
        match insertElement tb name attrs true with
        | none => none
        | some (tb, _) => some ({ tb with mode := ModeIN_FRAMESET }, none)
      else if name = "input" then
        let inputType : Option String :=
          match (attrs.find? (fun p => p.1 = "type")) with
          | some (_, some v) => some v.toLower
          | some (_, none) => none
          | none => none
        if inputType == some "hidden" then
          some (parseErrorTB tb TBErrorCode.UnexpectedHiddenInputAfterHead, none)
        else
          match insertBodyIfMissing tb with
          | none => none
          | some tb => some (tb, some (ModeIN_BODY, token, false))
      else if name = "base" ∨ name = "basefont" ∨ name = "bgsound" ∨
          name = "link" ∨ name = "meta" ∨ name = "noscript" ∨ name = "script" ∨
          name = "style" ∨ name = "title" then
        match tb.headElement with
        | none => none
        | some head =>
          let tb := { tb with openElements := tb.openElements ++ [head] }
          match modeInHead tb token with
          | none => none
          | some (tb, result) =>
            some ({ tb with openElements := tb.openElements.erase head }, result)
      else if name = "template" then
        match tb.headElement with
        | none => none
        | some head =>
          let tb := { tb with openElements := tb.openElements ++ [head],
                              mode := ModeIN_HEAD }
          some (tb, some (ModeIN_HEAD, token, false))
      else afterHeadFallThrough tb token
    else
      if name = "template" then modeInHead tb token
      else if name = "body" ∨ name = "html" ∨ name = "br" then
        match insertBodyIfMissing tb with
        | none => none
        | some tb => some (tb, some (ModeIN_BODY, token, false))
      else
        some (parseErrorTB tb TBErrorCode.UnexpectedEndTagAfterHead (some name), none)
  | Token.eof =>
    match insertBodyIfMissing tb with
    | none => none
    | some tb =>
      let tb := { tb with mode := ModeIN_BODY }
      some (tb, some (ModeIN_BODY, token, false))
  | Token.doctype .. => afterHeadFallThrough tb token

/-- Translated from `treebuilder.ts`: the `AFTER_BODY` insertion mode. -/
def modeAfterBody (tb : TB) (token : Token) : MRes :=
  if (match token with
      | Token.character data => isAllWhitespace data
      | _ => false) then
    modeInBody tb token
  else
    match token with
    | Token.comment d =>
      let html := tb.openElements.head?
      match appendComment tb d html with
      | none => none
      | some tb => some (tb, none)
    | Token.tag TagKind.Start "html" _ _ => modeInBody tb token
    | Token.tag TagKind.End "html" _ _ =>
      some ({ tb with mode := ModeAFTER_AFTER_BODY }, none)
    | Token.eof => some (tb, none)
    | _ =>
      let tb := parseErrorTB tb TBErrorCode.UnexpectedTokenAfterBody
      let tb := { tb with mode := ModeIN_BODY }
      some (tb, some (ModeIN_BODY, token, false))

/-- Translated from `treebuilder.ts`: the `AFTER_AFTER_BODY` insertion
mode. -/
def modeAfterAfterBody (tb : TB) (token : Token) : MRes :=
  match token with
  | Token.comment d =>
    if tb.fragmentContext.isSome then
      match findLastOnStack tb "html" with
      | some html =>
        match appendComment tb d (some html) with
        | none => none
        | some tb => some (tb, none)
      | none => some (appendCommentToDocument tb d, none)
    else some (appendCommentToDocument tb d, none)
  | Token.character data =>
    if isAllWhitespace data then modeInBody tb token
    else
      let tb := parseErrorTB tb TBErrorCode.UnexpectedTokenAfterAfterBody
      let tb := { tb with mode := ModeIN_BODY }
      some (tb, some (ModeIN_BODY, token, false))
  | Token.tag TagKind.Start "html" _ _ => modeInBody tb token
  | Token.eof => some (tb, none)
  | _ =>
    let tb := parseErrorTB tb TBErrorCode.UnexpectedTokenAfterAfterBody
    let tb := { tb with mode := ModeIN_BODY }
    some (tb, some (ModeIN_BODY, token, false))

/-- Translated from `treebuilder.ts`: the `IN_SELECT` insertion mode.
The adoption-agency branch for formatting end tags is outside this
development (`none`) past its early-return guards. -/
def modeInSelect (tb : TB) (token : Token) : MRes :=
  match token with
  | Token.character data0 =>
    let (tb, data) :=
      if data0.toList.contains '\x00' then
        (parseErrorTB tb TBErrorCode.InvalidCodepointInSelect, removeNulls data0)
      else (tb, data0)
    let (tb, data) :=
      if data.toList.contains '\x0c' then
        (parseErrorTB tb TBErrorCode.InvalidCodepointInSelect, removeFormFeeds data)
      else (tb, data)
    if data ≠ "" then
      match reconstructActiveFormattingElements tb with
      | none => none
      | some tb =>
        match appendTextTB tb data with
        | none => none
        | some tb => some (tb, none)
    else some (tb, none)
  | Token.comment d =>
    match appendComment tb d none with
    | none => none
    | some tb => some (tb, none)
  | Token.tag kind name attrs selfClosing =>
    if kind = TagKind.Start then
      if name = "html" then some (tb, some (ModeIN_BODY, token, false))
      else if name = "option" then
        let (tb, _) := popOpenElementIf tb "option"
        match reconstructActiveFormattingElements tb with
        | none => none
        | some tb =>
          match insertElement tb name attrs true with
          | none => none
          | some (tb, _) => some (tb, none)
      else if name = "optgroup" then
        let (tb, _) := popOpenElementIf tb "option"
        let (tb, _) := popOpenElementIf tb "optgroup"
        match reconstructActiveFormattingElements tb with
        | none => none
        | some tb =>
          match insertElement tb name attrs true with
          | none => none
          | some (tb, _) => some (tb, none)
      else if name = "select" then
        let tb := parseErrorTB tb TBErrorCode.UnexpectedStartTagImpliesEndTag
          (some name)
        let tb := popUntilAnyInclusive tb ["select"]
        let tb := resetInsertionMode tb
        some (tb, none)
      else if name = "input" ∨ name = "textarea" then
        let tb := parseErrorTB tb TBErrorCode.UnexpectedStartTagImpliesEndTag
          (some name)
        let tb := popUntilAnyInclusive tb ["select"]
        let tb := resetInsertionMode tb
        some (tb, some (tb.mode, token, false))
      else if name = "keygen" then
        match reconstructActiveFormattingElements tb with
        | none => none
        | some tb =>
          match insertElement tb name attrs false with
          | none => none
          | some (tb, _) => some (tb, none)
      else if SELECT_END_TAG_TABLE_ELEMENTS.contains name then
        let tb := parseErrorTB tb TBErrorCode.UnexpectedStartTagImpliesEndTag
          (some name)
        let tb := popUntilAnyInclusive tb ["select"]
        let tb := resetInsertionMode tb
        some (tb, some (tb.mode, token, false))
      else if name = "script" ∨ name = "template" then modeInHead tb token
      else if name = "svg" ∨ name = "math" then
        match reconstructActiveFormattingElements tb with
        | none => none
        | some tb =>
          match insertElement tb name attrs (¬selfClosing) (some name) with
          | none => none
          | some (tb, _) => some (tb, none)
      else if FORMATTING_ELEMENTS.contains name then
        match reconstructActiveFormattingElements tb with
        | none => none
        | some tb =>
          match insertElement tb name attrs true with
          | none => none
          | some (tb, node) =>
            some (appendActiveFormattingEntry tb name attrs node, none)
      else if name = "hr" then
        let (tb, _) := popOpenElementIf tb "option"
        let (tb, _) := popOpenElementIf tb "optgroup"
        match reconstructActiveFormattingElements tb with
        | none => none
        | some tb =>
          match insertElement tb name attrs false with
          | none => none
          | some (tb, _) => some (tb, none)
      else if name = "menuitem" then
        match reconstructActiveFormattingElements tb with
        | none => none
        | some tb =>
          match insertElement tb name attrs true with
          | none => none
          | some (tb, _) => some (tb, none)
      else if SELECT_ALLOWED_ELEMENTS.contains name then
        match reconstructActiveFormattingElements tb with
        | none => none
        | some tb =>
          match insertElement tb name attrs (¬selfClosing) with
          | none => none
          | some (tb, _) => some (tb, none)
      else if name = "br" ∨ name = "img" then
        match reconstructActiveFormattingElements tb with
        | none => none
        | some tb =>
          match insertElement tb name attrs false with
          | none => none
          | some (tb, _) => some (tb, none)
      else if name = "plaintext" then
        match reconstructActiveFormattingElements tb with
        | none => none
        | some tb =>
          match insertElement tb name attrs true with
          | none => none
          | some (tb, _) => some (tb, none)
      else some (tb, none)
    else
      if name = "optgroup" then
        let (tb, _) := popOpenElementIf tb "option"
        let (tb, popped) := popOpenElementIf tb "optgroup"
        if ¬popped then some (unexpectedEndTagTB tb name, none)
        else some (tb, none)
      else if name = "option" then
        let (tb, popped) := popOpenElementIf tb "option"
        if ¬popped then some (unexpectedEndTagTB tb name, none)
        else some (tb, none)
      else if name = "select" then
        let tb := popUntilAnyInclusive tb ["select"]
        let tb := resetInsertionMode tb
        some (tb, none)
      else if name = "a" ∨ FORMATTING_ELEMENTS.contains name then
        let selectNode := findLastOnStack tb "select"
        match findActiveFormattingIndex tb name with
        | some fmtIndex =>
          match tb.activeFormatting.get? fmtIndex with
          | some (FmtEntry.entry _ _ target _) =>
            if tb.openElements.contains target ∧ selectNode.isSome then
              let selectIndex := (listIndexOf tb.openElements (selectNode.getD 0)).getD 0
              let targetIndex := (listIndexOf tb.openElements target).getD 0
              if targetIndex < selectIndex then
                some (unexpectedEndTagTB tb name, none)
              else none
            else none
          | _ => none
        | none => none
      else if SELECT_ALLOWED_ELEMENTS.contains name then
        let enumerated := tb.openElements.enum
        let selectIdx := enumerated.find? (fun p =>
          (getNode tb.heap p.2).name = "select") |>.map Prod.fst
        let targetIdx := enumerated.foldl (fun acc p =>
          if (getNode tb.heap p.2).name = name then some p.1 else acc) none
        match targetIdx with
        | some t =>
          if (match selectIdx with
              | none => true
              | some s => t > s) then
            some (popUntilInclusive tb name, none)
          else some (unexpectedEndTagTB tb name, none)
        | none => some (unexpectedEndTagTB tb name, none)
      else if SELECT_END_TAG_TABLE_ELEMENTS.contains name then
        let tb := unexpectedEndTagTB tb name
        let tb := popUntilAnyInclusive tb ["select"]
        let tb := resetInsertionMode tb
        some (tb, some (tb.mode, token, false))
      else some (unexpectedEndTagTB tb name, none)
  | Token.eof => modeInBody tb token
  | Token.doctype .. => some (tb, none)

/-- Translated from `treebuilder.ts`: the `MODE_HANDLERS` dispatch (table
and frameset modes are outside this development). -/
def modeDispatch (mode : Nat) (tb : TB) (token : Token) : MRes :=
  if mode = ModeINITIAL then modeInitial tb token
  else if mode = ModeBEFORE_HTML then modeBeforeHtml tb token
  else if mode = ModeBEFORE_HEAD then modeBeforeHead tb token
  else if mode = ModeIN_HEAD then modeInHead tb token
  else if mode = ModeIN_HEAD_NOSCRIPT then modeInHeadNoscript tb token
  else if mode = ModeAFTER_HEAD then modeAfterHead tb token
  else if mode = ModeTEXT then modeText tb token
  else if mode = ModeIN_BODY then modeInBody tb token
  else if mode = ModeAFTER_BODY then modeAfterBody tb token
  else if mode = ModeAFTER_AFTER_BODY then modeAfterAfterBody tb token
  else if mode = ModeIN_SELECT then modeInSelect tb token
  else if mode = ModeIN_TEMPLATE then modeInTemplate tb token
  else none

/-- Translated from `treebuilder.ts`: the reprocess loop of
`processToken`.  The foreign-content dispatch (taken only when the
current node is in a non-HTML namespace) is outside this development. -/
def processLoop : Nat → TB → Token → Bool → Option (TB × TokenSinkResult)
  | 0, _, _, _ => none
  | fuel + 1, tb, token, forceHtmlMode =>
    let currentNode := tb.openElements.getLast?
    let isHtmlNamespace : Bool :=
      match currentNode with
      | none => true
      | some n =>
        decide ((getNode tb.heap n).nspace = none ∨
          (getNode tb.heap n).nspace = some "html")
    if forceHtmlMode || isHtmlNamespace then
      match modeDispatch tb.mode tb token with
      | none => none
      | some (tb, none) =>
        let out := tb.tokenizerStateOverride.getD TokenSinkResult.Continue
        some ({ tb with tokenizerStateOverride := none }, out)
      | some (tb, some (mode, tokenOverride, forceHtml)) =>
        processLoop fuel { tb with mode := mode } tokenOverride forceHtml
    else none

/-- Translated from `treebuilder.ts`: `processToken`.  The doctype branch
past the foreign-content error depends on the quirks tables of
`constants.ts` (outside the provided sources), so it answers `none`; no
run in this file feeds a doctype token. -/
def processTokenTB (tb : TB) (token : Token) : Option (TB × TokenSinkResult) :=
  match token with
  | Token.doctype .. =>
    match tb.openElements.getLast? with
    | some current =>
      if (getNode tb.heap current).nspace ≠ none ∧
          (getNode tb.heap current).nspace ≠ some "html" then
        some (parseErrorTB tb TBErrorCode.UnexpectedDoctype, TokenSinkResult.Continue)
      else none
    | none => none
  | _ => processLoop 32 tb token false

/-- Translated from `treebuilder.ts`: `getTokenizerSink`. -/
def tbSink : Sink TB where
  processToken := fun tb t => (processTokenTB tb t).map (fun p => (p.1, some p.2))
  processCharacters := fun tb d =>
    (processTokenTB tb (Token.character d)).map Prod.fst
  openElementsNS := fun tb =>
    some (tb.openElements.map (fun i => (getNode tb.heap i).nspace))

/-- Translated from `treebuilder.ts`: `createTreeBuilder`.  Fragment
contexts in a non-HTML namespace need the SVG tag-name table of
`constants.ts` (outside the provided sources) and answer `none`. -/
def createTreeBuilder (fragmentContext : Option FragmentContext)
    (iframeSrcdoc collectErrors : Bool) : Option TB :=
  let docName :=
    if fragmentContext.isSome then "#document-fragment" else "#document"
  let (h, doc) := mkNode [] docName NodePayload.nothing (some "html") []
  let tb : TB := { heap := h, fragmentContext := fragmentContext,
                   iframeSrcdoc := iframeSrcdoc, collectErrors := collectErrors,
                   document := doc }
  match fragmentContext with
  | none => some tb
  | some fc =>
    let (h, root) := mkNode tb.heap "html" NodePayload.nothing (some "html") []
    let h := nodeAppendChild h tb.document root
    let tb := { tb with heap := h, openElements := [root] }
    if fc.nspace.isSome ∧ fc.nspace ≠ some "html" then none
    else
      let name := fc.tagName.toLower
      let mode :=
        if name = "html" then ModeBEFORE_HEAD
        else if name = "tbody" ∨ name = "tfoot" ∨ name = "thead" then 14
        else if name = "tr" then 15
        else if name = "td" ∨ name = "th" then 16
        else if name = "caption" then 12
        else if name = "colgroup" then 13
        else if name = "table" then 10
        else ModeIN_BODY
      some { tb with mode := mode, framesetOk := false }

/-! ### Finish pass (`finishTreeBuilder`, `populateSelectedContent`) -/

/-- Translated from `treebuilder.ts`: `findElements` (collects every
descendant with the given name in depth-first preorder, descending into
children and then template contents), written with an explicit worklist
so that the recursion is structural in the fuel (one unit per visited
node). -/
def findElementsH : Nat → Heap → List Nat → String → List Nat → List Nat
  | 0, _, _, _, acc => acc
  | _ + 1, _, [], _, acc => acc
  | fuel + 1, h, node :: rest, name, acc =>
    let acc := if (getNode h node).name = name then acc ++ [node] else acc
    let kids := (getNode h node).children ++
      (match (getNode h node).templateContent with
       | some tc => [tc]
       | none => [])
    findElementsH fuel h (kids ++ rest) name acc

/-- Translated from `treebuilder.ts`: `findElement` (first descendant with
the given name, same depth-first order as `findElements`), written with
an explicit worklist so that the recursion is structural in the fuel. -/
def findElementH : Nat → Heap → List Nat → String → Option Nat
  | 0, _, _, _ => none
  | _ + 1, _, [], _ => none
  | fuel + 1, h, node :: rest, name =>
    if (getNode h node).name = name then some node
    else
      let kids := (getNode h node).children ++
        (match (getNode h node).templateContent with
         | some tc => [tc]
         | none => [])
      findElementH fuel h (kids ++ rest) name

/-- Translated from `treebuilder.ts`: `cloneChildren` (appends a deep
clone of every child of `source` to `target`). -/
def cloneChildren (h : Heap) (source target : Nat) : Heap :=
  cloneRun ((h.length + 1) * (h.length + 1)) h
    ((getNode h source).children.map (fun c => CloneTask.intoParent c target))

/-- Translated from `treebuilder.ts`: `populateSelectedContent` walks the
finished tree and, for each `select` holding a `selectedcontent` and at
least one `option`, appends a deep clone of the selected (else first)
option's content to that `selectedcontent`. -/
def populateSelectedContent (h : Heap) (root : Nat) : Heap :=
  let selects := findElementsH (h.length + 1) h [root] "select" []
  selects.foldl (fun h select =>
    match findElementH (h.length + 1) h [select] "selectedcontent" with
    | none => h
    | some selectedContent =>
      let options := findElementsH (h.length + 1) h [select] "option" []
      match options with
      | [] => h
      | firstOption :: _ =>
        let selectedOption :=
          match options.find? (fun o => hasAttrKey "selected" (getNode h o).attrs) with
          | some o => o
          | none => firstOption
        cloneChildren h selectedOption selectedContent) h

/-- Child-moving loop of the fragment unwrap in `finishTreeBuilder`. -/
def moveChildrenLoop : Heap → Nat → Nat → List Nat → Option Heap
  | h, _, _, [] => some h
  | h, src, dst, c :: rest =>
    match nodeRemoveChild h src c with
    | none => none
    | some h => moveChildrenLoop (nodeAppendChild h dst c) src dst rest

/-- Translated from `treebuilder.ts`: `finishTreeBuilder` unwraps the
fragment wrapper (when parsing a fragment) and then populates every
`selectedcontent`; returns the finished builder (its `document` is the
returned root). -/
def finishTreeBuilder (tb : TB) : Option TB :=
  match tb.fragmentContext with
  | some _ =>
    match (getNode tb.heap tb.document).children.head? with
    | none => none
    | some root =>
      let h := tb.heap
      let step1 : Option Heap :=
        match tb.fragmentContextElement with
        | some contextElem =>
          if (getNode h contextElem).parent = some root then
            match moveChildrenLoop h contextElem root
                (getNode h contextElem).children with
            | none => none
            | some h => nodeRemoveChild h root contextElem
          else some h
        | none => some h
      match step1 with
      | none => none
      | some h =>
        match moveChildrenLoop h root tb.document (getNode h root).children with
        | none => none
        | some h =>
          match nodeRemoveChild h tb.document root with
          | none => none
          | some h =>
            some { tb with heap := populateSelectedContent h tb.document }
  | none => some { tb with heap := populateSelectedContent tb.heap tb.document }

/-! ## Parser entry (`parser.ts`) -/

/-- Result of `parseDocument`: the finished tree builder (whose `document`
field is the returned root) and the tokenizer state (whose `errors` join
the builder's errors in the result's error list). -/
structure ParseResult where
  tb : TB
  tok : TokSt

/-- Translated from `parser.ts`: `parseDocument(html, options)` — apply
the fragment tokenizer-state overrides, build the sink, run the
tokenizer, and finish the tree. -/
def parseDocument (entities : List (String × String)) (html : String)
    (fragmentContext : Option FragmentContext) (iframeSrcdoc collectErrors : Bool)
    (tokenizerOpts : TokenizerOpts) : Option ParseResult :=
  let opts := tokenizerOpts
  let opts :=
    match fragmentContext with
    | some fc =>
      if fc.nspace = none then
        let tagName := fc.tagName.toLower
        if tagName = "textarea" ∨ tagName = "title" ∨ tagName = "style" then
          { opts with initialState := some StRawText,
                      initialRawTextTag := some tagName }
        else if tagName = "plaintext" ∨ tagName = "script" then
          { opts with initialState := some StPlainText, initialRawTextTag := none }
        else opts
      else opts
    | none => opts
  match createTreeBuilder fragmentContext iframeSrcdoc collectErrors with
  | none => none
  | some tb =>
    match runTok entities opts tbSink html tb with
    | none => none
    | some (ts, tb) =>
      match finishTreeBuilder tb with
      | none => none
      | some tb => some { tb := tb, tok := ts }

/-! ## Sample values used by witnesses -/

/-- Whether a child list contains two consecutive `#text` nodes. -/
def hasAdjacentTextChildren (h : Heap) : List Nat → Bool
  | a :: b :: rest =>
    ((getNode h a).name = "#text" && (getNode h b).name = "#text") ||
      hasAdjacentTextChildren h (b :: rest)
  | _ => false

/-- The input refuting the text-coalescing invariant of the final tree. -/
def c2Input : String := "<select><selectedcontent>x</selectedcontent><option>y"

/-- The input exhibiting a second, unpopulated `selectedcontent`. -/
def c7Input : String :=
  "<select><selectedcontent></selectedcontent><selectedcontent></selectedcontent><option>y"

/-- A trivial sink that accepts every token, requests no state switch, and
exposes no open-elements view. -/
def unitSink : Sink Unit where
  processToken := fun _ _ => some ((), some TokenSinkResult.Continue)
  processCharacters := fun s _ => some s
  openElementsNS := fun _ => none

/-- Tokenizer state about to emit a `<title>` start tag. -/
def sampleTitleTokSt : TokSt :=
  { currentTagKind := TagKind.Start, currentTagName := "title" }

/-- Tokenizer state holding a pending attribute whose name is already in
the tag's attribute map. -/
def sampleDupAttrTokSt : TokSt :=
  { currentAttrName := "id", currentAttrValue := "2",
    currentTagAttrs := [("id", "1")], pos := 5 }

/-- The raw-text switch condition of `emitCurrentTag`: the sink's current
open element is absent or in the HTML namespace. -/
def currentNSOk (stackNS : Option (List (Option String))) : Bool :=
  match (stackNS.getD []).getLast? with
  | none => true
  | some nspace => nspace = some "html"

/-- A two-node heap: an empty `div` and a detached text node. -/
def sampleHeapPair : Heap :=
  [{ name := "div" }, { name := "#text", payload := NodePayload.text "a" }]

/-- A builder whose open `div` ends with a text child, for the coalescing
witness. -/
def sampleCoalesceTB : TB :=
  { heap := [{ name := "div", children := [1] },
             { name := "#text", payload := NodePayload.text "a", parent := some 0 }],
    openElements := [0], document := 0 }

/-- A select element containing one `selectedcontent` and one `option`
with a text child, for the populate witness. -/
def samplePopulateHeap : Heap :=
  [{ name := "select", children := [1, 2] },
   { name := "selectedcontent", parent := some 0 },
   { name := "option", children := [3], parent := some 0 },
   { name := "#text", payload := NodePayload.text "y", parent := some 2 }]

/-- The node a pending clone step copies. -/
def cloneSrc : CloneTask → Nat
  | CloneTask.intoParent s _ => s
  | CloneTask.intoTemplate s _ => s

/-- The heap slot a pending clone step attaches its copy into. -/
def cloneTarget : CloneTask → Nat
  | CloneTask.intoParent _ p => p
  | CloneTask.intoTemplate _ o => o

/-- The heap after one `cloneRun` step on `task`. -/
def cloneStepHeap (h : Heap) (task : CloneTask) : Heap :=
  let nd := getNode h (cloneSrc task)
  let pr := mkNode h nd.name nd.payload nd.nspace nd.attrs
  match task with
  | CloneTask.intoParent _ parent => nodeAppendChild pr.1 parent pr.2
  | CloneTask.intoTemplate _ owner =>
    modifyNode pr.1 owner (fun d => { d with templateContent := some pr.2 })

/-- Heap well-formedness carried through the parsing pipeline: correct
parent pointers, pairwise disjoint child lists, and no duplicates within
a child list. -/
def WF (h : Heap) : Prop :=
  parentOk h ∧ childListsDisjoint h ∧ childOnceInList h

/-- A three-node heap whose node 1 is attached under node 0; appending
node 1 under node 2 without detaching it first breaks the parent-pointer
invariant, as `Node.appendChild` never detaches. -/
def sampleAttachedHeap : Heap :=
  [{ name := "div", children := [1] },
   { name := "span", parent := some 0 },
   { name := "p" }]

/-- A sink invariant: every token and every character hand-off of `S`
preserves `P`. -/
def SinkPreserves {σ : Type} (S : Sink σ) (P : σ → Prop) : Prop :=
  (∀ s t s' r, S.processToken s t = some (s', r) → P s → P s') ∧
  (∀ s d s', S.processCharacters s d = some s' → P s → P s')

/-- The follow-up tasks one `cloneRun` step on `task` schedules. -/
def cloneStepTasks (h : Heap) (task : CloneTask) : List CloneTask :=
  let nd := getNode h (cloneSrc task)
  let pr := mkNode h nd.name nd.payload nd.nspace nd.attrs
  (nd.children.map (fun c => CloneTask.intoParent c pr.2)) ++
  (match nd.templateContent with
   | some tc => [CloneTask.intoTemplate tc pr.2]
   | none => [])

/-! ## Theorems -/

/-- `indexOfAux` finds nothing when the character is absent. -/
theorem indexOfAux_eq_none {c : Char} :
    ∀ {l : List Char}, c ∉ l → ∀ k, indexOfAux c l k = none := by
  intro l
  induction l with
  | nil => intro _ _; rfl
  | cons x rest ih =>
    intro h k
    have hx : ¬(x = c) := by
      intro hh
      exact h (by rw [hh]; exact List.mem_cons_self _ _)
    have hr : c ∉ rest := fun hm => h (List.mem_cons_of_mem _ hm)
    simp only [indexOfAux, if_neg hx]
    exact ih hr (k + 1)

/-- C10: on a string containing no ampersand, `decodeEntitiesInText`
returns its input unchanged, for both values of the in-attribute flag. -/
theorem decodeEntitiesInText_identity_without_ampersand
    (entities : List (String × String)) (inAttribute : Bool) (text : List Char)
    (h : '&' ∉ text) :
    decodeEntitiesInText entities inAttribute text = text := by
  have hidx : indexOfFrom text '&' 0 = none := by
    unfold indexOfFrom
    simpa using indexOfAux_eq_none h 0
  cases text with
  | nil => rfl
  | cons c rest =>
    unfold decodeEntitiesInText decodeEntitiesLoop
    rw [if_pos (by simp), hidx]
    rfl

/-- Witness for C10 at a concrete ampersand-free input. -/
theorem decodeEntitiesInText_identity_without_ampersand_witness :
    '&' ∉ ['a', 'b'] ∧ decodeEntitiesInText [] true ['a', 'b'] = ['a', 'b'] :=
  ⟨by decide,
   decodeEntitiesInText_identity_without_ampersand [] true ['a', 'b'] (by decide)⟩

/-- The numeric replacement table has no key outside 0 and 0x80..0x9f. -/
theorem lookupNat_replacements_none {cp : Nat} (h0 : cp ≠ 0)
    (h1 : ¬(0x80 ≤ cp ∧ cp ≤ 0x9f)) :
    lookupNat cp NUMERIC_REPLACEMENTS = none := by
  simp only [NUMERIC_REPLACEMENTS, lookupNat]
  repeat rw [if_neg (by omega)]

/-- C5: `decodeNumericEntity` maps parsed code points 0x80..0x9F through
the windows-1252 table, maps 0, surrogates and values above 0x10FFFF to
U+FFFD, and returns every other parsed code point unchanged. -/
theorem decodeNumericEntity_spec (text : List Char) (isHex : Bool) (codepoint : Nat)
    (hcp : parseIntDigits (if isHex then 16 else 10) text = codepoint) :
    (0x80 ≤ codepoint → codepoint ≤ 0x9f →
      decodeNumericEntity text isHex = [Char.ofNat (windows1252Mapped codepoint)]) ∧
    (codepoint = 0 → decodeNumericEntity text isHex = ['�']) ∧
    (0xd800 ≤ codepoint → codepoint ≤ 0xdfff →
      decodeNumericEntity text isHex = ['�']) ∧
    (0x10ffff < codepoint → decodeNumericEntity text isHex = ['�']) ∧
    (codepoint ≠ 0 → ¬(0x80 ≤ codepoint ∧ codepoint ≤ 0x9f) →
      ¬(0xd800 ≤ codepoint ∧ codepoint ≤ 0xdfff) → codepoint ≤ 0x10ffff →
      decodeNumericEntity text isHex = [Char.ofNat codepoint]) := by
  have hde : decodeNumericEntity text isHex = decodeNumericCodepoint codepoint := by
    rw [← hcp]
    rfl
  refine ⟨?_, ?_, ?_, ?_, ?_⟩
  · intro h1 h2
    rw [hde]
    interval_cases codepoint <;> rfl
  · intro h0
    subst h0
    rw [hde]
    rfl
  · intro h1 h2
    rw [hde]
    unfold decodeNumericCodepoint
    rw [lookupNat_replacements_none (by omega) (by omega)]
    rw [if_neg (by omega), if_pos ⟨h1, h2⟩]
  · intro hgt
    rw [hde]
    unfold decodeNumericCodepoint
    rw [lookupNat_replacements_none (by omega) (by omega)]
    rw [if_pos hgt]
  · intro h0 h1 h2 h3
    rw [hde]
    unfold decodeNumericCodepoint
    rw [lookupNat_replacements_none h0 h1]
    rw [if_neg (by omega), if_neg h2]

/-- Witness for C5 at the hexadecimal body `80`. -/
theorem decodeNumericEntity_spec_witness :
    parseIntDigits 16 ['8', '0'] = 0x80 ∧
    decodeNumericEntity ['8', '0'] true = [Char.ofNat (windows1252Mapped 0x80)] :=
  ⟨by decide,
   (decodeNumericEntity_spec ['8', '0'] true 0x80 (by decide)).1 (by decide) (by decide)⟩

/-- C6: `sniffHTMLEncoding` resolves in priority order: a recognized
transport hint (no bytes skipped), then the three byte order marks with
their skip counts, then the meta prescan result, then windows-1252. -/
theorem sniffHTMLEncoding_priority (data : List Nat) (label : Option EncodingLabel) :
    (∀ enc, normalizeEncodingLabel label = some enc →
      sniffHTMLEncoding data label = (enc, 0)) ∧
    (normalizeEncodingLabel label = none →
      (data.take 3 = [0xef, 0xbb, 0xbf] →
        sniffHTMLEncoding data label = ("utf-8", 3)) ∧
      (data.take 2 = [0xff, 0xfe] →
        sniffHTMLEncoding data label = ("utf-16le", 2)) ∧
      (data.take 2 = [0xfe, 0xff] →
        sniffHTMLEncoding data label = ("utf-16be", 2)) ∧
      (sniffBOM data = (none, 0) →
        (∀ enc, preScanForMetaCharset data = some enc →
          sniffHTMLEncoding data label = (enc, 0)) ∧
        (preScanForMetaCharset data = none →
          sniffHTMLEncoding data label = ("windows-1252", 0)))) := by
  constructor
  · intro enc henc
    unfold sniffHTMLEncoding
    rw [henc]
  · intro hnone
    refine ⟨?_, ?_, ?_, ?_⟩
    · intro h3
      have hlen : 3 ≤ data.length := by
        have hl := congrArg List.length h3
        simp [List.length_take] at hl
        omega
      have hbom : sniffBOM data = (some "utf-8", 3) := by
        unfold sniffBOM
        rw [if_pos ⟨hlen, h3⟩]
      unfold sniffHTMLEncoding
      rw [hnone, hbom]
    · intro h2
      match data, h2 with
      | a :: b :: rest, h2 =>
        simp only [List.take, List.cons.injEq] at h2
        obtain ⟨ha, hb, -⟩ := h2
        subst ha
        subst hb
        have hbom : sniffBOM (0xff :: 0xfe :: rest) = (some "utf-16le", 2) := by
          unfold sniffBOM
          rw [if_neg (by simp), if_pos (by simp)]
        unfold sniffHTMLEncoding
        rw [hnone, hbom]
    · intro h2
      match data, h2 with
      | a :: b :: rest, h2 =>
        simp only [List.take, List.cons.injEq] at h2
        obtain ⟨ha, hb, -⟩ := h2
        subst ha
        subst hb
        have hbom : sniffBOM (0xfe :: 0xff :: rest) = (some "utf-16be", 2) := by
          unfold sniffBOM
          rw [if_neg (by simp), if_neg (by simp), if_pos (by simp)]
        unfold sniffHTMLEncoding
        rw [hnone, hbom]
    · intro hbom
      constructor
      · intro enc hmeta
        unfold sniffHTMLEncoding
        rw [hnone, hbom, hmeta]
      · intro hmeta
        unfold sniffHTMLEncoding
        rw [hnone, hbom, hmeta]

/-- Witness for C6 at a UTF-8 BOM with no transport hint. -/
theorem sniffHTMLEncoding_priority_witness :
    sniffHTMLEncoding [0xef, 0xbb, 0xbf, 0x78] none = ("utf-8", 3) :=
  ((sniffHTMLEncoding_priority [0xef, 0xbb, 0xbf, 0x78] none).2 rfl).1 (by decide)

/-- C3: `finishAttribute` preserves insertion order of the attribute map:
a pending name already present raises a duplicate-attribute error and
leaves the map unchanged (the first value wins), a fresh name is appended
at the end, and distinctness of attribute names is preserved. -/
theorem finishAttribute_spec (entities : List (String × String)) (ts : TokSt)
    (hname : ts.currentAttrName ≠ "") :
    ((ts.currentAttrName ∈ ts.currentTagAttrs.map Prod.fst →
        (finishAttribute entities ts).currentTagAttrs = ts.currentTagAttrs ∧
        (finishAttribute entities ts).errors =
          ts.errors ++ [(TokErrorCode.DuplicateAttribute, ts.pos - 1)]) ∧
     (ts.currentAttrName ∉ ts.currentTagAttrs.map Prod.fst →
        (∃ v, (finishAttribute entities ts).currentTagAttrs =
          ts.currentTagAttrs ++ [(ts.currentAttrName, v)]) ∧
        (finishAttribute entities ts).errors = ts.errors) ∧
     ((ts.currentTagAttrs.map Prod.fst).Nodup →
        ((finishAttribute entities ts).currentTagAttrs.map Prod.fst).Nodup)) := by
  by_cases hdup : ts.currentAttrName ∈ ts.currentTagAttrs.map Prod.fst
  · have hc : (ts.currentTagAttrs.map Prod.fst).contains ts.currentAttrName = true := by
      simpa using hdup
    have heq : (finishAttribute entities ts).currentTagAttrs = ts.currentTagAttrs ∧
        (finishAttribute entities ts).errors =
          ts.errors ++ [(TokErrorCode.DuplicateAttribute, ts.pos - 1)] := by
      constructor <;>
      · simp only [finishAttribute, if_neg hname, tokEmitError]
        rw [if_pos hc]
    refine ⟨fun _ => heq, fun hnd => absurd hdup hnd, fun hnodup => ?_⟩
    rw [heq.1]
    exact hnodup
  · have hc : (ts.currentTagAttrs.map Prod.fst).contains ts.currentAttrName = false := by
      simpa using hdup
    have heq : (finishAttribute entities ts).currentTagAttrs =
        ts.currentTagAttrs ++
          [(ts.currentAttrName,
            if ts.currentAttrValueHasAmp then
              String.mk (decodeEntitiesInText entities true ts.currentAttrValue.toList)
            else ts.currentAttrValue)] ∧
        (finishAttribute entities ts).errors = ts.errors := by
      constructor <;>
      · simp only [finishAttribute, if_neg hname, tokEmitError]
        rw [if_neg (by simpa using hdup)]
    refine ⟨fun hd => absurd hd hdup, fun _ => ⟨⟨_, heq.1⟩, heq.2⟩, fun hnodup => ?_⟩
    rw [heq.1]
    simp only [List.map_append, List.map_cons, List.map_nil]
    rw [List.nodup_append]
    refine ⟨hnodup, List.nodup_singleton _, fun a ha hae => ?_⟩
    rw [List.mem_singleton] at hae
    exact hdup (hae ▸ ha)

/-- Witness for C3 at a tokenizer state carrying a duplicate `id`. -/
theorem finishAttribute_spec_witness :
    sampleDupAttrTokSt.currentAttrName ≠ "" ∧
    sampleDupAttrTokSt.currentAttrName ∈ sampleDupAttrTokSt.currentTagAttrs.map Prod.fst ∧
    (finishAttribute [] sampleDupAttrTokSt).currentTagAttrs =
      sampleDupAttrTokSt.currentTagAttrs ∧
    (finishAttribute [] sampleDupAttrTokSt).errors =
      sampleDupAttrTokSt.errors ++ [(TokErrorCode.DuplicateAttribute, 4)] :=
  ⟨by decide, by decide,
   ((finishAttribute_spec [] sampleDupAttrTokSt (by decide)).1 (by decide)).1,
   ((finishAttribute_spec [] sampleDupAttrTokSt (by decide)).1 (by decide)).2⟩

/-- `rawTextSwitchDecision` fires exactly for raw-text-switch names and
`plaintext` when the current open element is absent or HTML-namespaced. -/
theorem rawTextSwitchDecision_eq (name : String)
    (stackNS : Option (List (Option String))) :
    rawTextSwitchDecision name stackNS =
      if (RAW_TEXT_SWITCH_TAGS.contains name = true ∨ name = "plaintext") ∧
          currentNSOk stackNS = true
      then some (rawSwitchTarget name) else none := by
  unfold rawTextSwitchDecision currentNSOk
  by_cases h : (RAW_TEXT_SWITCH_TAGS.contains name = true ∨ name = "plaintext")
  · cases hl : (stackNS.getD []).getLast? with
    | none => simp [h, hl]
    | some ns =>
      by_cases hns : ns = some "html" <;> simp [h, hl, hns]
  · have hm : ¬(name ∈ RAW_TEXT_SWITCH_TAGS ∨ name = "plaintext") := by
      simpa using h
    simp [hm]

/-- C4: emitting a start tag named by an RCDATA element (`title`,
`textarea`) switches the tokenizer to the RCDATA state and latches the
raw-text tag name, other raw-text-set names switch to RawText,
`plaintext` switches to PLAINTEXT — all only when the sink's current open
element is absent or in the HTML namespace; other names, and foreign
current elements, leave the state unchanged. -/
theorem emitCurrentTag_raw_text_switch {σ : Type} (S : Sink σ) (ts : TokSt) (s : σ)
    (hkind : ts.currentTagKind = TagKind.Start) (s₁ : σ)
    (hsink : S.processToken s (Token.tag ts.currentTagKind ts.currentTagName
        (ts.currentTagAttrs.map (fun p => (p.1, some p.2))) ts.currentTagSelfClosing)
      = some (s₁, some TokenSinkResult.Continue)) :
    (currentNSOk (S.openElementsNS s) = true →
      (RCDATA_ELEMENTS.contains ts.currentTagName = true →
        (emitCurrentTag S ts s).map (fun r => (r.1.state, r.1.rawTextTagName))
          = some (StRCDATA, some ts.currentTagName)) ∧
      (RAW_TEXT_SWITCH_TAGS.contains ts.currentTagName = true →
        RCDATA_ELEMENTS.contains ts.currentTagName = false →
        (emitCurrentTag S ts s).map (fun r => (r.1.state, r.1.rawTextTagName))
          = some (StRawText, some ts.currentTagName)) ∧
      (ts.currentTagName = "plaintext" →
        (emitCurrentTag S ts s).map (fun r => r.1.state) = some StPlainText)) ∧
    (RAW_TEXT_SWITCH_TAGS.contains ts.currentTagName = false →
      ts.currentTagName ≠ "plaintext" →
      (emitCurrentTag S ts s).map (fun r => r.1.state) = some ts.state) ∧
    (currentNSOk (S.openElementsNS s) = false →
      (emitCurrentTag S ts s).map (fun r => r.1.state) = some ts.state) := by
  rw [hkind] at hsink
  refine ⟨fun hns => ⟨fun hrc => ?_, fun hsw hrc => ?_, fun hpl => ?_⟩,
          fun hsw hpl => ?_, fun hns => ?_⟩
  · have hsw : RAW_TEXT_SWITCH_TAGS.contains ts.currentTagName = true := by
      have : ts.currentTagName = "title" ∨ ts.currentTagName = "textarea" := by
        simpa [RCDATA_ELEMENTS] using hrc
      rcases this with h | h <;> rw [h] <;> decide
    have hD : rawTextSwitchDecision ts.currentTagName (S.openElementsNS s)
        = some (StRCDATA, true) := by
      rw [rawTextSwitchDecision_eq, if_pos ⟨Or.inl hsw, hns⟩, rawSwitchTarget,
          if_pos hrc]
    simp [emitCurrentTag, hkind, hD, hsink]
  · have hD : rawTextSwitchDecision ts.currentTagName (S.openElementsNS s)
        = some (StRawText, true) := by
      rw [rawTextSwitchDecision_eq, if_pos ⟨Or.inl hsw, hns⟩, rawSwitchTarget,
          if_neg (by simpa using hrc), if_pos hsw]
    simp [emitCurrentTag, hkind, hD, hsink]
  · have hD : rawTextSwitchDecision ts.currentTagName (S.openElementsNS s)
        = some (StPlainText, false) := by
      rw [rawTextSwitchDecision_eq, if_pos ⟨Or.inr hpl, hns⟩, hpl]
      rfl
    simp [emitCurrentTag, hkind, hD, hsink]
  · have hD : rawTextSwitchDecision ts.currentTagName (S.openElementsNS s) = none := by
      rw [rawTextSwitchDecision_eq, if_neg]
      rintro ⟨h | h, -⟩
      · rw [hsw] at h
        exact absurd h (by decide)
      · exact hpl h
    simp [emitCurrentTag, hkind, hD, hsink]
  · have hD : rawTextSwitchDecision ts.currentTagName (S.openElementsNS s) = none := by
      rw [rawTextSwitchDecision_eq, if_neg]
      rintro ⟨-, h⟩
      rw [hns] at h
      exact absurd h (by decide)
    simp [emitCurrentTag, hkind, hD, hsink]

/-- Witness for C4: a `<title>` start tag into the trivial sink enters
RCDATA and latches the tag name. -/
theorem emitCurrentTag_raw_text_switch_witness :
    sampleTitleTokSt.currentTagKind = TagKind.Start ∧
    (emitCurrentTag unitSink sampleTitleTokSt ()).map
        (fun r => (r.1.state, r.1.rawTextTagName)) = some (StRCDATA, some "title") :=
  ⟨rfl,
   ((emitCurrentTag_raw_text_switch unitSink sampleTitleTokSt () rfl () rfl).1
      rfl).1 (by decide)⟩

/-- `modifyNode` never changes the heap's length. -/
theorem length_modifyNode (h : Heap) (i : Nat) (f : NodeData → NodeData) :
    (modifyNode h i f).length = h.length := by
  unfold modifyNode
  cases hg : h.get? i with
  | none => rfl
  | some nd => simp

/-- Reading the modified slot applies the update function. -/
theorem getNode_modifyNode_self (h : Heap) (i : Nat) (f : NodeData → NodeData)
    (hi : i < h.length) :
    getNode (modifyNode h i f) i = f (getNode h i) := by
  cases hg : h.get? i with
  | none =>
    rw [List.get?_eq_none] at hg
    omega
  | some nd =>
    have hm : modifyNode h i f = h.set i (f nd) := by
      unfold modifyNode
      rw [hg]
    show ((modifyNode h i f).get? i).getD default = f ((h.get? i).getD default)
    rw [hm, hg, List.get?_set_eq_of_lt (f nd) hi]
    rfl

/-- Reading any other slot is unaffected by `modifyNode`. -/
theorem getNode_modifyNode_ne (h : Heap) (i j : Nat) (f : NodeData → NodeData)
    (hne : j ≠ i) :
    getNode (modifyNode h i f) j = getNode h j := by
  unfold modifyNode getNode
  cases hg : h.get? i with
  | none => rfl
  | some nd => rw [List.get?_set_ne _ _ (fun he => hne he.symm)]

/-- A non-text event in front of a stream does not create a consecutive
text pair beyond those of the tail. -/
theorem hasConsec_cons_nontext (e : StreamEvent) (l : List StreamEvent)
    (h : isTextEvent e = false) :
    hasConsecutiveTextEvents (e :: l) = hasConsecutiveTextEvents l := by
  cases l with
  | nil => simp [hasConsecutiveTextEvents]
  | cons e2 rest => simp [hasConsecutiveTextEvents, h]

/-- The per-batch yield loop on a non-text head event. -/
theorem batchYieldAux_cons_nontext (e : StreamEvent) (rest : List StreamEvent)
    (h : isTextEvent e = false) :
    batchYieldAux (e :: rest) none = e :: batchYieldAux rest none ∧
    ∀ t, batchYieldAux (e :: rest) (some t) =
      StreamEvent.text t :: e :: batchYieldAux rest none := by
  cases e
  case text d => simp [isTextEvent] at h
  all_goals exact ⟨rfl, fun t => rfl⟩

/-- No batch yielded by the stream generator holds two consecutive text
events, whatever the pending-text accumulator holds. -/
theorem batchYieldAux_no_consecutive :
    ∀ (es : List StreamEvent) (acc : Option String),
      hasConsecutiveTextEvents (batchYieldAux es acc) = false := by
  intro es
  induction es with
  | nil => intro acc; cases acc <;> rfl
  | cons e rest ih =>
    intro acc
    cases he : isTextEvent e with
    | true =>
      cases e with
      | text d => cases acc <;> exact ih _
      | start name attrs => simp [isTextEvent] at he
      | endTag name => simp [isTextEvent] at he
      | comment d => simp [isTextEvent] at he
      | doctype n p sys => simp [isTextEvent] at he
    | false =>
      cases acc with
      | none =>
        rw [(batchYieldAux_cons_nontext e rest he).1, hasConsec_cons_nontext _ _ he]
        exact ih none
      | some t =>
        rw [(batchYieldAux_cons_nontext e rest he).2 t]
        have h1 : hasConsecutiveTextEvents
            (StreamEvent.text t :: e :: batchYieldAux rest none)
            = ((isTextEvent (StreamEvent.text t) && isTextEvent e) ||
               hasConsecutiveTextEvents (e :: batchYieldAux rest none)) := rfl
        rw [h1, he, hasConsec_cons_nontext _ _ he, ih none]
        rfl

/-- Refutation for C9: across batch boundaries the stream generator does
not coalesce: tokenizing `"a<"` yields two consecutive text events. -/
theorem stream_consecutive_text_counterexample :
    stream [] {} "a<" = some [StreamEvent.text "a", StreamEvent.text "<"] ∧
    hasConsecutiveTextEvents [StreamEvent.text "a", StreamEvent.text "<"] = true :=
  ⟨by rfl, by rfl⟩

/-- C9 (amended): character tokens are coalesced within each drained
event batch of the `stream` generator — `batchYield` never emits two
consecutive text events — but batches emitted by different generator
steps are not merged, so a full stream may hold consecutive text events
across batch boundaries. -/
theorem stream_batch_no_consecutive_text (events : List StreamEvent) :
    hasConsecutiveTextEvents (batchYield events) = false :=
  batchYieldAux_no_consecutive events none

/-- Refutation for C8: parsing the empty document yields a document with
one child (the synthesized `html` element, holding `head` and `body`),
not a childless document; there are indeed no errors. -/
theorem parseDocument_empty_counterexample :
    (parseDocument [] "" none false false {}).map
        (fun r => ((getNode r.tb.heap r.tb.document).children.length,
                   r.tok.errors.length, r.tb.errors.length))
      = some (1, 0, 0) := by rfl

/-- Refutation for C2: after `populateSelectedContent` clones an option's
text into a `selectedcontent` that already ends in a text node, the final
tree holds two adjacent `#text` siblings. -/
theorem text_coalescing_counterexample :
    (parseDocument [] c2Input none false false {}).map
        (fun r => r.tb.heap.any
          (fun nd => hasAdjacentTextChildren r.tb.heap nd.children))
      = some true := by rfl

/-- C2 (amended): during tree construction `appendText` coalesces:
appending character data to a current node whose last child is a `#text`
node extends that node's data in place — no node is allocated, no child
list changes, and every other heap slot is untouched.  (The final
`populateSelectedContent` pass clones children without this merging, so
the finished tree can still hold adjacent `#text` siblings.) -/
theorem appendTextTB_coalesces (tb : TB) (text s : String) (target lastChild : Nat)
    (htext : text ≠ "") (hlf : tb.ignoreLF = false)
    (htarget : tb.openElements.getLast? = some target)
    (hfoster : TABLE_FOSTER_TARGETS.contains (getNode tb.heap target).name = false)
    (htmpl : isTemplateNodeH tb.heap target = false)
    (hlast : (getNode tb.heap target).children.getLast? = some lastChild)
    (hlt : lastChild < tb.heap.length)
    (hname : (getNode tb.heap lastChild).name = "#text")
    (hpayload : (getNode tb.heap lastChild).payload = NodePayload.text s) :
    ∃ tb', appendTextTB tb text = some tb' ∧
      tb'.heap.length = tb.heap.length ∧
      (∀ n, n < tb.heap.length → n ≠ lastChild →
        getNode tb'.heap n = getNode tb.heap n) ∧
      (getNode tb'.heap lastChild).payload = NodePayload.text (s ++ text) ∧
      (getNode tb'.heap lastChild).name = "#text" ∧
      (getNode tb'.heap lastChild).children = (getNode tb.heap lastChild).children ∧
      (getNode tb'.heap lastChild).parent = (getNode tb.heap lastChild).parent := by
  have hne : ¬tb.openElements = [] := by
    intro h0
    rw [h0] at htarget
    exact absurd htarget (by simp)
  have happ : ∃ h', appendTextTB tb text = some { tb with heap := h' } ∧
      h' = modifyNode tb.heap lastChild (fun nd =>
        { nd with payload := NodePayload.text ((match nd.payload with
            | NodePayload.text s0 => s0
            | _ => "") ++ text) }) := by
    refine ⟨_, ?_, rfl⟩
    unfold appendTextTB
    simp only [if_neg htext, hlf, Bool.false_eq_true, if_false, if_neg hne, htarget,
      hfoster, htmpl, not_false_iff, and_self, if_true, hlast, hname,
      eq_self_iff_true]
  obtain ⟨h', happ, hh'⟩ := happ
  refine ⟨_, happ, ?_, ?_, ?_, ?_, ?_, ?_⟩ <;>
    simp only [hh']
  · exact length_modifyNode _ _ _
  · intro n hn hne2
    exact getNode_modifyNode_ne _ _ _ _ hne2
  · rw [getNode_modifyNode_self _ _ _ hlt]
    simp only [hpayload]
  · rw [getNode_modifyNode_self _ _ _ hlt]
    exact hname
  · rw [getNode_modifyNode_self _ _ _ hlt]
  · rw [getNode_modifyNode_self _ _ _ hlt]

/-- Witness for C2's amended theorem: appending `"b"` to a builder whose
open `div` ends with the text node `"a"` merges into `"ab"`. -/
theorem appendTextTB_coalesces_witness :
    ∃ tb', appendTextTB sampleCoalesceTB "b" = some tb' ∧
      tb'.heap.length = sampleCoalesceTB.heap.length ∧
      (∀ n, n < sampleCoalesceTB.heap.length → n ≠ 1 →
        getNode tb'.heap n = getNode sampleCoalesceTB.heap n) ∧
      (getNode tb'.heap 1).payload = NodePayload.text ("a" ++ "b") ∧
      (getNode tb'.heap 1).name = "#text" ∧
      (getNode tb'.heap 1).children = (getNode sampleCoalesceTB.heap 1).children ∧
      (getNode tb'.heap 1).parent = (getNode sampleCoalesceTB.heap 1).parent :=
  appendTextTB_coalesces sampleCoalesceTB "b" "a" 0 1
    (by decide) rfl rfl (by decide) (by decide) rfl (by decide) rfl rfl

/-- C8 (amended): parsing the empty string produces the four-node tree
`#document → html → (head, body)` — the parser synthesizes the missing
`html`, `head` and `body` — with no tokenizer errors and no tree-builder
errors. -/
theorem parseDocument_empty_tree :
    (parseDocument [] "" none false false {}).map
        (fun r => (r.tb.heap.map (fun nd => (nd.name, nd.children, nd.parent)),
                   r.tok.errors, r.tb.errors))
      = some ([("#document", [1], none), ("html", [2, 3], some 0),
               ("head", [], some 1), ("body", [], some 1)], [], []) := by rfl

/-- `mkNode` allocates at the end of the heap. -/
theorem mkNode_snd (h : Heap) (name : String) (payload : NodePayload)
    (nspace : Option String) (attrs : List (String × Option String)) :
    (mkNode h name payload nspace attrs).2 = h.length := by
  simp only [mkNode]
  by_cases hc : name = "template" ∧ nspace = some "html" <;> simp [hc]

/-- `mkNode` only grows the heap. -/
theorem mkNode_fst_length (h : Heap) (name : String) (payload : NodePayload)
    (nspace : Option String) (attrs : List (String × Option String)) :
    h.length ≤ ((mkNode h name payload nspace attrs).1).length := by
  simp only [mkNode]
  by_cases hc : name = "template" ∧ nspace = some "html" <;> simp [hc]

/-- `mkNode` leaves every existing slot unchanged. -/
theorem getNode_mkNode (h : Heap) (name : String) (payload : NodePayload)
    (nspace : Option String) (attrs : List (String × Option String))
    (n : Nat) (hn : n < h.length) :
    getNode ((mkNode h name payload nspace attrs).1) n = getNode h n := by
  simp only [mkNode, getNode]
  by_cases hc : name = "template" ∧ nspace = some "html"
  · rw [if_pos hc]
    show (((h ++ _ : Heap)).get? n).getD default = _
    rw [List.get?_append hn]
  · rw [if_neg hc]
    show (((h ++ _ : Heap)).get? n).getD default = _
    rw [List.get?_append hn]

/-- `appendChild` keeps the heap's length. -/
theorem length_nodeAppendChild (h : Heap) (p c : Nat) :
    (nodeAppendChild h p c).length = h.length := by
  simp only [nodeAppendChild]
  rw [length_modifyNode, length_modifyNode]

/-- `appendChild` touches only the parent and the appended child. -/
theorem getNode_nodeAppendChild_ne (h : Heap) (p c n : Nat)
    (hnp : n ≠ p) (hnc : n ≠ c) :
    getNode (nodeAppendChild h p c) n = getNode h n := by
  simp only [nodeAppendChild]
  rw [getNode_modifyNode_ne _ _ _ _ hnc, getNode_modifyNode_ne _ _ _ _ hnp]

/-- `appendChild` pushes the child onto the end of the parent's list. -/
theorem children_nodeAppendChild_self (h : Heap) (p c : Nat)
    (hp : p < h.length) (hpc : p ≠ c) :
    (getNode (nodeAppendChild h p c) p).children = (getNode h p).children ++ [c] := by
  simp only [nodeAppendChild]
  rw [getNode_modifyNode_ne _ _ _ _ hpc, getNode_modifyNode_self _ _ _ hp]

/-- One clone step only grows the heap. -/
theorem length_cloneStepHeap_ge (h : Heap) (task : CloneTask) :
    h.length ≤ (cloneStepHeap h task).length := by
  cases task with
  | intoParent src parent =>
    show h.length ≤ (nodeAppendChild _ parent _).length
    rw [length_nodeAppendChild]
    exact mkNode_fst_length _ _ _ _ _
  | intoTemplate src owner =>
    show h.length ≤ (modifyNode _ owner _).length
    rw [length_modifyNode]
    exact mkNode_fst_length _ _ _ _ _

/-- One clone step leaves every pre-existing slot other than its attach
target unchanged. -/
theorem getNode_cloneStepHeap_ne (h : Heap) (task : CloneTask) (n : Nat)
    (hn : n < h.length) (hne : n ≠ cloneTarget task) :
    getNode (cloneStepHeap h task) n = getNode h n := by
  have hcid : (mkNode h (getNode h (cloneSrc task)).name
      (getNode h (cloneSrc task)).payload (getNode h (cloneSrc task)).nspace
      (getNode h (cloneSrc task)).attrs).2 = h.length := mkNode_snd _ _ _ _ _
  cases task with
  | intoParent src parent =>
    have hne' : n ≠ parent := hne
    show getNode (nodeAppendChild _ parent _) n = getNode h n
    rw [getNode_nodeAppendChild_ne _ _ _ _ hne' (by rw [hcid]; omega)]
    exact getNode_mkNode _ _ _ _ _ _ hn
  | intoTemplate src owner =>
    have hne' : n ≠ owner := hne
    show getNode (modifyNode _ owner _) n = getNode h n
    rw [getNode_modifyNode_ne _ _ _ _ hne']
    exact getNode_mkNode _ _ _ _ _ _ hn

/-- One clone step at most appends to any pre-existing child list. -/
theorem children_cloneStepHeap (h : Heap) (task : CloneTask) (sc : Nat)
    (hsc : sc < h.length) :
    ∃ news, (getNode (cloneStepHeap h task) sc).children =
      (getNode h sc).children ++ news := by
  by_cases hne : sc = cloneTarget task
  · have hcid : (mkNode h (getNode h (cloneSrc task)).name
        (getNode h (cloneSrc task)).payload (getNode h (cloneSrc task)).nspace
        (getNode h (cloneSrc task)).attrs).2 = h.length := mkNode_snd _ _ _ _ _
    have hlen : sc < ((mkNode h (getNode h (cloneSrc task)).name
        (getNode h (cloneSrc task)).payload (getNode h (cloneSrc task)).nspace
        (getNode h (cloneSrc task)).attrs).1).length :=
      lt_of_lt_of_le hsc (mkNode_fst_length _ _ _ _ _)
    cases task with
    | intoParent src parent =>
      rw [show cloneTarget (CloneTask.intoParent src parent) = parent from rfl] at hne
      subst hne
      refine ⟨[(mkNode h (getNode h src).name (getNode h src).payload
        (getNode h src).nspace (getNode h src).attrs).2], ?_⟩
      show (getNode (nodeAppendChild _ sc _) sc).children = _
      rw [children_nodeAppendChild_self _ _ _ hlen (by rw [hcid]; omega)]
      rw [getNode_mkNode _ _ _ _ _ _ hsc]
      rfl
    | intoTemplate src owner =>
      rw [show cloneTarget (CloneTask.intoTemplate src owner) = owner from rfl] at hne
      subst hne
      refine ⟨[], ?_⟩
      show (getNode (modifyNode _ sc _) sc).children = _
      rw [getNode_modifyNode_self _ _ _ hlen, List.append_nil]
      show (getNode ((mkNode h _ _ _ _).1) sc).children = _
      rw [getNode_mkNode _ _ _ _ _ _ hsc]
  · refine ⟨[], ?_⟩
    rw [getNode_cloneStepHeap_ne h task sc hsc hne, List.append_nil]

/-- Every follow-up task of a clone step attaches into the fresh copy. -/
theorem cloneTarget_cloneStepTasks (h : Heap) (task : CloneTask) (t : CloneTask)
    (ht : t ∈ cloneStepTasks h task) : cloneTarget t = h.length := by
  simp only [cloneStepTasks] at ht
  rw [List.mem_append] at ht
  rcases ht with ht | ht
  · rw [List.mem_map] at ht
    obtain ⟨c, -, rfl⟩ := ht
    exact mkNode_snd _ _ _ _ _
  · cases htc : (getNode h (cloneSrc task)).templateContent with
    | some tc =>
      rw [htc] at ht
      rw [List.mem_singleton] at ht
      subst ht
      exact mkNode_snd _ _ _ _ _
    | none =>
      rw [htc] at ht
      exact absurd ht (by simp)

/-- `cloneRun` never changes a pre-existing slot other than `sc` as long
as every pending task attaches into `sc` or into fresh space. -/
theorem cloneRun_preserves (len₀ sc : Nat) :
    ∀ (fuel : Nat) (h : Heap) (tasks : List CloneTask),
      len₀ ≤ h.length →
      (∀ t ∈ tasks, cloneTarget t = sc ∨ len₀ ≤ cloneTarget t) →
      ∀ n, n < len₀ → n ≠ sc →
        getNode (cloneRun fuel h tasks) n = getNode h n := by
  intro fuel
  induction fuel with
  | zero => intro h tasks _ _ n _ _; rfl
  | succ fuel ih =>
    intro h tasks hlen htasks n hn hns
    cases tasks with
    | nil => rfl
    | cons task rest =>
      rw [show cloneRun (fuel + 1) h (task :: rest)
          = cloneRun fuel (cloneStepHeap h task) (cloneStepTasks h task ++ rest)
          from by cases task <;> rfl]
      have hnt : n ≠ cloneTarget task := by
        rcases htasks task (List.mem_cons_self _ _) with hcs | hcs
        · rw [hcs]; exact hns
        · omega
      rw [ih (cloneStepHeap h task) (cloneStepTasks h task ++ rest)
            (le_trans hlen (length_cloneStepHeap_ge h task))
            (fun t hmem => by
              rw [List.mem_append] at hmem
              rcases hmem with hmem | hmem
              · right
                rw [cloneTarget_cloneStepTasks h task t hmem]
                omega
              · exact htasks t (List.mem_cons_of_mem _ hmem))
            n hn hns]
      exact getNode_cloneStepHeap_ne h task n (lt_of_lt_of_le hn hlen) hnt

/-- `cloneRun` at most appends to any pre-existing child list. -/
theorem cloneRun_children (sc : Nat) :
    ∀ (fuel : Nat) (h : Heap) (tasks : List CloneTask), sc < h.length →
      ∃ news, (getNode (cloneRun fuel h tasks) sc).children =
        (getNode h sc).children ++ news := by
  intro fuel
  induction fuel with
  | zero => intro h tasks _; exact ⟨[], by rw [List.append_nil]; rfl⟩
  | succ fuel ih =>
    intro h tasks hsc
    cases tasks with
    | nil => exact ⟨[], by rw [List.append_nil]; rfl⟩
    | cons task rest =>
      rw [show cloneRun (fuel + 1) h (task :: rest)
          = cloneRun fuel (cloneStepHeap h task) (cloneStepTasks h task ++ rest)
          from by cases task <;> rfl]
      obtain ⟨news1, h1⟩ := children_cloneStepHeap h task sc hsc
      obtain ⟨news2, h2⟩ := ih (cloneStepHeap h task) (cloneStepTasks h task ++ rest)
        (lt_of_lt_of_le hsc (length_cloneStepHeap_ge h task))
      exact ⟨news1 ++ news2, by rw [h2, h1, List.append_assoc]⟩

/-- Refutation for C7: with two `selectedcontent` elements inside one
select, only the first is populated from the option; the second stays
empty. -/
theorem populateSelectedContent_counterexample :
    (parseDocument [] c7Input none false false {}).map
        (fun r =>
          ((findElementsH (r.tb.heap.length + 1) r.tb.heap [r.tb.document]
              "selectedcontent" []).map
             (fun sc => (getNode r.tb.heap sc).children.isEmpty),
           (findElementsH (r.tb.heap.length + 1) r.tb.heap [r.tb.document]
              "option" []).map
             (fun o => (getNode r.tb.heap o).children.isEmpty)))
      = some ([false, true], [false]) := by rfl

/-- C7 (amended): `populateSelectedContent` populates only the first
`selectedcontent` found inside each `select` (that is what `findElement`
returns): when the walk finds one select with a `selectedcontent` and at
least one option, the pass only ever appends clones under that first
`selectedcontent` — every other pre-existing node, in particular any
further `selectedcontent`, is left untouched. -/
theorem populateSelectedContent_first_only (h : Heap) (root s sc : Nat)
    (firstOpt : Nat) (opts : List Nat)
    (hsel : findElementsH (h.length + 1) h [root] "select" [] = [s])
    (hsc : findElementH (h.length + 1) h [s] "selectedcontent" = some sc)
    (hopts : findElementsH (h.length + 1) h [s] "option" [] = firstOpt :: opts)
    (hsclt : sc < h.length) :
    (∀ n, n < h.length → n ≠ sc →
      getNode (populateSelectedContent h root) n = getNode h n) ∧
    (∃ news, (getNode (populateSelectedContent h root) sc).children =
      (getNode h sc).children ++ news) := by
  have hpop : populateSelectedContent h root =
      cloneChildren h
        (match (firstOpt :: opts).find?
            (fun o => hasAttrKey "selected" (getNode h o).attrs) with
         | some o => o
         | none => firstOpt)
        sc := by
    unfold populateSelectedContent
    rw [hsel]
    simp only [List.foldl, hsc, hopts]
  rw [hpop]
  unfold cloneChildren
  constructor
  · intro n hn hns
    refine cloneRun_preserves h.length sc _ h _ le_rfl ?_ n hn hns
    intro t ht
    rw [List.mem_map] at ht
    obtain ⟨c, -, rfl⟩ := ht
    exact Or.inl rfl
  · exact cloneRun_children sc _ h _ hsclt

/-- Witness for C7's amended theorem on a four-node select tree. -/
theorem populateSelectedContent_first_only_witness :
    (∀ n, n < samplePopulateHeap.length → n ≠ 1 →
      getNode (populateSelectedContent samplePopulateHeap 0) n
        = getNode samplePopulateHeap n) ∧
    (∃ news, (getNode (populateSelectedContent samplePopulateHeap 0) 1).children =
      (getNode samplePopulateHeap 1).children ++ news) :=
  populateSelectedContent_first_only samplePopulateHeap 0 0 1 2 []
    (by rfl) (by rfl) (by rfl) (by decide)

/-- Membership in the spliced list of `insertBefore`. -/
theorem mem_insertIntoList (ref node d : Nat) :
    ∀ l : List Nat, d ∈ insertIntoList ref node l → d = node ∨ d ∈ l := by
  intro l
  induction l with
  | nil => intro hd; exact Or.inr hd
  | cons x rest ih =>
    intro hd
    by_cases hx : x = ref
    · rw [insertIntoList, if_pos hx] at hd
      rcases List.mem_cons.mp hd with h1 | h1
      · exact Or.inl h1
      · exact Or.inr h1
    · rw [insertIntoList, if_neg hx] at hd
      rcases List.mem_cons.mp hd with h1 | h1
      · exact Or.inr (by rw [h1]; exact List.mem_cons_self _ _)
      · rcases ih h1 with h2 | h2
        · exact Or.inl h2
        · exact Or.inr (List.mem_cons_of_mem _ h2)

/-- Membership in the overwritten list of `replaceChild`. -/
theorem mem_replaceInList (oldN newN d : Nat) :
    ∀ l : List Nat, d ∈ replaceInList oldN newN l → d = newN ∨ d ∈ l := by
  intro l
  induction l with
  | nil => intro hd; exact Or.inr hd
  | cons x rest ih =>
    intro hd
    by_cases hx : x = oldN
    · rw [replaceInList, if_pos hx] at hd
      rcases List.mem_cons.mp hd with h1 | h1
      · exact Or.inl h1
      · exact Or.inr (List.mem_cons_of_mem _ h1)
    · rw [replaceInList, if_neg hx] at hd
      rcases List.mem_cons.mp hd with h1 | h1
      · exact Or.inr (by rw [h1]; exact List.mem_cons_self _ _)
      · rcases ih h1 with h2 | h2
        · exact Or.inl h2
        · exact Or.inr (List.mem_cons_of_mem _ h2)

/-- A child occurring at most once disappears from its list slot when
`replaceChild` overwrites it (and the replacement differs). -/
theorem not_mem_replaceInList (oldN newN : Nat) (hne : oldN ≠ newN) :
    ∀ l : List Nat, l.count oldN ≤ 1 → oldN ∉ replaceInList oldN newN l := by
  intro l
  induction l with
  | nil => intro _ hd; exact absurd hd (by simp [replaceInList])
  | cons x rest ih =>
    intro hcount hd
    by_cases hx : x = oldN
    · rw [replaceInList, if_pos hx] at hd
      rcases List.mem_cons.mp hd with h1 | h1
      · exact hne h1
      · subst hx
        have hc0 : rest.count x = 0 := by
          rw [List.count_cons_self] at hcount
          omega
        exact (List.count_eq_zero.mp hc0) h1
    · rw [replaceInList, if_neg hx] at hd
      rcases List.mem_cons.mp hd with h1 | h1
      · exact hx h1.symm
      · refine ih ?_ h1
        rw [List.count_cons_of_ne (fun he => hx he.symm)] at hcount
        exact hcount

/-- `appendChild` preserves the parent-pointer invariant when the
appended node is in range and currently detached. -/
theorem parentOk_nodeAppendChild (h : Heap) (p c : Nat) (hpo : parentOk h)
    (hp : p < h.length) (hc : c < h.length) (hd : detachedNode h c) :
    parentOk (nodeAppendChild h p c) := by
  have hcq : ∀ q, q < h.length → (getNode (nodeAppendChild h p c) q).children =
      if q = p then (getNode h p).children ++ [c] else (getNode h q).children := by
    intro q hql
    show (getNode (modifyNode (modifyNode h p _) c _) q).children = _
    by_cases hqc : q = c
    · subst hqc
      rw [getNode_modifyNode_self _ _ _ (by rw [length_modifyNode]; exact hc)]
      by_cases hqp : q = p
      · subst hqp
        rw [if_pos rfl, getNode_modifyNode_self _ _ _ hp]
      · rw [if_neg hqp, getNode_modifyNode_ne _ _ _ _ hqp]
    · rw [getNode_modifyNode_ne _ _ _ _ hqc]
      by_cases hqp : q = p
      · subst hqp
        rw [if_pos rfl, getNode_modifyNode_self _ _ _ hp]
      · rw [if_neg hqp, getNode_modifyNode_ne _ _ _ _ hqp]
  have hpar : ∀ r, r ≠ c → (getNode (nodeAppendChild h p c) r).parent =
      (getNode h r).parent := by
    intro r hrc
    show (getNode (modifyNode (modifyNode h p _) c _) r).parent = _
    rw [getNode_modifyNode_ne _ _ _ _ hrc]
    by_cases hrp : r = p
    · subst hrp
      rw [getNode_modifyNode_self _ _ _ hp]
    · rw [getNode_modifyNode_ne _ _ _ _ hrp]
  have hparc : (getNode (nodeAppendChild h p c) c).parent = some p := by
    show (getNode (modifyNode (modifyNode h p _) c _) c).parent = _
    rw [getNode_modifyNode_self _ _ _ (by rw [length_modifyNode]; exact hc)]
  intro q hq d hdq
  rw [length_nodeAppendChild] at hq
  rw [hcq q hq] at hdq
  by_cases hdc : d = c
  · subst hdc
    rw [hparc]
    by_cases hqp : q = p
    · rw [hqp]
    · exfalso
      rw [if_neg hqp] at hdq
      exact hd q hq hdq
  · rw [hpar d hdc]
    by_cases hqp : q = p
    · subst hqp
      rw [if_pos rfl, List.mem_append] at hdq
      rcases hdq with hdq | hdq
      · exact hpo q hq d hdq
      · rw [List.mem_singleton] at hdq
        exact absurd hdq hdc
    · rw [if_neg hqp] at hdq
      exact hpo q hq d hdq

/-- `removeChild` preserves the parent-pointer invariant on a heap whose
child lists are duplicate-free and pairwise disjoint. -/
theorem parentOk_nodeRemoveChild (h h' : Heap) (p c : Nat) (hpo : parentOk h)
    (hdisj : childListsDisjoint h) (honce : childOnceInList h) (hp : p < h.length)
    (hrem : nodeRemoveChild h p c = some h') : parentOk h' := by
  have hmem : c ∈ (getNode h p).children := by
    by_contra hmem
    rw [nodeRemoveChild, if_neg hmem] at hrem
    exact Option.noConfusion hrem
  have hc : c < h.length := by
    by_contra hge
    have hpc := hpo p hp c hmem
    have hnone : h.get? c = none := by
      rw [List.get?_eq_none]
      omega
    rw [getNode, hnone] at hpc
    exact Option.noConfusion hpc
  have hh' : h' = modifyNode
      (modifyNode h p (fun nd => { nd with children := nd.children.erase c })) c
      (fun nd => { nd with parent := none }) := by
    rw [nodeRemoveChild, if_pos hmem] at hrem
    injection hrem with hrem
    exact hrem.symm
  subst hh'
  have hcq : ∀ q, q < h.length → (getNode (modifyNode (modifyNode h p
      (fun nd => { nd with children := nd.children.erase c })) c
      (fun nd => { nd with parent := none })) q).children =
      if q = p then (getNode h p).children.erase c else (getNode h q).children := by
    intro q hql
    by_cases hqc : q = c
    · subst hqc
      rw [getNode_modifyNode_self _ _ _ (by rw [length_modifyNode]; exact hc)]
      by_cases hqp : q = p
      · subst hqp
        rw [if_pos rfl, getNode_modifyNode_self _ _ _ hp]
      · rw [if_neg hqp, getNode_modifyNode_ne _ _ _ _ hqp]
    · rw [getNode_modifyNode_ne _ _ _ _ hqc]
      by_cases hqp : q = p
      · subst hqp
        rw [if_pos rfl, getNode_modifyNode_self _ _ _ hp]
      · rw [if_neg hqp, getNode_modifyNode_ne _ _ _ _ hqp]
  have hpar : ∀ r, r ≠ c → (getNode (modifyNode (modifyNode h p
      (fun nd => { nd with children := nd.children.erase c })) c
      (fun nd => { nd with parent := none })) r).parent =
      (getNode h r).parent := by
    intro r hrc
    rw [getNode_modifyNode_ne _ _ _ _ hrc]
    by_cases hrp : r = p
    · subst hrp
      rw [getNode_modifyNode_self _ _ _ hp]
    · rw [getNode_modifyNode_ne _ _ _ _ hrp]
  intro q hq d hdq
  rw [length_modifyNode, length_modifyNode] at hq
  rw [hcq q hq] at hdq
  by_cases hdc : d = c
  · subst hdc
    exfalso
    by_cases hqp : q = p
    · subst hqp
      rw [if_pos rfl] at hdq
      have hcount := honce q hq d
      have hc0 : ((getNode h q).children.erase d).count d = 0 := by
        rw [List.count_erase_self]
        omega
      exact (List.count_eq_zero.mp hc0) hdq
    · rw [if_neg hqp] at hdq
      exact hqp (hdisj q hq p hp d hdq hmem)
  · rw [hpar d hdc]
    by_cases hqp : q = p
    · subst hqp
      rw [if_pos rfl] at hdq
      exact hpo q hq d (List.mem_of_mem_erase hdq)
    · rw [if_neg hqp] at hdq
      exact hpo q hq d hdq

/-- `insertBefore` with a present reference preserves the parent-pointer
invariant when the inserted node is in range and currently detached. -/
theorem parentOk_nodeInsertBefore (h h' : Heap) (p c ref : Nat) (hpo : parentOk h)
    (hp : p < h.length) (hc : c < h.length) (hd : detachedNode h c)
    (hins : nodeInsertBefore h p c (some ref) = some h') : parentOk h' := by
  have hmem : ref ∈ (getNode h p).children := by
    by_contra hmem
    rw [nodeInsertBefore, if_neg hmem] at hins
    exact Option.noConfusion hins
  have hh' : h' = modifyNode
      (modifyNode h p (fun nd => { nd with children := insertIntoList ref c nd.children })) c
      (fun nd => { nd with parent := some p }) := by
    rw [nodeInsertBefore, if_pos hmem] at hins
    injection hins with hins
    exact hins.symm
  subst hh'
  have hcq : ∀ q, q < h.length → (getNode (modifyNode (modifyNode h p
      (fun nd => { nd with children := insertIntoList ref c nd.children })) c
      (fun nd => { nd with parent := some p })) q).children =
      if q = p then insertIntoList ref c (getNode h p).children
      else (getNode h q).children := by
    intro q hql
    by_cases hqc : q = c
    · subst hqc
      rw [getNode_modifyNode_self _ _ _ (by rw [length_modifyNode]; exact hc)]
      by_cases hqp : q = p
      · subst hqp
        rw [if_pos rfl, getNode_modifyNode_self _ _ _ hp]
      · rw [if_neg hqp, getNode_modifyNode_ne _ _ _ _ hqp]
    · rw [getNode_modifyNode_ne _ _ _ _ hqc]
      by_cases hqp : q = p
      · subst hqp
        rw [if_pos rfl, getNode_modifyNode_self _ _ _ hp]
      · rw [if_neg hqp, getNode_modifyNode_ne _ _ _ _ hqp]
  have hpar : ∀ r, r ≠ c → (getNode (modifyNode (modifyNode h p
      (fun nd => { nd with children := insertIntoList ref c nd.children })) c
      (fun nd => { nd with parent := some p })) r).parent =
      (getNode h r).parent := by
    intro r hrc
    rw [getNode_modifyNode_ne _ _ _ _ hrc]
    by_cases hrp : r = p
    · subst hrp
      rw [getNode_modifyNode_self _ _ _ hp]
    · rw [getNode_modifyNode_ne _ _ _ _ hrp]
  have hparc : (getNode (modifyNode (modifyNode h p
      (fun nd => { nd with children := insertIntoList ref c nd.children })) c
      (fun nd => { nd with parent := some p })) c).parent = some p := by
    rw [getNode_modifyNode_self _ _ _ (by rw [length_modifyNode]; exact hc)]
  intro q hq d hdq
  rw [length_modifyNode, length_modifyNode] at hq
  rw [hcq q hq] at hdq
  by_cases hdc : d = c
  · subst hdc
    rw [hparc]
    by_cases hqp : q = p
    · rw [hqp]
    · exfalso
      rw [if_neg hqp] at hdq
      exact hd q hq hdq
  · rw [hpar d hdc]
    by_cases hqp : q = p
    · subst hqp
      rw [if_pos rfl] at hdq
      rcases mem_insertIntoList ref c d _ hdq with h1 | h1
      · exact absurd h1 hdc
      · exact hpo q hq d h1
    · rw [if_neg hqp] at hdq
      exact hpo q hq d hdq

/-- `replaceChild` preserves the parent-pointer invariant when the new
node is in range and detached, on a heap with duplicate-free disjoint
child lists. -/
theorem parentOk_nodeReplaceChild (h h' : Heap) (p newN oldN : Nat) (hpo : parentOk h)
    (hdisj : childListsDisjoint h) (honce : childOnceInList h)
    (hp : p < h.length) (hnew : newN < h.length) (hd : detachedNode h newN)
    (hrep : nodeReplaceChild h p newN oldN = some h') : parentOk h' := by
  have hmem : oldN ∈ (getNode h p).children := by
    by_contra hmem
    rw [nodeReplaceChild, if_neg hmem] at hrep
    exact Option.noConfusion hrep
  have hold : oldN < h.length := by
    by_contra hge
    have hpc := hpo p hp oldN hmem
    have hnone : h.get? oldN = none := by
      rw [List.get?_eq_none]
      omega
    rw [getNode, hnone] at hpc
    exact Option.noConfusion hpc
  have hh' : h' = modifyNode (modifyNode
      (modifyNode h p (fun nd => { nd with children := replaceInList oldN newN nd.children }))
      oldN (fun nd => { nd with parent := none })) newN
      (fun nd => { nd with parent := some p }) := by
    rw [nodeReplaceChild, if_pos hmem] at hrep
    injection hrep with hrep
    exact hrep.symm
  subst hh'
  have hcq : ∀ q, q < h.length →
      (getNode (modifyNode (modifyNode (modifyNode h p
        (fun nd => { nd with children := replaceInList oldN newN nd.children })) oldN
        (fun nd => { nd with parent := none })) newN
        (fun nd => { nd with parent := some p })) q).children =
      if q = p then replaceInList oldN newN (getNode h p).children
      else (getNode h q).children := by
    intro q hql
    have step2 : ∀ r, (getNode (modifyNode (modifyNode (modifyNode h p
        (fun nd => { nd with children := replaceInList oldN newN nd.children })) oldN
        (fun nd => { nd with parent := none })) newN
        (fun nd => { nd with parent := some p })) r).children =
        (getNode (modifyNode h p
          (fun nd => { nd with children := replaceInList oldN newN nd.children })) r).children := by
      intro r
      by_cases hrn : r = newN
      · subst hrn
        rw [getNode_modifyNode_self _ _ _
          (by rw [length_modifyNode, length_modifyNode]; exact hnew)]
        by_cases hro : r = oldN
        · subst hro
          rw [getNode_modifyNode_self _ _ _ (by rw [length_modifyNode]; exact hold)]
        · rw [getNode_modifyNode_ne _ _ _ _ hro]
      · rw [getNode_modifyNode_ne _ _ _ _ hrn]
        by_cases hro : r = oldN
        · subst hro
          rw [getNode_modifyNode_self _ _ _ (by rw [length_modifyNode]; exact hold)]
        · rw [getNode_modifyNode_ne _ _ _ _ hro]
    rw [step2 q]
    by_cases hqp : q = p
    · subst hqp
      rw [if_pos rfl, getNode_modifyNode_self _ _ _ hp]
    · rw [if_neg hqp, getNode_modifyNode_ne _ _ _ _ hqp]
  have hparnew : (getNode (modifyNode (modifyNode (modifyNode h p
        (fun nd => { nd with children := replaceInList oldN newN nd.children })) oldN
        (fun nd => { nd with parent := none })) newN
        (fun nd => { nd with parent := some p })) newN).parent
      = some p := by
    rw [getNode_modifyNode_self _ _ _
      (by rw [length_modifyNode, length_modifyNode]; exact hnew)]
  have hparold : oldN ≠ newN →
      (getNode (modifyNode (modifyNode (modifyNode h p
        (fun nd => { nd with children := replaceInList oldN newN nd.children })) oldN
        (fun nd => { nd with parent := none })) newN
        (fun nd => { nd with parent := some p })) oldN).parent
      = none := by
    intro hon
    rw [getNode_modifyNode_ne _ _ _ _ hon,
      getNode_modifyNode_self _ _ _ (by rw [length_modifyNode]; exact hold)]
  have hpar : ∀ r, r ≠ newN → r ≠ oldN →
      (getNode (modifyNode (modifyNode (modifyNode h p
        (fun nd => { nd with children := replaceInList oldN newN nd.children })) oldN
        (fun nd => { nd with parent := none })) newN
        (fun nd => { nd with parent := some p })) r).parent =
      (getNode h r).parent := by
    intro r hrn hro
    rw [getNode_modifyNode_ne _ _ _ _ hrn, getNode_modifyNode_ne _ _ _ _ hro]
    by_cases hrp : r = p
    · subst hrp
      rw [getNode_modifyNode_self _ _ _ hp]
    · rw [getNode_modifyNode_ne _ _ _ _ hrp]
  intro q hq d hdq
  rw [length_modifyNode, length_modifyNode, length_modifyNode] at hq
  rw [hcq q hq] at hdq
  by_cases hdn : d = newN
  · subst hdn
    rw [hparnew]
    by_cases hqp : q = p
    · rw [hqp]
    · exfalso
      rw [if_neg hqp] at hdq
      exact hd q hq hdq
  · by_cases hdo : d = oldN
    · subst hdo
      exfalso
      by_cases hqp : q = p
      · subst hqp
        rw [if_pos rfl] at hdq
        exact not_mem_replaceInList d newN (fun he => hdn he) _ (honce q hq d) hdq
      · rw [if_neg hqp] at hdq
        exact hqp (hdisj q hq p hp d hdq hmem)
    · rw [hpar d hdn hdo]
      by_cases hqp : q = p
      · subst hqp
        rw [if_pos rfl] at hdq
        rcases mem_replaceInList oldN newN d _ hdq with h1 | h1
        · exact absurd h1 hdn
        · exact hpo q hq d h1
      · rw [if_neg hqp] at hdq
        exact hpo q hq d hdq

/-! ### Heap well-formedness through the pipeline (for C1) -/

/-- `modifyNode` out of range is the identity. -/
theorem modifyNode_ge (h : Heap) (i : Nat) (f : NodeData → NodeData)
    (hi : ¬i < h.length) : modifyNode h i f = h := by
  unfold modifyNode
  rw [List.get?_eq_none.mpr (by omega)]

/-- Under correct parent pointers, child lists only hold in-range nodes. -/
theorem childLt_of_parentOk (h : Heap) (hpo : parentOk h) (p c : Nat)
    (hp : p < h.length) (hc : c ∈ (getNode h p).children) : c < h.length := by
  by_contra hge
  have hpc := hpo p hp c hc
  have hnone : h.get? c = none := by
    rw [List.get?_eq_none]
    omega
  rw [getNode, hnone] at hpc
  exact Option.noConfusion hpc

/-- Under correct parent pointers, out-of-range indices are detached. -/
theorem detached_of_ge (h : Heap) (hpo : parentOk h) (n : Nat) (hn : h.length ≤ n) :
    detachedNode h n := by
  intro p hp hmem
  have := childLt_of_parentOk h hpo p n hp hmem
  omega

/-- Reading below the split of an appended heap. -/
theorem getNode_append_lt (h : Heap) (l : List NodeData) (n : Nat)
    (hn : n < h.length) : getNode (h ++ l) n = getNode h n := by
  show ((h ++ l).get? n).getD default = _
  rw [List.get?_append hn]
  rfl

/-- Appended childless nodes keep every high slot childless. -/
theorem children_append_ge (h : Heap) (l : List NodeData)
    (hl : ∀ nd ∈ l, nd.children = []) (n : Nat) (hn : h.length ≤ n) :
    (getNode (h ++ l) n).children = [] := by
  show (((h ++ l).get? n).getD default).children = []
  rw [List.get?_append_right hn]
  cases hg : l.get? (n - h.length) with
  | none => rfl
  | some nd => exact hl nd (List.get?_mem hg)

/-- Appending childless nodes preserves heap well-formedness. -/
theorem WF_append (h : Heap) (l : List NodeData)
    (hl : ∀ nd ∈ l, nd.children = []) (hwf : WF h) : WF (h ++ l) := by
  obtain ⟨hpo, hdisj, honce⟩ := hwf
  refine ⟨?_, ?_, ?_⟩
  · intro p hp c hc
    by_cases hpl : p < h.length
    · rw [getNode_append_lt h l p hpl] at hc
      have hclt := childLt_of_parentOk h hpo p c hpl hc
      rw [getNode_append_lt h l c hclt]
      exact hpo p hpl c hc
    · rw [children_append_ge h l hl p (by omega)] at hc
      exact absurd hc (List.not_mem_nil c)
  · intro p hp q hq c hcp hcq
    by_cases hpl : p < h.length
    · by_cases hql : q < h.length
      · rw [getNode_append_lt h l p hpl] at hcp
        rw [getNode_append_lt h l q hql] at hcq
        exact hdisj p hpl q hql c hcp hcq
      · rw [children_append_ge h l hl q (by omega)] at hcq
        exact absurd hcq (List.not_mem_nil c)
    · rw [children_append_ge h l hl p (by omega)] at hcp
      exact absurd hcp (List.not_mem_nil c)
  · intro p hp c
    by_cases hpl : p < h.length
    · rw [getNode_append_lt h l p hpl]
      exact honce p hpl c
    · rw [children_append_ge h l hl p (by omega)]
      simp

/-- A fresh index is detached in a heap extended by childless nodes. -/
theorem detached_append_of_ge (h : Heap) (l : List NodeData)
    (hl : ∀ nd ∈ l, nd.children = []) (hpo : parentOk h) (n : Nat)
    (hn : h.length ≤ n) : detachedNode (h ++ l) n := by
  intro p hp hmem
  by_cases hpl : p < h.length
  · rw [getNode_append_lt h l p hpl] at hmem
    have := childLt_of_parentOk h hpo p n hpl hmem
    omega
  · rw [children_append_ge h l hl p (by omega)] at hmem
    exact absurd hmem (List.not_mem_nil _)

/-- `mkNode` allocates strictly. -/
theorem mkNode_fst_length_lt (h : Heap) (name : String) (payload : NodePayload)
    (nspace : Option String) (attrs : List (String × Option String)) :
    h.length < ((mkNode h name payload nspace attrs).1).length := by
  simp only [mkNode]
  by_cases hc : name = "template" ∧ nspace = some "html" <;> simp [hc]

/-- The nodes `mkNode` appends are childless. -/
theorem WF_mkNode (h : Heap) (name : String) (payload : NodePayload)
    (nspace : Option String) (attrs : List (String × Option String))
    (hwf : WF h) : WF ((mkNode h name payload nspace attrs).1) := by
  simp only [mkNode]
  by_cases hc : name = "template" ∧ nspace = some "html"
  · rw [if_pos hc]
    refine WF_append h _ ?_ hwf
    intro nd hnd
    rcases List.mem_cons.mp hnd with rfl | hnd
    · rfl
    rcases List.mem_cons.mp hnd with rfl | hnd
    · rfl
    exact absurd hnd (List.not_mem_nil _)
  · rw [if_neg hc]
    refine WF_append h _ ?_ hwf
    intro nd hnd
    rcases List.mem_cons.mp hnd with rfl | hnd
    · rfl
    exact absurd hnd (List.not_mem_nil _)

/-- The node `mkNode` returns is detached in the extended heap. -/
theorem mkNode_detached (h : Heap) (name : String) (payload : NodePayload)
    (nspace : Option String) (attrs : List (String × Option String))
    (hpo : parentOk h) :
    detachedNode ((mkNode h name payload nspace attrs).1)
      ((mkNode h name payload nspace attrs).2) := by
  rw [mkNode_snd]
  simp only [mkNode]
  by_cases hc : name = "template" ∧ nspace = some "html"
  · rw [if_pos hc]
    refine detached_append_of_ge h _ ?_ hpo h.length le_rfl
    intro nd hnd
    rcases List.mem_cons.mp hnd with rfl | hnd
    · rfl
    rcases List.mem_cons.mp hnd with rfl | hnd
    · rfl
    exact absurd hnd (List.not_mem_nil _)
  · rw [if_neg hc]
    refine detached_append_of_ge h _ ?_ hpo h.length le_rfl
    intro nd hnd
    rcases List.mem_cons.mp hnd with rfl | hnd
    · rfl
    exact absurd hnd (List.not_mem_nil _)

/-- Counting after the `insertBefore` splice. -/
theorem count_insertIntoList_le (ref node d : Nat) :
    ∀ l : List Nat, (insertIntoList ref node l).count d ≤
      l.count d + (if d = node then 1 else 0) := by
  intro l
  induction l with
  | nil =>
    show ([] : List Nat).count d ≤ _
    by_cases hd : d = node <;> simp [hd]
  | cons x rest ih =>
    by_cases hx : x = ref
    · rw [insertIntoList, if_pos hx]
      simp only [List.count_cons, beq_iff_eq]
      split_ifs <;> omega
    · rw [insertIntoList, if_neg hx]
      simp only [List.count_cons, beq_iff_eq]
      have h1 := ih
      split_ifs at h1 ⊢ <;> omega

/-- Counting after the `replaceChild` overwrite. -/
theorem count_replaceInList_le (oldN newN d : Nat) :
    ∀ l : List Nat, (replaceInList oldN newN l).count d ≤
      l.count d + (if d = newN then 1 else 0) := by
  intro l
  induction l with
  | nil =>
    show ([] : List Nat).count d ≤ _
    by_cases hd : d = newN <;> simp [hd]
  | cons x rest ih =>
    by_cases hx : x = oldN
    · rw [replaceInList, if_pos hx]
      simp only [List.count_cons, beq_iff_eq]
      split_ifs <;> omega
    · rw [replaceInList, if_neg hx]
      simp only [List.count_cons, beq_iff_eq]
      have h1 := ih
      split_ifs at h1 ⊢ <;> omega

/-- `appendChild` of an in-range, detached node preserves
well-formedness. -/
theorem WF_nodeAppendChild (h : Heap) (p c : Nat) (hwf : WF h)
    (hc : c < h.length) (hd : detachedNode h c) : WF (nodeAppendChild h p c) := by
  obtain ⟨hpo, hdisj, honce⟩ := hwf
  by_cases hp : p < h.length
  · have hch : ∀ q, (getNode (nodeAppendChild h p c) q).children =
        if q = p then (getNode h p).children ++ [c] else (getNode h q).children := by
      intro q
      show (getNode (modifyNode (modifyNode h p _) c _) q).children = _
      by_cases hqc : q = c
      · subst hqc
        rw [getNode_modifyNode_self _ _ _ (by rw [length_modifyNode]; exact hc)]
        by_cases hqp : q = p
        · subst hqp
          rw [if_pos rfl, getNode_modifyNode_self _ _ _ hp]
        · rw [if_neg hqp, getNode_modifyNode_ne _ _ _ _ hqp]
      · rw [getNode_modifyNode_ne _ _ _ _ hqc]
        by_cases hqp : q = p
        · subst hqp
          rw [if_pos rfl, getNode_modifyNode_self _ _ _ hp]
        · rw [if_neg hqp, getNode_modifyNode_ne _ _ _ _ hqp]
    refine ⟨parentOk_nodeAppendChild h p c hpo hp hc hd, ?_, ?_⟩
    · intro a ha b hb d hda hdb
      rw [length_nodeAppendChild] at ha hb
      rw [hch a] at hda
      rw [hch b] at hdb
      by_cases hdc : d = c
      · subst hdc
        have hap : a = p := by
          by_cases h1 : a = p
          · exact h1
          · rw [if_neg h1] at hda
            exact absurd hda (hd a ha)
        have hbp : b = p := by
          by_cases h1 : b = p
          · exact h1
          · rw [if_neg h1] at hdb
            exact absurd hdb (hd b hb)
        rw [hap, hbp]
      · have hda' : d ∈ (getNode h a).children := by
          by_cases h1 : a = p
          · subst h1
            rw [if_pos rfl, List.mem_append] at hda
            rcases hda with h2 | h2
            · exact h2
            · rw [List.mem_singleton] at h2
              exact absurd h2 hdc
          · rw [if_neg h1] at hda
            exact hda
        have hdb' : d ∈ (getNode h b).children := by
          by_cases h1 : b = p
          · subst h1
            rw [if_pos rfl, List.mem_append] at hdb
            rcases hdb with h2 | h2
            · exact h2
            · rw [List.mem_singleton] at h2
              exact absurd h2 hdc
          · rw [if_neg h1] at hdb
            exact hdb
        exact hdisj a ha b hb d hda' hdb'
    · intro q hq d
      rw [length_nodeAppendChild] at hq
      rw [hch q]
      by_cases hqp : q = p
      · rw [if_pos hqp]
        rw [List.count_append]
        have h1 := honce p hp d
        by_cases hdc : d = c
        · have h0 : (getNode h p).children.count d = 0 := by
            rw [List.count_eq_zero, hdc]
            exact hd p hp
          have h2 : ([c] : List Nat).count d ≤ 1 := by
            simp only [List.count_cons, List.count_nil, beq_iff_eq]
            split_ifs <;> omega
          omega
        · have h3 : ([c] : List Nat).count d = 0 := by
            simp only [List.count_cons, List.count_nil, beq_iff_eq]
            split_ifs with h4
            · exact absurd h4.symm hdc
            · rfl
          omega
      · rw [if_neg hqp]
        exact honce q hq d
  · have hdeg : nodeAppendChild h p c =
        modifyNode h c (fun nd => { nd with parent := some p }) := by
      simp only [nodeAppendChild]
      rw [modifyNode_ge h p _ hp]
    rw [hdeg]
    have hch : ∀ q, (getNode (modifyNode h c
        (fun nd => { nd with parent := some p })) q).children =
        (getNode h q).children := by
      intro q
      by_cases hqc : q = c
      · subst hqc
        rw [getNode_modifyNode_self _ _ _ hc]
      · rw [getNode_modifyNode_ne _ _ _ _ hqc]
    refine ⟨?_, ?_, ?_⟩
    · intro q hq d hdq
      rw [length_modifyNode] at hq
      rw [hch q] at hdq
      by_cases hdc : d = c
      · subst hdc
        exact absurd hdq (hd q hq)
      · rw [getNode_modifyNode_ne _ _ _ _ hdc]
        exact hpo q hq d hdq
    · intro a ha b hb d hda hdb
      rw [length_modifyNode] at ha hb
      rw [hch a] at hda
      rw [hch b] at hdb
      exact hdisj a ha b hb d hda hdb
    · intro q hq d
      rw [length_modifyNode] at hq
      rw [hch q]
      exact honce q hq d

/-- `removeChild` preserves well-formedness; the removed child is in
range and detached afterwards, and the length is kept. -/
theorem WF_nodeRemoveChild (h h' : Heap) (p c : Nat) (hwf : WF h)
    (hrem : nodeRemoveChild h p c = some h') :
    WF h' ∧ h'.length = h.length ∧ c < h.length ∧ detachedNode h' c := by
  obtain ⟨hpo, hdisj, honce⟩ := hwf
  have hmem : c ∈ (getNode h p).children := by
    by_contra hmem
    rw [nodeRemoveChild, if_neg hmem] at hrem
    exact Option.noConfusion hrem
  have hp : p < h.length := by
    by_contra hge
    have hnone : h.get? p = none := by
      rw [List.get?_eq_none]
      omega
    rw [getNode, hnone] at hmem
    exact absurd hmem (List.not_mem_nil c)
  have hc : c < h.length := childLt_of_parentOk h hpo p c hp hmem
  have hh' : h' = modifyNode
      (modifyNode h p (fun nd => { nd with children := nd.children.erase c })) c
      (fun nd => { nd with parent := none }) := by
    rw [nodeRemoveChild, if_pos hmem] at hrem
    injection hrem with hrem
    exact hrem.symm
  subst hh'
  have hch : ∀ q, (getNode (modifyNode (modifyNode h p
      (fun nd => { nd with children := nd.children.erase c })) c
      (fun nd => { nd with parent := none })) q).children =
      if q = p then (getNode h p).children.erase c else (getNode h q).children := by
    intro q
    by_cases hqc : q = c
    · subst hqc
      rw [getNode_modifyNode_self _ _ _ (by rw [length_modifyNode]; exact hc)]
      by_cases hqp : q = p
      · subst hqp
        rw [if_pos rfl, getNode_modifyNode_self _ _ _ hp]
      · rw [if_neg hqp, getNode_modifyNode_ne _ _ _ _ hqp]
    · rw [getNode_modifyNode_ne _ _ _ _ hqc]
      by_cases hqp : q = p
      · subst hqp
        rw [if_pos rfl, getNode_modifyNode_self _ _ _ hp]
      · rw [if_neg hqp, getNode_modifyNode_ne _ _ _ _ hqp]
  have hlen : (modifyNode (modifyNode h p
      (fun nd => { nd with children := nd.children.erase c })) c
      (fun nd => { nd with parent := none })).length = h.length := by
    rw [length_modifyNode, length_modifyNode]
  refine ⟨⟨parentOk_nodeRemoveChild h _ p c hpo hdisj honce hp
      (by rw [nodeRemoveChild, if_pos hmem]), ?_, ?_⟩, hlen, hc, ?_⟩
  · intro a ha b hb d hda hdb
    rw [hlen] at ha hb
    rw [hch a] at hda
    rw [hch b] at hdb
    have hda' : d ∈ (getNode h a).children := by
      by_cases h1 : a = p
      · subst h1
        rw [if_pos rfl] at hda
        exact List.mem_of_mem_erase hda
      · rw [if_neg h1] at hda
        exact hda
    have hdb' : d ∈ (getNode h b).children := by
      by_cases h1 : b = p
      · subst h1
        rw [if_pos rfl] at hdb
        exact List.mem_of_mem_erase hdb
      · rw [if_neg h1] at hdb
        exact hdb
    exact hdisj a ha b hb d hda' hdb'
  · intro q hq d
    rw [hlen] at hq
    rw [hch q]
    by_cases hqp : q = p
    · rw [if_pos hqp]
      calc ((getNode h p).children.erase c).count d
          ≤ (getNode h p).children.count d := (List.erase_sublist c _).count_le d
        _ ≤ 1 := by
            rw [← hqp]
            exact honce q hq d
    · rw [if_neg hqp]
      exact honce q hq d
  · intro q hq hmem2
    rw [hlen] at hq
    rw [hch q] at hmem2
    by_cases hqp : q = p
    · rw [if_pos hqp] at hmem2
      have h1 := honce p hp c
      have h2 : ((getNode h p).children.erase c).count c = 0 := by
        rw [List.count_erase_self]
        omega
      exact (List.count_eq_zero.mp h2) hmem2
    · rw [if_neg hqp] at hmem2
      exact hqp (hdisj q hq p hp c hmem2 hmem)

/-- `insertBefore` of an in-range, detached node preserves
well-formedness. -/
theorem WF_nodeInsertBefore (h h' : Heap) (p c : Nat) (ref : Option Nat)
    (hwf : WF h) (hc : c < h.length) (hd : detachedNode h c)
    (hins : nodeInsertBefore h p c ref = some h') : WF h' := by
  obtain ⟨hpo, hdisj, honce⟩ := hwf
  cases ref with
  | none =>
    rw [nodeInsertBefore] at hins
    injection hins with hins
    rw [← hins]
    exact WF_nodeAppendChild h p c ⟨hpo, hdisj, honce⟩ hc hd
  | some ref =>
    have hmem : ref ∈ (getNode h p).children := by
      by_contra hmem
      rw [nodeInsertBefore, if_neg hmem] at hins
      exact Option.noConfusion hins
    have hp : p < h.length := by
      by_contra hge
      have hnone : h.get? p = none := by
        rw [List.get?_eq_none]
        omega
      rw [getNode, hnone] at hmem
      exact absurd hmem (List.not_mem_nil ref)
    have hh' : h' = modifyNode
        (modifyNode h p (fun nd =>
          { nd with children := insertIntoList ref c nd.children })) c
        (fun nd => { nd with parent := some p }) := by
      rw [nodeInsertBefore, if_pos hmem] at hins
      injection hins with hins
      exact hins.symm
    subst hh'
    have hch : ∀ q, (getNode (modifyNode (modifyNode h p (fun nd =>
        { nd with children := insertIntoList ref c nd.children })) c
        (fun nd => { nd with parent := some p })) q).children =
        if q = p then insertIntoList ref c (getNode h p).children
        else (getNode h q).children := by
      intro q
      by_cases hqc : q = c
      · subst hqc
        rw [getNode_modifyNode_self _ _ _ (by rw [length_modifyNode]; exact hc)]
        by_cases hqp : q = p
        · subst hqp
          rw [if_pos rfl, getNode_modifyNode_self _ _ _ hp]
        · rw [if_neg hqp, getNode_modifyNode_ne _ _ _ _ hqp]
      · rw [getNode_modifyNode_ne _ _ _ _ hqc]
        by_cases hqp : q = p
        · subst hqp
          rw [if_pos rfl, getNode_modifyNode_self _ _ _ hp]
        · rw [if_neg hqp, getNode_modifyNode_ne _ _ _ _ hqp]
    have hlen : (modifyNode (modifyNode h p (fun nd =>
        { nd with children := insertIntoList ref c nd.children })) c
        (fun nd => { nd with parent := some p })).length = h.length := by
      rw [length_modifyNode, length_modifyNode]
    refine ⟨parentOk_nodeInsertBefore h _ p c ref hpo hp hc hd
      (by rw [nodeInsertBefore, if_pos hmem]), ?_, ?_⟩
    · intro a ha b hb d hda hdb
      rw [hlen] at ha hb
      rw [hch a] at hda
      rw [hch b] at hdb
      by_cases hdc : d = c
      · subst hdc
        have hap : a = p := by
          by_cases h1 : a = p
          · exact h1
          · rw [if_neg h1] at hda
            exact absurd hda (hd a ha)
        have hbp : b = p := by
          by_cases h1 : b = p
          · exact h1
          · rw [if_neg h1] at hdb
            exact absurd hdb (hd b hb)
        rw [hap, hbp]
      · have hda' : d ∈ (getNode h a).children := by
          by_cases h1 : a = p
          · subst h1
            rw [if_pos rfl] at hda
            rcases mem_insertIntoList ref c d _ hda with h2 | h2
            · exact absurd h2 hdc
            · exact h2
          · rw [if_neg h1] at hda
            exact hda
        have hdb' : d ∈ (getNode h b).children := by
          by_cases h1 : b = p
          · subst h1
            rw [if_pos rfl] at hdb
            rcases mem_insertIntoList ref c d _ hdb with h2 | h2
            · exact absurd h2 hdc
            · exact h2
          · rw [if_neg h1] at hdb
            exact hdb
        exact hdisj a ha b hb d hda' hdb'
    · intro q hq d
      rw [hlen] at hq
      rw [hch q]
      by_cases hqp : q = p
      · rw [if_pos hqp]
        have h1 := count_insertIntoList_le ref c d (getNode h p).children
        by_cases hdc : d = c
        · subst hdc
          have h0 : (getNode h p).children.count d = 0 := by
            rw [List.count_eq_zero]
            exact hd p hp
          rw [if_pos rfl] at h1
          omega
        · rw [if_neg hdc] at h1
          have h2 := honce p hp d
          omega
      · rw [if_neg hqp]
        exact honce q hq d

/-- `replaceChild` with an in-range, detached replacement preserves
well-formedness. -/
theorem WF_nodeReplaceChild (h h' : Heap) (p newN oldN : Nat) (hwf : WF h)
    (hnew : newN < h.length) (hd : detachedNode h newN)
    (hrep : nodeReplaceChild h p newN oldN = some h') : WF h' := by
  obtain ⟨hpo, hdisj, honce⟩ := hwf
  have hmem : oldN ∈ (getNode h p).children := by
    by_contra hmem
    rw [nodeReplaceChild, if_neg hmem] at hrep
    exact Option.noConfusion hrep
  have hp : p < h.length := by
    by_contra hge
    have hnone : h.get? p = none := by
      rw [List.get?_eq_none]
      omega
    rw [getNode, hnone] at hmem
    exact absurd hmem (List.not_mem_nil oldN)
  have hold : oldN < h.length := childLt_of_parentOk h hpo p oldN hp hmem
  have hh' : h' = modifyNode (modifyNode
      (modifyNode h p (fun nd =>
        { nd with children := replaceInList oldN newN nd.children }))
      oldN (fun nd => { nd with parent := none })) newN
      (fun nd => { nd with parent := some p }) := by
    rw [nodeReplaceChild, if_pos hmem] at hrep
    injection hrep with hrep
    exact hrep.symm
  subst hh'
  have hch : ∀ q, (getNode (modifyNode (modifyNode
      (modifyNode h p (fun nd =>
        { nd with children := replaceInList oldN newN nd.children }))
      oldN (fun nd => { nd with parent := none })) newN
      (fun nd => { nd with parent := some p })) q).children =
      if q = p then replaceInList oldN newN (getNode h p).children
      else (getNode h q).children := by
    intro q
    have step2 : (getNode (modifyNode (modifyNode
        (modifyNode h p (fun nd =>
          { nd with children := replaceInList oldN newN nd.children }))
        oldN (fun nd => { nd with parent := none })) newN
        (fun nd => { nd with parent := some p })) q).children =
        (getNode (modifyNode h p (fun nd =>
          { nd with children := replaceInList oldN newN nd.children })) q).children := by
      by_cases hrn : q = newN
      · subst hrn
        rw [getNode_modifyNode_self _ _ _
          (by rw [length_modifyNode, length_modifyNode]; exact hnew)]
        by_cases hro : q = oldN
        · subst hro
          rw [getNode_modifyNode_self _ _ _ (by rw [length_modifyNode]; exact hold)]
        · rw [getNode_modifyNode_ne _ _ _ _ hro]
      · rw [getNode_modifyNode_ne _ _ _ _ hrn]
        by_cases hro : q = oldN
        · subst hro
          rw [getNode_modifyNode_self _ _ _ (by rw [length_modifyNode]; exact hold)]
        · rw [getNode_modifyNode_ne _ _ _ _ hro]
    rw [step2]
    by_cases hqp : q = p
    · subst hqp
      rw [if_pos rfl, getNode_modifyNode_self _ _ _ hp]
    · rw [if_neg hqp, getNode_modifyNode_ne _ _ _ _ hqp]
  have hlen : (modifyNode (modifyNode
      (modifyNode h p (fun nd =>
        { nd with children := replaceInList oldN newN nd.children }))
      oldN (fun nd => { nd with parent := none })) newN
      (fun nd => { nd with parent := some p })).length = h.length := by
    rw [length_modifyNode, length_modifyNode, length_modifyNode]
  refine ⟨parentOk_nodeReplaceChild h _ p newN oldN hpo hdisj honce hp hnew hd
      (by rw [nodeReplaceChild, if_pos hmem]), ?_, ?_⟩
  · intro a ha b hb d hda hdb
    rw [hlen] at ha hb
    rw [hch a] at hda
    rw [hch b] at hdb
    by_cases hdn : d = newN
    · subst hdn
      have hap : a = p := by
        by_cases h1 : a = p
        · exact h1
        · rw [if_neg h1] at hda
          exact absurd hda (hd a ha)
      have hbp : b = p := by
        by_cases h1 : b = p
        · exact h1
        · rw [if_neg h1] at hdb
          exact absurd hdb (hd b hb)
      rw [hap, hbp]
    · have hda' : d ∈ (getNode h a).children := by
        by_cases h1 : a = p
        · subst h1
          rw [if_pos rfl] at hda
          rcases mem_replaceInList oldN newN d _ hda with h2 | h2
          · exact absurd h2 hdn
          · exact h2
        · rw [if_neg h1] at hda
          exact hda
      have hdb' : d ∈ (getNode h b).children := by
        by_cases h1 : b = p
        · subst h1
          rw [if_pos rfl] at hdb
          rcases mem_replaceInList oldN newN d _ hdb with h2 | h2
          · exact absurd h2 hdn
          · exact h2
        · rw [if_neg h1] at hdb
          exact hdb
      exact hdisj a ha b hb d hda' hdb'
  · intro q hq d
    rw [hlen] at hq
    rw [hch q]
    by_cases hqp : q = p
    · rw [if_pos hqp]
      have h1 := count_replaceInList_le oldN newN d (getNode h p).children
      by_cases hdn : d = newN
      · subst hdn
        have h0 : (getNode h p).children.count d = 0 := by
          rw [List.count_eq_zero]
          exact hd p hp
        rw [if_pos rfl] at h1
        omega
      · rw [if_neg hdn] at h1
        have h2 := honce p hp d
        omega
    · rw [if_neg hqp]
      exact honce q hq d

/-- Children- and parent-preserving slot updates preserve
well-formedness. -/
theorem WF_modifyNode_frame (h : Heap) (i : Nat) (f : NodeData → NodeData)
    (hf : ∀ nd, (f nd).children = nd.children ∧ (f nd).parent = nd.parent)
    (hwf : WF h) : WF (modifyNode h i f) := by
  obtain ⟨hpo, hdisj, honce⟩ := hwf
  have hch : ∀ q, (getNode (modifyNode h i f) q).children =
      (getNode h q).children := by
    intro q
    by_cases hqi : q = i
    · subst hqi
      by_cases hlt : q < h.length
      · rw [getNode_modifyNode_self _ _ _ hlt]
        exact (hf _).1
      · rw [modifyNode_ge h q f hlt]
    · rw [getNode_modifyNode_ne _ _ _ _ hqi]
  have hpar : ∀ q, (getNode (modifyNode h i f) q).parent =
      (getNode h q).parent := by
    intro q
    by_cases hqi : q = i
    · subst hqi
      by_cases hlt : q < h.length
      · rw [getNode_modifyNode_self _ _ _ hlt]
        exact (hf _).2
      · rw [modifyNode_ge h q f hlt]
    · rw [getNode_modifyNode_ne _ _ _ _ hqi]
  refine ⟨?_, ?_, ?_⟩
  · intro q hq d hdq
    rw [length_modifyNode] at hq
    rw [hch q] at hdq
    rw [hpar d]
    exact hpo q hq d hdq
  · intro a ha b hb d hda hdb
    rw [length_modifyNode] at ha hb
    rw [hch a] at hda
    rw [hch b] at hdb
    exact hdisj a ha b hb d hda hdb
  · intro q hq d
    rw [length_modifyNode] at hq
    rw [hch q]
    exact honce q hq d

/-- `insertNodeAt` of an in-range, detached node preserves
well-formedness. -/
theorem WF_insertNodeAt (h h' : Heap) (parent index node : Nat) (hwf : WF h)
    (hn : node < h.length) (hd : detachedNode h node)
    (hins : insertNodeAt h parent index node = some h') : WF h' := by
  rw [insertNodeAt] at hins
  exact WF_nodeInsertBefore h h' parent node _ hwf hn hd hins

/-! ### Heap frames of the heap-neutral tree-builder helpers -/

/-- `parseError` never touches the heap. -/
theorem heap_parseErrorTB (tb : TB) (code : TBErrorCode) (name : Option String) :
    (parseErrorTB tb code name).heap = tb.heap := by
  unfold parseErrorTB
  split <;> rfl

/-- `unexpectedEndTag` never touches the heap. -/
theorem heap_unexpectedEndTagTB (tb : TB) (name : String) :
    (unexpectedEndTagTB tb name).heap = tb.heap :=
  heap_parseErrorTB _ _ _

/-- `unexpectedStartTag` never touches the heap. -/
theorem heap_unexpectedStartTagTB (tb : TB) (name : String) :
    (unexpectedStartTagTB tb name).heap = tb.heap :=
  heap_parseErrorTB _ _ _

/-- `invalidCodepoint` never touches the heap. -/
theorem heap_invalidCodepointTB (tb : TB) :
    (invalidCodepointTB tb).heap = tb.heap :=
  heap_parseErrorTB _ _ _

/-- `popOpenElementIf` never touches the heap. -/
theorem heap_popOpenElementIf (tb : TB) (name : String) :
    ((popOpenElementIf tb name).1).heap = tb.heap := by
  unfold popOpenElementIf
  split
  · split <;> rfl
  · rfl

/-- The `anyOtherEndTag` walk never touches the heap. -/
theorem heap_anyOtherEndTagLoop (tb : TB) (name : String) :
    ∀ (fuel index : Nat), (anyOtherEndTagLoop tb name fuel index).heap = tb.heap := by
  intro fuel
  induction fuel with
  | zero => intro index; rfl
  | succ fuel ih =>
    intro index
    show (match tb.openElements.get? index with
      | none => tb
      | some node =>
        if (getNode tb.heap node).name = name then
          (let tb2 := if index ≠ tb.openElements.length - 1 then
              parseErrorTB tb TBErrorCode.EndTagTooEarly none else tb;
           { tb2 with openElements := tb2.openElements.take index })
        else if isSpecialElement tb.heap node then unexpectedEndTagTB tb name
        else match index with
          | 0 => tb
          | i + 1 => anyOtherEndTagLoop tb name fuel i).heap = tb.heap
    split
    · rfl
    · split
      · show (if index ≠ tb.openElements.length - 1
            then parseErrorTB tb TBErrorCode.EndTagTooEarly none else tb).heap = tb.heap
        split
        · rw [heap_parseErrorTB]
        · rfl
      · split
        · exact heap_unexpectedEndTagTB tb name
        · split
          · rfl
          · exact ih _

/-- `anyOtherEndTag` never touches the heap. -/
theorem heap_anyOtherEndTag (tb : TB) (name : String) :
    (anyOtherEndTag tb name).heap = tb.heap := by
  unfold anyOtherEndTag
  split
  · rfl
  · rw [heap_anyOtherEndTagLoop]

/-! ### Well-formedness through the tree-builder helpers -/

/-- A fold whose step preserves well-formedness preserves it overall. -/
theorem foldl_WF {α : Type} (f : Heap → α → Heap)
    (hf : ∀ h a, WF h → WF (f h a)) :
    ∀ (l : List α) (h : Heap), WF h → WF (List.foldl f h l) := by
  intro l
  induction l with
  | nil => intro h hwf; exact hwf
  | cons x rest ih => intro h hwf; exact ih (f h x) (hf h x hwf)

/-- `appendCommentToDocument` preserves well-formedness. -/
theorem WF_appendCommentToDocument (tb : TB) (text : String) (hwf : WF tb.heap) :
    WF (appendCommentToDocument tb text).heap := by
  show WF (nodeAppendChild
    (mkNode tb.heap "#comment" (NodePayload.text text) (some "html") []).1 tb.document
    (mkNode tb.heap "#comment" (NodePayload.text text) (some "html") []).2)
  refine WF_nodeAppendChild _ _ _ (WF_mkNode _ _ _ _ _ hwf) ?_
    (mkNode_detached _ _ _ _ _ hwf.1)
  rw [mkNode_snd]
  exact mkNode_fst_length_lt _ _ _ _ _

/-- `appendComment` preserves well-formedness. -/
theorem WF_appendComment (tb tb' : TB) (text : String) (parent : Option Nat)
    (hwf : WF tb.heap) (h : appendComment tb text parent = some tb') :
    WF tb'.heap := by
  unfold appendComment at h
  split at h
  · exact Option.noConfusion h
  · simp only [Option.some.injEq] at h
    subst h
    show WF (nodeAppendChild
      (mkNode tb.heap "#comment" (NodePayload.text text) (some "html") []).1 _
      (mkNode tb.heap "#comment" (NodePayload.text text) (some "html") []).2)
    refine WF_nodeAppendChild _ _ _ (WF_mkNode _ _ _ _ _ hwf) ?_
      (mkNode_detached _ _ _ _ _ hwf.1)
    rw [mkNode_snd]
    exact mkNode_fst_length_lt _ _ _ _ _

/-- `createRoot` preserves well-formedness. -/
theorem WF_createRoot (tb : TB) (attrs : List (String × Option String))
    (hwf : WF tb.heap) : WF ((createRoot tb attrs).1).heap := by
  show WF (nodeAppendChild
    (mkNode tb.heap "html" NodePayload.nothing (some "html") attrs).1 tb.document
    (mkNode tb.heap "html" NodePayload.nothing (some "html") attrs).2)
  refine WF_nodeAppendChild _ _ _ (WF_mkNode _ _ _ _ _ hwf) ?_
    (mkNode_detached _ _ _ _ _ hwf.1)
  rw [mkNode_snd]
  exact mkNode_fst_length_lt _ _ _ _ _

/-- `insertBodyIfMissing` preserves well-formedness. -/
theorem WF_insertBodyIfMissing (tb tb' : TB) (hwf : WF tb.heap)
    (h : insertBodyIfMissing tb = some tb') : WF tb'.heap := by
  unfold insertBodyIfMissing at h
  split at h
  · exact Option.noConfusion h
  · simp only [Option.some.injEq] at h
    subst h
    show WF (nodeAppendChild
      (mkNode tb.heap "body" NodePayload.nothing (some "html") []).1 _
      (mkNode tb.heap "body" NodePayload.nothing (some "html") []).2)
    refine WF_nodeAppendChild _ _ _ (WF_mkNode _ _ _ _ _ hwf) ?_
      (mkNode_detached _ _ _ _ _ hwf.1)
    rw [mkNode_snd]
    exact mkNode_fst_length_lt _ _ _ _ _

/-- `addMissingAttributes` preserves well-formedness. -/
theorem WF_addMissingAttributes (h : Heap) (node : Nat)
    (attrs : List (String × Option String)) (hwf : WF h) :
    WF (addMissingAttributes h node attrs) := by
  unfold addMissingAttributes
  refine foldl_WF _ ?_ attrs h hwf
  intro h p hw
  split
  · exact WF_modifyNode_frame h node _ (fun nd => ⟨rfl, rfl⟩) hw
  · exact hw

/-- `insertElement` preserves well-formedness. -/
theorem WF_insertElement (tb tb' : TB) (tagName : String)
    (attrs : List (String × Option String)) (push : Bool) (nspace : Option String)
    (node : Nat) (hwf : WF tb.heap)
    (h : insertElement tb tagName attrs push nspace = some (tb', node)) :
    WF tb'.heap := by
  have hwf1 : WF ((mkNode tb.heap tagName NodePayload.nothing nspace attrs).1) :=
    WF_mkNode _ _ _ _ _ hwf
  have hlt : (mkNode tb.heap tagName NodePayload.nothing nspace attrs).2 <
      ((mkNode tb.heap tagName NodePayload.nothing nspace attrs).1).length := by
    rw [mkNode_snd]
    exact mkNode_fst_length_lt _ _ _ _ _
  have hdet := mkNode_detached tb.heap tagName NodePayload.nothing nspace attrs hwf.1
  unfold insertElement at h
  split at h
  rename_i h1 n1 heq
  rw [heq] at hwf1 hlt hdet
  simp only [] at h
  split at h
  · -- direct append path
    split at h
    · exact Option.noConfusion h
    · simp only [Option.some.injEq, Prod.mk.injEq] at h
      obtain ⟨h2, -⟩ := h
      subst h2
      split
      · exact WF_nodeAppendChild _ _ _ hwf1 hlt hdet
      · exact WF_nodeAppendChild _ _ _ hwf1 hlt hdet
  · -- foster path
    split at h
    · exact Option.noConfusion h
    · split at h
      · exact Option.noConfusion h
      · split at h
        · exact Option.noConfusion h
        · rename_i hins
          simp only [Option.some.injEq, Prod.mk.injEq] at h
          obtain ⟨h2, -⟩ := h
          subst h2
          split
          · exact WF_insertNodeAt _ _ _ _ _ hwf1 hlt hdet hins
          · exact WF_insertNodeAt _ _ _ _ _ hwf1 hlt hdet hins

/-- `insertPhantom` preserves well-formedness. -/
theorem WF_insertPhantom (tb tb' : TB) (name : String) (node : Nat)
    (hwf : WF tb.heap) (h : insertPhantom tb name = some (tb', node)) :
    WF tb'.heap :=
  WF_insertElement tb tb' name [] true (some "html") node hwf h

/-- The reconstruct walk preserves well-formedness. -/
theorem WF_reconstructLoop : ∀ (fuel : Nat) (tb tb' : TB) (index : Nat),
    WF tb.heap → reconstructLoop fuel tb index = some tb' → WF tb'.heap := by
  intro fuel
  induction fuel with
  | zero => intro tb tb' index hwf h; exact Option.noConfusion h
  | succ fuel ih =>
    intro tb tb' index hwf h
    rw [reconstructLoop] at h
    split at h
    · split at h
      · exact ih _ _ _ hwf h
      · split at h
        · exact Option.noConfusion h
        · rename_i tb1 newNode heq
          simp only [] at h
          refine ih _ _ _ ?_ h
          exact WF_insertElement _ tb1 _ _ _ _ _ hwf heq
    · simp only [Option.some.injEq] at h
      subst h
      exact hwf

/-- `reconstructActiveFormattingElements` preserves well-formedness. -/
theorem WF_reconstructAFE (tb tb' : TB) (hwf : WF tb.heap)
    (h : reconstructActiveFormattingElements tb = some tb') : WF tb'.heap := by
  unfold reconstructActiveFormattingElements at h
  split at h
  · simp only [Option.some.injEq] at h
    subst h
    exact hwf
  · split at h
    · simp only [Option.some.injEq] at h
      subst h
      exact hwf
    · split at h
      · simp only [Option.some.injEq] at h
        subst h
        exact hwf
      · split at h
        · simp only [Option.some.injEq] at h
          subst h
          exact hwf
        · split at h
          · simp only [Option.some.injEq] at h
            subst h
            exact hwf
          · exact WF_reconstructLoop _ _ _ _ hwf h

/-- `appendText` preserves well-formedness. -/
theorem WF_appendTextTB (tb tb' : TB) (text : String) (hwf : WF tb.heap)
    (h : appendTextTB tb text = some tb') : WF tb'.heap := by
  unfold appendTextTB at h
  split at h
  · simp only [Option.some.injEq] at h
    subst h
    exact hwf
  · simp only [] at h
    split at h
    · simp only [Option.some.injEq] at h
      subst h
      exact hwf
    · rename_i tb1 text1 heq
      have htb1 : tb1.heap = tb.heap := by
        split at heq
        · split at heq
          · split at heq
            · exact Option.noConfusion heq
            · simp only [Option.some.injEq, Prod.mk.injEq] at heq
              obtain ⟨h1, -⟩ := heq
              rw [← h1]
          · simp only [Option.some.injEq, Prod.mk.injEq] at heq
            obtain ⟨h1, -⟩ := heq
            rw [← h1]
        · simp only [Option.some.injEq, Prod.mk.injEq] at heq
          obtain ⟨h1, -⟩ := heq
          rw [← h1]
      have hwf1 : WF tb1.heap := by
        rw [htb1]
        exact hwf
      clear heq htb1 hwf
      split at h
      · simp only [Option.some.injEq] at h
        subst h
        exact hwf1
      · split at h
        · simp only [Option.some.injEq] at h
          subst h
          exact hwf1
        · split at h
          · -- normal target
            split at h
            · split at h
              · simp only [Option.some.injEq] at h
                subst h
                exact WF_modifyNode_frame _ _ _ (fun nd => ⟨rfl, rfl⟩) hwf1
              · simp only [Option.some.injEq] at h
                subst h
                show WF (nodeAppendChild (mkNode tb1.heap "#text"
                  (NodePayload.text text1) (some "html") []).1 _
                  (mkNode tb1.heap "#text" (NodePayload.text text1)
                    (some "html") []).2)
                refine WF_nodeAppendChild _ _ _ (WF_mkNode _ _ _ _ _ hwf1) ?_
                  (mkNode_detached _ _ _ _ _ hwf1.1)
                rw [mkNode_snd]
                exact mkNode_fst_length_lt _ _ _ _ _
            · simp only [Option.some.injEq] at h
              subst h
              show WF (nodeAppendChild (mkNode tb1.heap "#text"
                (NodePayload.text text1) (some "html") []).1 _
                (mkNode tb1.heap "#text" (NodePayload.text text1)
                  (some "html") []).2)
              refine WF_nodeAppendChild _ _ _ (WF_mkNode _ _ _ _ _ hwf1) ?_
                (mkNode_detached _ _ _ _ _ hwf1.1)
              rw [mkNode_snd]
              exact mkNode_fst_length_lt _ _ _ _ _
          · -- foster path
            split at h
            · exact Option.noConfusion h
            · split at h
              · exact Option.noConfusion h
              · rename_i tb2 heq2
                have hwf2 : WF tb2.heap := by
                  split at heq2
                  · exact WF_reconstructAFE _ _ hwf1 heq2
                  · simp only [Option.some.injEq] at heq2
                    rw [← heq2]
                    exact hwf1
                split at h
                · exact Option.noConfusion h
                · split at h
                  · split at h
                    · simp only [Option.some.injEq] at h
                      subst h
                      exact WF_modifyNode_frame _ _ _ (fun nd => ⟨rfl, rfl⟩) hwf2
                    · split at h
                      · exact Option.noConfusion h
                      · rename_i hins
                        simp only [Option.some.injEq] at h
                        subst h
                        refine WF_insertNodeAt _ _ _ _ _
                          (WF_mkNode _ _ _ _ _ hwf2) ?_
                          (mkNode_detached _ _ _ _ _ hwf2.1) hins
                        rw [mkNode_snd]
                        exact mkNode_fst_length_lt _ _ _ _ _
                  · split at h
                    · exact Option.noConfusion h
                    · rename_i hins
                      simp only [Option.some.injEq] at h
                      subst h
                      refine WF_insertNodeAt _ _ _ _ _
                        (WF_mkNode _ _ _ _ _ hwf2) ?_
                        (mkNode_detached _ _ _ _ _ hwf2.1) hins
                      rw [mkNode_snd]
                      exact mkNode_fst_length_lt _ _ _ _ _



/-- `moveChildrenLoop` preserves well-formedness. -/
theorem WF_moveChildrenLoop : ∀ (cs : List Nat) (h h' : Heap) (src dst : Nat),
    WF h → moveChildrenLoop h src dst cs = some h' → WF h' := by
  intro cs
  induction cs with
  | nil =>
    intro h h' src dst hwf hm
    rw [moveChildrenLoop] at hm
    simp only [Option.some.injEq] at hm
    subst hm
    exact hwf
  | cons c rest ih =>
    intro h h' src dst hwf hm
    rw [moveChildrenLoop] at hm
    split at hm
    · exact Option.noConfusion hm
    · rename_i h1 heq
      obtain ⟨hwf1, hlen1, hc1, hdet1⟩ := WF_nodeRemoveChild h h1 src c hwf heq
      exact ih _ _ _ _ (WF_nodeAppendChild h1 dst c hwf1 (by omega) hdet1) hm

/-- One clone step preserves well-formedness. -/
theorem WF_cloneStepHeap (h : Heap) (task : CloneTask) (hwf : WF h) :
    WF (cloneStepHeap h task) := by
  cases task with
  | intoParent src parent =>
    show WF (nodeAppendChild _ parent _)
    refine WF_nodeAppendChild _ _ _ (WF_mkNode _ _ _ _ _ hwf) ?_
      (mkNode_detached _ _ _ _ _ hwf.1)
    rw [mkNode_snd]
    exact mkNode_fst_length_lt _ _ _ _ _
  | intoTemplate src owner =>
    show WF (modifyNode _ owner _)
    exact WF_modifyNode_frame _ _ _ (fun nd => ⟨rfl, rfl⟩)
      (WF_mkNode _ _ _ _ _ hwf)

/-- `cloneRun` preserves well-formedness. -/
theorem WF_cloneRun : ∀ (fuel : Nat) (h : Heap) (tasks : List CloneTask),
    WF h → WF (cloneRun fuel h tasks) := by
  intro fuel
  induction fuel with
  | zero => intro h tasks hwf; exact hwf
  | succ fuel ih =>
    intro h tasks hwf
    cases tasks with
    | nil => exact hwf
    | cons task rest =>
      rw [show cloneRun (fuel + 1) h (task :: rest)
          = cloneRun fuel (cloneStepHeap h task) (cloneStepTasks h task ++ rest)
          from by cases task <;> rfl]
      exact ih _ _ (WF_cloneStepHeap h task hwf)

/-- `populateSelectedContent` preserves well-formedness. -/
theorem WF_populateSelectedContent (h : Heap) (root : Nat) (hwf : WF h) :
    WF (populateSelectedContent h root) := by
  unfold populateSelectedContent
  refine foldl_WF _ ?_ _ h hwf
  intro h s hw
  show WF (match findElementH (h.length + 1) h [s] "selectedcontent" with
    | none => h
    | some selectedContent =>
      match findElementsH (h.length + 1) h [s] "option" [] with
      | [] => h
      | firstOption :: _ =>
        cloneChildren h
          (match (findElementsH (h.length + 1) h [s] "option" []).find?
              (fun o => hasAttrKey "selected" (getNode h o).attrs) with
           | some o => o
           | none => firstOption)
          selectedContent)
  split
  · exact hw
  · split
    · exact hw
    · exact WF_cloneRun _ _ _ hw

/-- `finishTreeBuilder` preserves well-formedness. -/
theorem WF_finishTreeBuilder (tb tb' : TB) (hwf : WF tb.heap)
    (h : finishTreeBuilder tb = some tb') : WF tb'.heap := by
  unfold finishTreeBuilder at h
  split at h
  · -- fragment unwrap
    split at h
    · exact Option.noConfusion h
    · simp only [] at h
      split at h
      · exact Option.noConfusion h
      · rename_i h1 heq1
        have hwf1 : WF h1 := by
          split at heq1
          · split at heq1
            · split at heq1
              · exact Option.noConfusion heq1
              · rename_i h2 heq2
                exact (WF_nodeRemoveChild _ _ _ _
                  (WF_moveChildrenLoop _ _ _ _ _ hwf heq2) heq1).1
            · simp only [Option.some.injEq] at heq1
              rw [← heq1]
              exact hwf
          · simp only [Option.some.injEq] at heq1
            rw [← heq1]
            exact hwf
        split at h
        · exact Option.noConfusion h
        · rename_i h2 heq2
          split at h
          · exact Option.noConfusion h
          · rename_i h3 heq3
            simp only [Option.some.injEq] at h
            subst h
            exact WF_populateSelectedContent _ _
              (WF_nodeRemoveChild _ _ _ _
                (WF_moveChildrenLoop _ _ _ _ _ hwf1 heq2) heq3).1
  · simp only [Option.some.injEq] at h
    subst h
    exact WF_populateSelectedContent _ _ hwf

/-- First component of the null-stripping error prelude of the character
arms: replacing the builder by an error-reporting copy with the same heap
preserves well-formedness. -/
theorem WF_charIfPair (P : Prop) [inst : Decidable P] (tb tbE p : TB) (s d ds : String)
    (hwf : WF tb.heap) (hE : tbE.heap = tb.heap)
    (h : (if P then (tbE, s) else (tb, d)) = (p, ds)) : WF p.heap := by
  split at h <;> (injection h with h1 h2; subst h1)
  · exact hE.symm ▸ hwf
  · exact hwf

/-- `createRoot` preserves well-formedness (equation form). -/
theorem WF_createRoot_eq (tb tb2 : TB) (attrs : List (String × Option String))
    (n : Nat) (hwf : WF tb.heap) (h : createRoot tb attrs = (tb2, n)) :
    WF tb2.heap := by
  have h2 := WF_createRoot tb attrs hwf
  rw [h] at h2
  exact h2

/-- `popOpenElementIf` preserves well-formedness (equation form). -/
theorem WF_popIf_eq (tb tb2 : TB) (name : String) (b : Bool) (hwf : WF tb.heap)
    (h : popOpenElementIf tb name = (tb2, b)) : WF tb2.heap := by
  have h2 := heap_popOpenElementIf tb name
  rw [h] at h2
  exact h2.symm ▸ hwf

/-- The optional leading-whitespace flush of `modeInHead` preserves
well-formedness. -/
theorem WF_optIf (c : Bool) (tb tb2 : TB) (s : String) (hwf : WF tb.heap)
    (h : (if c = true then appendTextTB tb s else some tb) = some tb2) :
    WF tb2.heap := by
  split at h
  · exact WF_appendTextTB _ _ _ hwf h
  · injection h with h1
    exact h1 ▸ hwf

/-- The `INITIAL` mode preserves well-formedness. -/
theorem WF_modeInitial (tb tb' : TB) (token : Token) (r : Option Reproc)
    (hwf : WF tb.heap) (h : modeInitial tb token = some (tb', r)) : WF tb'.heap := by
  unfold modeInitial at h
  repeat' (first | (split at h) | (simp only [] at h))
  all_goals
    first
    | exact Option.noConfusion h
    | (simp only [Option.some.injEq, Prod.mk.injEq] at h
       first
       | (obtain ⟨h1, -⟩ := h
          subst h1)
       | subst h
       try simp only [setQuirksModeTB, popCurrent, heap_parseErrorTB]
       first
       | exact hwf
       | exact WF_appendCommentToDocument _ _ hwf)

/-- The shared `BEFORE_HTML` fall-through preserves well-formedness. -/
theorem WF_beforeHtmlFallThrough (tb tb' : TB) (token : Token) (r : Option Reproc)
    (hwf : WF tb.heap) (h : beforeHtmlFallThrough tb token = some (tb', r)) :
    WF tb'.heap := by
  unfold beforeHtmlFallThrough at h
  simp only [Option.some.injEq, Prod.mk.injEq] at h
  obtain ⟨h1, -⟩ := h
  subst h1
  exact WF_createRoot _ _ hwf

/-- The `BEFORE_HTML` mode preserves well-formedness. -/
theorem WF_modeBeforeHtml (tb tb' : TB) (token : Token) (r : Option Reproc)
    (hwf : WF tb.heap) (h : modeBeforeHtml tb token = some (tb', r)) : WF tb'.heap := by
  unfold modeBeforeHtml at h
  repeat' (first | (split at h) | (simp only [] at h))
  all_goals
    first
    | exact Option.noConfusion h
    | exact WF_beforeHtmlFallThrough _ _ _ _ hwf h
    | (simp only [Option.some.injEq, Prod.mk.injEq] at h
       first
       | (obtain ⟨h1, -⟩ := h
          subst h1)
       | subst h
       try simp only [setQuirksModeTB, popCurrent, heap_parseErrorTB]
       first
       | exact hwf
       | exact WF_createRoot_eq _ _ _ _ hwf (by assumption)
       | exact WF_appendCommentToDocument _ _ hwf)

/-- The shared `BEFORE_HEAD` fall-through preserves well-formedness. -/
theorem WF_beforeHeadFallThrough (tb tb' : TB) (token : Token) (r : Option Reproc)
    (hwf : WF tb.heap) (h : beforeHeadFallThrough tb token = some (tb', r)) :
    WF tb'.heap := by
  unfold beforeHeadFallThrough at h
  repeat' (first | (split at h) | (simp only [] at h))
  all_goals
    first
    | exact Option.noConfusion h
    | (simp only [Option.some.injEq, Prod.mk.injEq] at h
       first
       | (obtain ⟨h1, -⟩ := h
          subst h1)
       | subst h
       try simp only []
       exact WF_insertPhantom _ _ _ _ hwf (by assumption))

/-- The `BEFORE_HEAD` mode preserves well-formedness. -/
theorem WF_modeBeforeHead (tb tb' : TB) (token : Token) (r : Option Reproc)
    (hwf : WF tb.heap) (h : modeBeforeHead tb token = some (tb', r)) : WF tb'.heap := by
  unfold modeBeforeHead at h
  repeat' (first | (split at h) | (simp only [] at h))
  all_goals
    first
    | exact Option.noConfusion h
    | exact WF_beforeHeadFallThrough _ _ _ _ hwf h
    | (refine WF_beforeHeadFallThrough _ _ _ _ ?_ h
       exact WF_charIfPair _ _ _ _ _ _ _ hwf (heap_parseErrorTB _ _ _) (by assumption))
    | (simp only [Option.some.injEq, Prod.mk.injEq] at h
       first
       | (obtain ⟨h1, -⟩ := h
          subst h1)
       | subst h
       try simp only []
       try simp only [setQuirksModeTB, popCurrent, heap_parseErrorTB]
       first
       | exact hwf
       | exact WF_charIfPair _ _ _ _ _ _ _ hwf (heap_parseErrorTB _ _ _) (by assumption)
       | exact WF_appendComment _ _ _ _ hwf (by assumption)
       | exact WF_addMissingAttributes _ _ _ hwf
       | exact WF_insertElement _ _ _ _ _ _ _ hwf (by assumption))

/-- The shared `IN_HEAD` fall-through preserves well-formedness. -/
theorem WF_inHeadFallThrough (tb tb' : TB) (token : Token) (r : Option Reproc)
    (hwf : WF tb.heap) (h : inHeadFallThrough tb token = some (tb', r)) :
    WF tb'.heap := by
  unfold inHeadFallThrough at h
  simp only [Option.some.injEq, Prod.mk.injEq] at h
  obtain ⟨h1, -⟩ := h
  subst h1
  exact hwf

/-- The `IN_HEAD` mode preserves well-formedness. -/
theorem WF_modeInHead (tb tb' : TB) (token : Token) (r : Option Reproc)
    (hwf : WF tb.heap) (h : modeInHead tb token = some (tb', r)) : WF tb'.heap := by
  unfold modeInHead at h
  repeat' (first | (split at h) | (simp only [] at h))
  all_goals
    first
    | exact Option.noConfusion h
    | exact WF_inHeadFallThrough _ _ _ _ hwf h
    | (simp only [Option.some.injEq, Prod.mk.injEq] at h
       first
       | (obtain ⟨h1, -⟩ := h
          subst h1)
       | subst h
       try simp only []
       try simp only [setQuirksModeTB, popCurrent, pushFormattingMarker,
         popUntilInclusive, popUntilAnyInclusive, generateImpliedEndTags,
         clearActiveFormattingUpToMarker, resetInsertionMode, heap_parseErrorTB]
       first
       | exact hwf
       | exact WF_appendTextTB _ _ _ hwf (by assumption)
       | exact WF_optIf _ _ _ _ hwf (by assumption)
       | exact WF_appendComment _ _ _ _ hwf (by assumption)
       | exact WF_insertElement _ _ _ _ _ _ _ hwf (by assumption))

/-- The `TEXT` mode preserves well-formedness. -/
theorem WF_modeText (tb tb' : TB) (token : Token) (r : Option Reproc)
    (hwf : WF tb.heap) (h : modeText tb token = some (tb', r)) : WF tb'.heap := by
  unfold modeText at h
  repeat' (first | (split at h) | (simp only [] at h))
  all_goals
    first
    | exact Option.noConfusion h
    | (simp only [Option.some.injEq, Prod.mk.injEq] at h
       first
       | (obtain ⟨h1, -⟩ := h
          subst h1)
       | subst h
       try simp only []
       try simp only [popCurrent, heap_parseErrorTB]
       first
       | exact hwf
       | exact WF_appendTextTB _ _ _ hwf (by assumption))


/-- `handleCharactersInBody` preserves well-formedness. -/
theorem WF_handleCharactersInBody (tb tb' : TB) (data : String) (r : Option Reproc)
    (hwf : WF tb.heap) (h : handleCharactersInBody tb data = some (tb', r)) :
    WF tb'.heap := by
  unfold handleCharactersInBody at h
  repeat' (first | (split at h) | (simp only [] at h))
  all_goals
    first
    | exact Option.noConfusion h
    | (simp only [Option.some.injEq, Prod.mk.injEq] at h
       first
       | (obtain ⟨h1, -⟩ := h
          subst h1)
       | subst h
       try simp only []
       first
       | exact hwf
       | (refine WF_appendTextTB _ _ _ ?_ (by assumption)
          try simp only []
          refine WF_reconstructAFE _ _ ?_ (by assumption)
          exact WF_charIfPair _ _ _ _ _ _ _ hwf (heap_invalidCodepointTB _)
            (by assumption)))

/-- `handleCommentInBody` preserves well-formedness. -/
theorem WF_handleCommentInBody (tb tb' : TB) (d : String) (r : Option Reproc)
    (hwf : WF tb.heap) (h : handleCommentInBody tb d = some (tb', r)) :
    WF tb'.heap := by
  unfold handleCommentInBody at h
  repeat' (first | (split at h) | (simp only [] at h))
  all_goals
    first
    | exact Option.noConfusion h
    | (simp only [Option.some.injEq, Prod.mk.injEq] at h
       first
       | (obtain ⟨h1, -⟩ := h
          subst h1)
       | subst h
       exact WF_appendComment _ _ _ _ hwf (by assumption))

/-- `handleBodyStartHtml` preserves well-formedness. -/
theorem WF_handleBodyStartHtml (tb tb' : TB) (token : Token) (r : Option Reproc)
    (hwf : WF tb.heap) (h : handleBodyStartHtml tb token = some (tb', r)) :
    WF tb'.heap := by
  unfold handleBodyStartHtml at h
  repeat' (first | (split at h) | (simp only [] at h))
  all_goals
    first
    | exact Option.noConfusion h
    | (simp only [Option.some.injEq, Prod.mk.injEq] at h
       first
       | (obtain ⟨h1, -⟩ := h
          subst h1)
       | subst h
       try simp only []
       try simp only [heap_unexpectedStartTagTB]
       first
       | exact hwf
       | exact WF_addMissingAttributes _ _ _ hwf)

/-- `handleBodyStartSelect` preserves well-formedness. -/
theorem WF_handleBodyStartSelect (tb tb' : TB) (token : Token) (r : Option Reproc)
    (hwf : WF tb.heap) (h : handleBodyStartSelect tb token = some (tb', r)) :
    WF tb'.heap := by
  unfold handleBodyStartSelect at h
  repeat' (first | (split at h) | (simp only [] at h))
  all_goals
    first
    | exact Option.noConfusion h
    | (simp only [Option.some.injEq, Prod.mk.injEq] at h
       first
       | (obtain ⟨h1, -⟩ := h
          subst h1)
       | subst h
       try simp only []
       try simp only [resetInsertionMode]
       refine WF_insertElement _ _ _ _ _ _ _ ?_ (by assumption)
       exact WF_reconstructAFE _ _ hwf (by assumption))

/-- `handleBodyStartOption` preserves well-formedness. -/
theorem WF_handleBodyStartOption (tb tb' : TB) (token : Token) (r : Option Reproc)
    (hwf : WF tb.heap) (h : handleBodyStartOption tb token = some (tb', r)) :
    WF tb'.heap := by
  unfold handleBodyStartOption at h
  repeat' (first | (split at h) | (simp only [] at h))
  all_goals
    first
    | exact Option.noConfusion h
    | (simp only [Option.some.injEq, Prod.mk.injEq] at h
       first
       | (obtain ⟨h1, -⟩ := h
          subst h1)
       | subst h
       try simp only []
       refine WF_insertElement _ _ _ _ _ _ _ ?_ (by assumption)
       refine WF_reconstructAFE _ _ ?_ (by assumption)
       exact WF_popIf_eq _ _ _ _ hwf (by assumption))

/-- `handleBodyStartOptgroup` preserves well-formedness. -/
theorem WF_handleBodyStartOptgroup (tb tb' : TB) (token : Token) (r : Option Reproc)
    (hwf : WF tb.heap) (h : handleBodyStartOptgroup tb token = some (tb', r)) :
    WF tb'.heap := by
  unfold handleBodyStartOptgroup at h
  repeat' (first | (split at h) | (simp only [] at h))
  all_goals
    first
    | exact Option.noConfusion h
    | (simp only [Option.some.injEq, Prod.mk.injEq] at h
       first
       | (obtain ⟨h1, -⟩ := h
          subst h1)
       | subst h
       try simp only []
       refine WF_insertElement _ _ _ _ _ _ _ ?_ (by assumption)
       refine WF_reconstructAFE _ _ ?_ (by assumption)
       exact WF_popIf_eq _ _ _ _ hwf (by assumption))

/-- `handleBodyStartDefault` preserves well-formedness. -/
theorem WF_handleBodyStartDefault (tb tb' : TB) (token : Token) (r : Option Reproc)
    (hwf : WF tb.heap) (h : handleBodyStartDefault tb token = some (tb', r)) :
    WF tb'.heap := by
  unfold handleBodyStartDefault at h
  repeat' (first | (split at h) | (simp only [] at h))
  all_goals
    first
    | exact Option.noConfusion h
    | (simp only [Option.some.injEq, Prod.mk.injEq] at h
       first
       | (obtain ⟨h1, -⟩ := h
          subst h1)
       | subst h
       try simp only []
       try simp only [heap_parseErrorTB]
       refine WF_insertElement _ _ _ _ _ _ _ ?_ (by assumption)
       exact WF_reconstructAFE _ _ hwf (by assumption))

/-- The `BODY_START_HANDLERS` lookup preserves well-formedness. -/
theorem WF_bodyStartHandler (name : String) (tb tb' : TB) (token : Token)
    (r : Option Reproc) (hwf : WF tb.heap)
    (h : bodyStartHandler name tb token = some (tb', r)) : WF tb'.heap := by
  unfold bodyStartHandler at h
  repeat' split at h
  all_goals first
  | exact WF_handleBodyStartHtml _ _ _ _ hwf h
  | exact WF_handleBodyStartOptgroup _ _ _ _ hwf h
  | exact WF_handleBodyStartOption _ _ _ _ hwf h
  | exact WF_handleBodyStartSelect _ _ _ _ hwf h
  | exact WF_handleBodyStartDefault _ _ _ _ hwf h
  | exact Option.noConfusion h

/-- The EOF arm of `modeInTemplate` preserves well-formedness. -/
theorem WF_modeInTemplateEof (tb tb' : TB) (r : Option Reproc)
    (hwf : WF tb.heap) (h : modeInTemplateEof tb = some (tb', r)) : WF tb'.heap := by
  unfold modeInTemplateEof at h
  repeat' (first | (split at h) | (simp only [] at h))
  all_goals
    first
    | exact Option.noConfusion h
    | (simp only [Option.some.injEq, Prod.mk.injEq] at h
       first
       | (obtain ⟨h1, -⟩ := h
          subst h1)
       | subst h
       try simp only [popUntilInclusive, clearActiveFormattingUpToMarker,
         resetInsertionMode, heap_parseErrorTB]
       exact hwf)

/-- `handleEofInBody` preserves well-formedness. -/
theorem WF_handleEofInBody (tb tb' : TB) (r : Option Reproc)
    (hwf : WF tb.heap) (h : handleEofInBody tb = some (tb', r)) : WF tb'.heap := by
  unfold handleEofInBody at h
  repeat' (first | (split at h) | (simp only [] at h))
  all_goals
    first
    | exact Option.noConfusion h
    | exact WF_modeInTemplateEof _ _ _ hwf h
    | (simp only [Option.some.injEq, Prod.mk.injEq] at h
       first
       | (obtain ⟨h1, -⟩ := h
          subst h1)
       | subst h
       try simp only [heap_parseErrorTB]
       exact hwf)

/-- `handleTagInBody` preserves well-formedness. -/
theorem WF_handleTagInBody (tb tb' : TB) (token : Token) (r : Option Reproc)
    (hwf : WF tb.heap) (h : handleTagInBody tb token = some (tb', r)) :
    WF tb'.heap := by
  unfold handleTagInBody at h
  repeat' (first | (split at h) | (simp only [] at h))
  all_goals
    first
    | exact Option.noConfusion h
    | exact WF_bodyStartHandler _ _ _ _ _ hwf h
    | (refine WF_bodyStartHandler _ _ _ _ _ ?_ h
       exact (heap_unexpectedEndTagTB _ _).symm ▸ hwf)
    | (simp only [Option.some.injEq, Prod.mk.injEq] at h
       first
       | (obtain ⟨h1, -⟩ := h
          subst h1)
       | subst h
       try simp only [heap_anyOtherEndTag]
       exact hwf)

/-- The `IN_BODY` mode preserves well-formedness. -/
theorem WF_modeInBody (tb tb' : TB) (token : Token) (r : Option Reproc)
    (hwf : WF tb.heap) (h : modeInBody tb token = some (tb', r)) : WF tb'.heap := by
  unfold modeInBody at h
  repeat' (first | (split at h) | (simp only [] at h))
  all_goals
    first
    | exact Option.noConfusion h
    | exact WF_handleCharactersInBody _ _ _ _ hwf h
    | exact WF_handleCommentInBody _ _ _ _ hwf h
    | exact WF_handleTagInBody _ _ _ _ hwf h
    | exact WF_handleEofInBody _ _ _ hwf h
    | (simp only [Option.some.injEq, Prod.mk.injEq] at h
       first
       | (obtain ⟨h1, -⟩ := h
          subst h1)
       | subst h
       exact hwf)


/-- The `IN_TEMPLATE` mode preserves well-formedness. -/
theorem WF_modeInTemplate (tb tb' : TB) (token : Token) (r : Option Reproc)
    (hwf : WF tb.heap) (h : modeInTemplate tb token = some (tb', r)) : WF tb'.heap := by
  unfold modeInTemplate at h
  repeat' (first | (split at h) | (simp only [] at h))
  all_goals
    first
    | exact Option.noConfusion h
    | exact WF_modeInBody _ _ _ _ hwf h
    | exact WF_modeInHead _ _ _ _ hwf h
    | exact WF_modeInTemplateEof _ _ _ hwf h
    | (simp only [Option.some.injEq, Prod.mk.injEq] at h
       first
       | (obtain ⟨h1, -⟩ := h
          subst h1)
       | subst h
       exact hwf)

/-- The `IN_HEAD_NOSCRIPT` mode preserves well-formedness. -/
theorem WF_modeInHeadNoscript (tb tb' : TB) (token : Token) (r : Option Reproc)
    (hwf : WF tb.heap) (h : modeInHeadNoscript tb token = some (tb', r)) :
    WF tb'.heap := by
  unfold modeInHeadNoscript at h
  repeat' (first | (split at h) | (simp only [] at h))
  all_goals
    first
    | exact Option.noConfusion h
    | exact WF_modeInHead _ _ _ _ hwf h
    | exact WF_modeInBody _ _ _ _ hwf h
    | (simp only [Option.some.injEq, Prod.mk.injEq] at h
       first
       | (obtain ⟨h1, -⟩ := h
          subst h1)
       | subst h
       try simp only [popCurrent, heap_parseErrorTB, heap_unexpectedStartTagTB,
         heap_unexpectedEndTagTB]
       exact hwf)

/-- The shared `AFTER_HEAD` fall-through preserves well-formedness. -/
theorem WF_afterHeadFallThrough (tb tb' : TB) (token : Token) (r : Option Reproc)
    (hwf : WF tb.heap) (h : afterHeadFallThrough tb token = some (tb', r)) :
    WF tb'.heap := by
  unfold afterHeadFallThrough at h
  repeat' (first | (split at h) | (simp only [] at h))
  all_goals
    first
    | exact Option.noConfusion h
    | (simp only [Option.some.injEq, Prod.mk.injEq] at h
       first
       | (obtain ⟨h1, -⟩ := h
          subst h1)
       | subst h
       exact WF_insertBodyIfMissing _ _ hwf (by assumption))

/-- The `AFTER_HEAD` mode preserves well-formedness. -/
theorem WF_modeAfterHead (tb tb' : TB) (token : Token) (r : Option Reproc)
    (hwf : WF tb.heap) (h : modeAfterHead tb token = some (tb', r)) : WF tb'.heap := by
  unfold modeAfterHead at h
  repeat' (first | (split at h) | (simp only [] at h))
  all_goals
    first
    | exact Option.noConfusion h
    | exact WF_afterHeadFallThrough _ _ _ _ hwf h
    | exact WF_modeInHead _ _ _ _ hwf h
    | (simp only [Option.some.injEq, Prod.mk.injEq] at h
       first
       | (obtain ⟨h1, -⟩ := h
          subst h1)
       | subst h
       try simp only []
       try simp only [heap_parseErrorTB]
       first
       | exact hwf
       | exact WF_charIfPair _ _ _ _ _ _ _ hwf (heap_parseErrorTB _ _ _) (by assumption)
       | (refine WF_charIfPair _ _ _ _ _ _ _ ?_ (heap_parseErrorTB _ _ _) (by assumption)
          exact WF_charIfPair _ _ _ _ _ _ _ hwf (heap_parseErrorTB _ _ _) (by assumption))
       | exact WF_appendComment _ _ _ _ hwf (by assumption)
       | exact WF_insertElement _ _ _ _ _ _ _ hwf (by assumption)
       | exact WF_insertBodyIfMissing _ _ hwf (by assumption)
       | (refine WF_appendTextTB _ _ _ ?_ (by assumption)
          first
          | exact WF_charIfPair _ _ _ _ _ _ _ hwf (heap_parseErrorTB _ _ _) (by assumption)
          | (refine WF_charIfPair _ _ _ _ _ _ _ ?_ (heap_parseErrorTB _ _ _) (by assumption)
             exact WF_charIfPair _ _ _ _ _ _ _ hwf (heap_parseErrorTB _ _ _) (by assumption)))
       | (refine WF_insertBodyIfMissing _ _ ?_ (by assumption)
          first
          | exact WF_charIfPair _ _ _ _ _ _ _ hwf (heap_parseErrorTB _ _ _) (by assumption)
          | (refine WF_charIfPair _ _ _ _ _ _ _ ?_ (heap_parseErrorTB _ _ _) (by assumption)
             exact WF_charIfPair _ _ _ _ _ _ _ hwf (heap_parseErrorTB _ _ _) (by assumption)))
       | (refine WF_modeInHead _ _ _ _ ?_ (by assumption)
          exact hwf))

/-- The `AFTER_BODY` mode preserves well-formedness. -/
theorem WF_modeAfterBody (tb tb' : TB) (token : Token) (r : Option Reproc)
    (hwf : WF tb.heap) (h : modeAfterBody tb token = some (tb', r)) : WF tb'.heap := by
  unfold modeAfterBody at h
  repeat' (first | (split at h) | (simp only [] at h))
  all_goals
    first
    | exact Option.noConfusion h
    | exact WF_modeInBody _ _ _ _ hwf h
    | (simp only [Option.some.injEq, Prod.mk.injEq] at h
       first
       | (obtain ⟨h1, -⟩ := h
          subst h1)
       | subst h
       try simp only [heap_parseErrorTB]
       first
       | exact hwf
       | exact WF_appendComment _ _ _ _ hwf (by assumption))

/-- The `AFTER_AFTER_BODY` mode preserves well-formedness. -/
theorem WF_modeAfterAfterBody (tb tb' : TB) (token : Token) (r : Option Reproc)
    (hwf : WF tb.heap) (h : modeAfterAfterBody tb token = some (tb', r)) :
    WF tb'.heap := by
  unfold modeAfterAfterBody at h
  repeat' (first | (split at h) | (simp only [] at h))
  all_goals
    first
    | exact Option.noConfusion h
    | exact WF_modeInBody _ _ _ _ hwf h
    | (simp only [Option.some.injEq, Prod.mk.injEq] at h
       first
       | (obtain ⟨h1, -⟩ := h
          subst h1)
       | subst h
       try simp only [heap_parseErrorTB]
       first
       | exact hwf
       | exact WF_appendCommentToDocument _ _ hwf
       | exact WF_appendComment _ _ _ _ hwf (by assumption))

set_option maxHeartbeats 2000000 in
/-- The tag arm of the `IN_SELECT` mode preserves well-formedness. -/
theorem WF_modeInSelectTag (tb tb' : TB) (kind : TagKind) (name : String)
    (attrs : List (String × Option String)) (sc : Bool) (r : Option Reproc)
    (hwf : WF tb.heap)
    (h : modeInSelect tb (Token.tag kind name attrs sc) = some (tb', r)) :
    WF tb'.heap := by
  unfold modeInSelect at h
  simp only [] at h
  by_cases hk : kind = TagKind.Start
  · rw [if_pos hk] at h
    by_cases hS1 : name = "html"
    · rw [if_pos hS1] at h
      repeat' (first | (split at h) | (simp only [] at h))
      all_goals
        first
        | exact Option.noConfusion h
        | exact WF_modeInHead _ _ _ _ hwf h
        | (simp only [Option.some.injEq, Prod.mk.injEq] at h
           first
           | (obtain ⟨hA, -⟩ := h
              subst hA)
           | subst h
           try simp only []
           try simp only [appendActiveFormattingEntry, popUntilInclusive,
             popUntilAnyInclusive, resetInsertionMode, heap_parseErrorTB,
             heap_unexpectedEndTagTB, heap_unexpectedStartTagTB,
             heap_popOpenElementIf]
           first
           | exact hwf
           | (simp only [heap_popOpenElementIf]
              exact hwf)
           | (refine WF_insertElement _ _ _ _ _ _ _ ?_ (by assumption)
              refine WF_reconstructAFE _ _ ?_ (by assumption)
              first
              | exact hwf
              | (simp only [heap_popOpenElementIf]
                 exact hwf)))
    rw [if_neg hS1] at h
    by_cases hS2 : name = "option"
    · rw [if_pos hS2] at h
      repeat' (first | (split at h) | (simp only [] at h))
      all_goals
        first
        | exact Option.noConfusion h
        | exact WF_modeInHead _ _ _ _ hwf h
        | (simp only [Option.some.injEq, Prod.mk.injEq] at h
           first
           | (obtain ⟨hA, -⟩ := h
              subst hA)
           | subst h
           try simp only []
           try simp only [appendActiveFormattingEntry, popUntilInclusive,
             popUntilAnyInclusive, resetInsertionMode, heap_parseErrorTB,
             heap_unexpectedEndTagTB, heap_unexpectedStartTagTB,
             heap_popOpenElementIf]
           first
           | exact hwf
           | (simp only [heap_popOpenElementIf]
              exact hwf)
           | (refine WF_insertElement _ _ _ _ _ _ _ ?_ (by assumption)
              refine WF_reconstructAFE _ _ ?_ (by assumption)
              first
              | exact hwf
              | (simp only [heap_popOpenElementIf]
                 exact hwf)))
    rw [if_neg hS2] at h
    by_cases hS3 : name = "optgroup"
    · rw [if_pos hS3] at h
      repeat' (first | (split at h) | (simp only [] at h))
      all_goals
        first
        | exact Option.noConfusion h
        | exact WF_modeInHead _ _ _ _ hwf h
        | (simp only [Option.some.injEq, Prod.mk.injEq] at h
           first
           | (obtain ⟨hA, -⟩ := h
              subst hA)
           | subst h
           try simp only []
           try simp only [appendActiveFormattingEntry, popUntilInclusive,
             popUntilAnyInclusive, resetInsertionMode, heap_parseErrorTB,
             heap_unexpectedEndTagTB, heap_unexpectedStartTagTB,
             heap_popOpenElementIf]
           first
           | exact hwf
           | (simp only [heap_popOpenElementIf]
              exact hwf)
           | (refine WF_insertElement _ _ _ _ _ _ _ ?_ (by assumption)
              refine WF_reconstructAFE _ _ ?_ (by assumption)
              first
              | exact hwf
              | (simp only [heap_popOpenElementIf]
                 exact hwf)))
    rw [if_neg hS3] at h
    by_cases hS4 : name = "select"
    · rw [if_pos hS4] at h
      repeat' (first | (split at h) | (simp only [] at h))
      all_goals
        first
        | exact Option.noConfusion h
        | exact WF_modeInHead _ _ _ _ hwf h
        | (simp only [Option.some.injEq, Prod.mk.injEq] at h
           first
           | (obtain ⟨hA, -⟩ := h
              subst hA)
           | subst h
           try simp only []
           try simp only [appendActiveFormattingEntry, popUntilInclusive,
             popUntilAnyInclusive, resetInsertionMode, heap_parseErrorTB,
             heap_unexpectedEndTagTB, heap_unexpectedStartTagTB,
             heap_popOpenElementIf]
           first
           | exact hwf
           | (simp only [heap_popOpenElementIf]
              exact hwf)
           | (refine WF_insertElement _ _ _ _ _ _ _ ?_ (by assumption)
              refine WF_reconstructAFE _ _ ?_ (by assumption)
              first
              | exact hwf
              | (simp only [heap_popOpenElementIf]
                 exact hwf)))
    rw [if_neg hS4] at h
    by_cases hS5 : name = "input" ∨ name = "textarea"
    · rw [if_pos hS5] at h
      repeat' (first | (split at h) | (simp only [] at h))
      all_goals
        first
        | exact Option.noConfusion h
        | exact WF_modeInHead _ _ _ _ hwf h
        | (simp only [Option.some.injEq, Prod.mk.injEq] at h
           first
           | (obtain ⟨hA, -⟩ := h
              subst hA)
           | subst h
           try simp only []
           try simp only [appendActiveFormattingEntry, popUntilInclusive,
             popUntilAnyInclusive, resetInsertionMode, heap_parseErrorTB,
             heap_unexpectedEndTagTB, heap_unexpectedStartTagTB,
             heap_popOpenElementIf]
           first
           | exact hwf
           | (simp only [heap_popOpenElementIf]
              exact hwf)
           | (refine WF_insertElement _ _ _ _ _ _ _ ?_ (by assumption)
              refine WF_reconstructAFE _ _ ?_ (by assumption)
              first
              | exact hwf
              | (simp only [heap_popOpenElementIf]
                 exact hwf)))
    rw [if_neg hS5] at h
    by_cases hS6 : name = "keygen"
    · rw [if_pos hS6] at h
      repeat' (first | (split at h) | (simp only [] at h))
      all_goals
        first
        | exact Option.noConfusion h
        | exact WF_modeInHead _ _ _ _ hwf h
        | (simp only [Option.some.injEq, Prod.mk.injEq] at h
           first
           | (obtain ⟨hA, -⟩ := h
              subst hA)
           | subst h
           try simp only []
           try simp only [appendActiveFormattingEntry, popUntilInclusive,
             popUntilAnyInclusive, resetInsertionMode, heap_parseErrorTB,
             heap_unexpectedEndTagTB, heap_unexpectedStartTagTB,
             heap_popOpenElementIf]
           first
           | exact hwf
           | (simp only [heap_popOpenElementIf]
              exact hwf)
           | (refine WF_insertElement _ _ _ _ _ _ _ ?_ (by assumption)
              refine WF_reconstructAFE _ _ ?_ (by assumption)
              first
              | exact hwf
              | (simp only [heap_popOpenElementIf]
                 exact hwf)))
    rw [if_neg hS6] at h
    by_cases hS7 : SELECT_END_TAG_TABLE_ELEMENTS.contains name = true
    · rw [if_pos hS7] at h
      repeat' (first | (split at h) | (simp only [] at h))
      all_goals
        first
        | exact Option.noConfusion h
        | exact WF_modeInHead _ _ _ _ hwf h
        | (simp only [Option.some.injEq, Prod.mk.injEq] at h
           first
           | (obtain ⟨hA, -⟩ := h
              subst hA)
           | subst h
           try simp only []
           try simp only [appendActiveFormattingEntry, popUntilInclusive,
             popUntilAnyInclusive, resetInsertionMode, heap_parseErrorTB,
             heap_unexpectedEndTagTB, heap_unexpectedStartTagTB,
             heap_popOpenElementIf]
           first
           | exact hwf
           | (simp only [heap_popOpenElementIf]
              exact hwf)
           | (refine WF_insertElement _ _ _ _ _ _ _ ?_ (by assumption)
              refine WF_reconstructAFE _ _ ?_ (by assumption)
              first
              | exact hwf
              | (simp only [heap_popOpenElementIf]
                 exact hwf)))
    rw [if_neg hS7] at h
    by_cases hS8 : name = "script" ∨ name = "template"
    · rw [if_pos hS8] at h
      repeat' (first | (split at h) | (simp only [] at h))
      all_goals
        first
        | exact Option.noConfusion h
        | exact WF_modeInHead _ _ _ _ hwf h
        | (simp only [Option.some.injEq, Prod.mk.injEq] at h
           first
           | (obtain ⟨hA, -⟩ := h
              subst hA)
           | subst h
           try simp only []
           try simp only [appendActiveFormattingEntry, popUntilInclusive,
             popUntilAnyInclusive, resetInsertionMode, heap_parseErrorTB,
             heap_unexpectedEndTagTB, heap_unexpectedStartTagTB,
             heap_popOpenElementIf]
           first
           | exact hwf
           | (simp only [heap_popOpenElementIf]
              exact hwf)
           | (refine WF_insertElement _ _ _ _ _ _ _ ?_ (by assumption)
              refine WF_reconstructAFE _ _ ?_ (by assumption)
              first
              | exact hwf
              | (simp only [heap_popOpenElementIf]
                 exact hwf)))
    rw [if_neg hS8] at h
    by_cases hS9 : name = "svg" ∨ name = "math"
    · rw [if_pos hS9] at h
      repeat' (first | (split at h) | (simp only [] at h))
      all_goals
        first
        | exact Option.noConfusion h
        | exact WF_modeInHead _ _ _ _ hwf h
        | (simp only [Option.some.injEq, Prod.mk.injEq] at h
           first
           | (obtain ⟨hA, -⟩ := h
              subst hA)
           | subst h
           try simp only []
           try simp only [appendActiveFormattingEntry, popUntilInclusive,
             popUntilAnyInclusive, resetInsertionMode, heap_parseErrorTB,
             heap_unexpectedEndTagTB, heap_unexpectedStartTagTB,
             heap_popOpenElementIf]
           first
           | exact hwf
           | (simp only [heap_popOpenElementIf]
              exact hwf)
           | (refine WF_insertElement _ _ _ _ _ _ _ ?_ (by assumption)
              refine WF_reconstructAFE _ _ ?_ (by assumption)
              first
              | exact hwf
              | (simp only [heap_popOpenElementIf]
                 exact hwf)))
    rw [if_neg hS9] at h
    by_cases hS10 : FORMATTING_ELEMENTS.contains name = true
    · rw [if_pos hS10] at h
      repeat' (first | (split at h) | (simp only [] at h))
      all_goals
        first
        | exact Option.noConfusion h
        | exact WF_modeInHead _ _ _ _ hwf h
        | (simp only [Option.some.injEq, Prod.mk.injEq] at h
           first
           | (obtain ⟨hA, -⟩ := h
              subst hA)
           | subst h
           try simp only []
           try simp only [appendActiveFormattingEntry, popUntilInclusive,
             popUntilAnyInclusive, resetInsertionMode, heap_parseErrorTB,
             heap_unexpectedEndTagTB, heap_unexpectedStartTagTB,
             heap_popOpenElementIf]
           first
           | exact hwf
           | (simp only [heap_popOpenElementIf]
              exact hwf)
           | (refine WF_insertElement _ _ _ _ _ _ _ ?_ (by assumption)
              refine WF_reconstructAFE _ _ ?_ (by assumption)
              first
              | exact hwf
              | (simp only [heap_popOpenElementIf]
                 exact hwf)))
    rw [if_neg hS10] at h
    by_cases hS11 : name = "hr"
    · rw [if_pos hS11] at h
      repeat' (first | (split at h) | (simp only [] at h))
      all_goals
        first
        | exact Option.noConfusion h
        | exact WF_modeInHead _ _ _ _ hwf h
        | (simp only [Option.some.injEq, Prod.mk.injEq] at h
           first
           | (obtain ⟨hA, -⟩ := h
              subst hA)
           | subst h
           try simp only []
           try simp only [appendActiveFormattingEntry, popUntilInclusive,
             popUntilAnyInclusive, resetInsertionMode, heap_parseErrorTB,
             heap_unexpectedEndTagTB, heap_unexpectedStartTagTB,
             heap_popOpenElementIf]
           first
           | exact hwf
           | (simp only [heap_popOpenElementIf]
              exact hwf)
           | (refine WF_insertElement _ _ _ _ _ _ _ ?_ (by assumption)
              refine WF_reconstructAFE _ _ ?_ (by assumption)
              first
              | exact hwf
              | (simp only [heap_popOpenElementIf]
                 exact hwf)))
    rw [if_neg hS11] at h
    by_cases hS12 : name = "menuitem"
    · rw [if_pos hS12] at h
      repeat' (first | (split at h) | (simp only [] at h))
      all_goals
        first
        | exact Option.noConfusion h
        | exact WF_modeInHead _ _ _ _ hwf h
        | (simp only [Option.some.injEq, Prod.mk.injEq] at h
           first
           | (obtain ⟨hA, -⟩ := h
              subst hA)
           | subst h
           try simp only []
           try simp only [appendActiveFormattingEntry, popUntilInclusive,
             popUntilAnyInclusive, resetInsertionMode, heap_parseErrorTB,
             heap_unexpectedEndTagTB, heap_unexpectedStartTagTB,
             heap_popOpenElementIf]
           first
           | exact hwf
           | (simp only [heap_popOpenElementIf]
              exact hwf)
           | (refine WF_insertElement _ _ _ _ _ _ _ ?_ (by assumption)
              refine WF_reconstructAFE _ _ ?_ (by assumption)
              first
              | exact hwf
              | (simp only [heap_popOpenElementIf]
                 exact hwf)))
    rw [if_neg hS12] at h
    by_cases hS13 : SELECT_ALLOWED_ELEMENTS.contains name = true
    · rw [if_pos hS13] at h
      repeat' (first | (split at h) | (simp only [] at h))
      all_goals
        first
        | exact Option.noConfusion h
        | exact WF_modeInHead _ _ _ _ hwf h
        | (simp only [Option.some.injEq, Prod.mk.injEq] at h
           first
           | (obtain ⟨hA, -⟩ := h
              subst hA)
           | subst h
           try simp only []
           try simp only [appendActiveFormattingEntry, popUntilInclusive,
             popUntilAnyInclusive, resetInsertionMode, heap_parseErrorTB,
             heap_unexpectedEndTagTB, heap_unexpectedStartTagTB,
             heap_popOpenElementIf]
           first
           | exact hwf
           | (simp only [heap_popOpenElementIf]
              exact hwf)
           | (refine WF_insertElement _ _ _ _ _ _ _ ?_ (by assumption)
              refine WF_reconstructAFE _ _ ?_ (by assumption)
              first
              | exact hwf
              | (simp only [heap_popOpenElementIf]
                 exact hwf)))
    rw [if_neg hS13] at h
    by_cases hS14 : name = "br" ∨ name = "img"
    · rw [if_pos hS14] at h
      repeat' (first | (split at h) | (simp only [] at h))
      all_goals
        first
        | exact Option.noConfusion h
        | exact WF_modeInHead _ _ _ _ hwf h
        | (simp only [Option.some.injEq, Prod.mk.injEq] at h
           first
           | (obtain ⟨hA, -⟩ := h
              subst hA)
           | subst h
           try simp only []
           try simp only [appendActiveFormattingEntry, popUntilInclusive,
             popUntilAnyInclusive, resetInsertionMode, heap_parseErrorTB,
             heap_unexpectedEndTagTB, heap_unexpectedStartTagTB,
             heap_popOpenElementIf]
           first
           | exact hwf
           | (simp only [heap_popOpenElementIf]
              exact hwf)
           | (refine WF_insertElement _ _ _ _ _ _ _ ?_ (by assumption)
              refine WF_reconstructAFE _ _ ?_ (by assumption)
              first
              | exact hwf
              | (simp only [heap_popOpenElementIf]
                 exact hwf)))
    rw [if_neg hS14] at h
    by_cases hS15 : name = "plaintext"
    · rw [if_pos hS15] at h
      repeat' (first | (split at h) | (simp only [] at h))
      all_goals
        first
        | exact Option.noConfusion h
        | exact WF_modeInHead _ _ _ _ hwf h
        | (simp only [Option.some.injEq, Prod.mk.injEq] at h
           first
           | (obtain ⟨hA, -⟩ := h
              subst hA)
           | subst h
           try simp only []
           try simp only [appendActiveFormattingEntry, popUntilInclusive,
             popUntilAnyInclusive, resetInsertionMode, heap_parseErrorTB,
             heap_unexpectedEndTagTB, heap_unexpectedStartTagTB,
             heap_popOpenElementIf]
           first
           | exact hwf
           | (simp only [heap_popOpenElementIf]
              exact hwf)
           | (refine WF_insertElement _ _ _ _ _ _ _ ?_ (by assumption)
              refine WF_reconstructAFE _ _ ?_ (by assumption)
              first
              | exact hwf
              | (simp only [heap_popOpenElementIf]
                 exact hwf)))
    rw [if_neg hS15] at h
    repeat' (first | (split at h) | (simp only [] at h))
    all_goals
      first
      | exact Option.noConfusion h
      | exact WF_modeInHead _ _ _ _ hwf h
      | (simp only [Option.some.injEq, Prod.mk.injEq] at h
         first
         | (obtain ⟨hA, -⟩ := h
            subst hA)
         | subst h
         try simp only []
         try simp only [appendActiveFormattingEntry, popUntilInclusive,
           popUntilAnyInclusive, resetInsertionMode, heap_parseErrorTB,
           heap_unexpectedEndTagTB, heap_unexpectedStartTagTB]
         first
         | exact hwf
         | exact WF_popIf_eq _ _ _ _ hwf (by assumption)
         | (refine WF_popIf_eq _ _ _ _ ?_ (by assumption)
            exact WF_popIf_eq _ _ _ _ hwf (by assumption))
         | (refine WF_insertElement _ _ _ _ _ _ _ ?_ (by assumption)
            refine WF_reconstructAFE _ _ ?_ (by assumption)
            first
            | exact hwf
            | exact WF_popIf_eq _ _ _ _ hwf (by assumption)
            | (refine WF_popIf_eq _ _ _ _ ?_ (by assumption)
               exact WF_popIf_eq _ _ _ _ hwf (by assumption))))
  · rw [if_neg hk] at h
    by_cases hE1 : name = "optgroup"
    · rw [if_pos hE1] at h
      repeat' (first | (split at h) | (simp only [] at h))
      all_goals
        first
        | exact Option.noConfusion h
        | exact WF_modeInHead _ _ _ _ hwf h
        | (simp only [Option.some.injEq, Prod.mk.injEq] at h
           first
           | (obtain ⟨hA, -⟩ := h
              subst hA)
           | subst h
           try simp only []
           try simp only [appendActiveFormattingEntry, popUntilInclusive,
             popUntilAnyInclusive, resetInsertionMode, heap_parseErrorTB,
             heap_unexpectedEndTagTB, heap_unexpectedStartTagTB,
             heap_popOpenElementIf]
           first
           | exact hwf
           | (simp only [heap_popOpenElementIf]
              exact hwf)
           | (refine WF_insertElement _ _ _ _ _ _ _ ?_ (by assumption)
              refine WF_reconstructAFE _ _ ?_ (by assumption)
              first
              | exact hwf
              | (simp only [heap_popOpenElementIf]
                 exact hwf)))
    rw [if_neg hE1] at h
    by_cases hE2 : name = "option"
    · rw [if_pos hE2] at h
      repeat' (first | (split at h) | (simp only [] at h))
      all_goals
        first
        | exact Option.noConfusion h
        | exact WF_modeInHead _ _ _ _ hwf h
        | (simp only [Option.some.injEq, Prod.mk.injEq] at h
           first
           | (obtain ⟨hA, -⟩ := h
              subst hA)
           | subst h
           try simp only []
           try simp only [appendActiveFormattingEntry, popUntilInclusive,
             popUntilAnyInclusive, resetInsertionMode, heap_parseErrorTB,
             heap_unexpectedEndTagTB, heap_unexpectedStartTagTB,
             heap_popOpenElementIf]
           first
           | exact hwf
           | (simp only [heap_popOpenElementIf]
              exact hwf)
           | (refine WF_insertElement _ _ _ _ _ _ _ ?_ (by assumption)
              refine WF_reconstructAFE _ _ ?_ (by assumption)
              first
              | exact hwf
              | (simp only [heap_popOpenElementIf]
                 exact hwf)))
    rw [if_neg hE2] at h
    by_cases hE3 : name = "select"
    · rw [if_pos hE3] at h
      repeat' (first | (split at h) | (simp only [] at h))
      all_goals
        first
        | exact Option.noConfusion h
        | exact WF_modeInHead _ _ _ _ hwf h
        | (simp only [Option.some.injEq, Prod.mk.injEq] at h
           first
           | (obtain ⟨hA, -⟩ := h
              subst hA)
           | subst h
           try simp only []
           try simp only [appendActiveFormattingEntry, popUntilInclusive,
             popUntilAnyInclusive, resetInsertionMode, heap_parseErrorTB,
             heap_unexpectedEndTagTB, heap_unexpectedStartTagTB,
             heap_popOpenElementIf]
           first
           | exact hwf
           | (simp only [heap_popOpenElementIf]
              exact hwf)
           | (refine WF_insertElement _ _ _ _ _ _ _ ?_ (by assumption)
              refine WF_reconstructAFE _ _ ?_ (by assumption)
              first
              | exact hwf
              | (simp only [heap_popOpenElementIf]
                 exact hwf)))
    rw [if_neg hE3] at h
    by_cases hE4 : name = "a" ∨ FORMATTING_ELEMENTS.contains name = true
    · rw [if_pos hE4] at h
      repeat' (first | (split at h) | (simp only [] at h))
      all_goals
        first
        | exact Option.noConfusion h
        | exact WF_modeInHead _ _ _ _ hwf h
        | (simp only [Option.some.injEq, Prod.mk.injEq] at h
           first
           | (obtain ⟨hA, -⟩ := h
              subst hA)
           | subst h
           try simp only []
           try simp only [appendActiveFormattingEntry, popUntilInclusive,
             popUntilAnyInclusive, resetInsertionMode, heap_parseErrorTB,
             heap_unexpectedEndTagTB, heap_unexpectedStartTagTB,
             heap_popOpenElementIf]
           first
           | exact hwf
           | (simp only [heap_popOpenElementIf]
              exact hwf)
           | (refine WF_insertElement _ _ _ _ _ _ _ ?_ (by assumption)
              refine WF_reconstructAFE _ _ ?_ (by assumption)
              first
              | exact hwf
              | (simp only [heap_popOpenElementIf]
                 exact hwf)))
    rw [if_neg hE4] at h
    by_cases hE5 : SELECT_ALLOWED_ELEMENTS.contains name = true
    · rw [if_pos hE5] at h
      repeat' (first | (split at h) | (simp only [] at h))
      all_goals
        first
        | exact Option.noConfusion h
        | exact WF_modeInHead _ _ _ _ hwf h
        | (simp only [Option.some.injEq, Prod.mk.injEq] at h
           first
           | (obtain ⟨hA, -⟩ := h
              subst hA)
           | subst h
           try simp only []
           try simp only [appendActiveFormattingEntry, popUntilInclusive,
             popUntilAnyInclusive, resetInsertionMode, heap_parseErrorTB,
             heap_unexpectedEndTagTB, heap_unexpectedStartTagTB,
             heap_popOpenElementIf]
           first
           | exact hwf
           | (simp only [heap_popOpenElementIf]
              exact hwf)
           | (refine WF_insertElement _ _ _ _ _ _ _ ?_ (by assumption)
              refine WF_reconstructAFE _ _ ?_ (by assumption)
              first
              | exact hwf
              | (simp only [heap_popOpenElementIf]
                 exact hwf)))
    rw [if_neg hE5] at h
    by_cases hE6 : SELECT_END_TAG_TABLE_ELEMENTS.contains name = true
    · rw [if_pos hE6] at h
      repeat' (first | (split at h) | (simp only [] at h))
      all_goals
        first
        | exact Option.noConfusion h
        | exact WF_modeInHead _ _ _ _ hwf h
        | (simp only [Option.some.injEq, Prod.mk.injEq] at h
           first
           | (obtain ⟨hA, -⟩ := h
              subst hA)
           | subst h
           try simp only []
           try simp only [appendActiveFormattingEntry, popUntilInclusive,
             popUntilAnyInclusive, resetInsertionMode, heap_parseErrorTB,
             heap_unexpectedEndTagTB, heap_unexpectedStartTagTB,
             heap_popOpenElementIf]
           first
           | exact hwf
           | (simp only [heap_popOpenElementIf]
              exact hwf)
           | (refine WF_insertElement _ _ _ _ _ _ _ ?_ (by assumption)
              refine WF_reconstructAFE _ _ ?_ (by assumption)
              first
              | exact hwf
              | (simp only [heap_popOpenElementIf]
                 exact hwf)))
    rw [if_neg hE6] at h
    repeat' (first | (split at h) | (simp only [] at h))
    all_goals
      first
      | exact Option.noConfusion h
      | exact WF_modeInHead _ _ _ _ hwf h
      | (simp only [Option.some.injEq, Prod.mk.injEq] at h
         first
         | (obtain ⟨hA, -⟩ := h
            subst hA)
         | subst h
         try simp only []
         try simp only [appendActiveFormattingEntry, popUntilInclusive,
           popUntilAnyInclusive, resetInsertionMode, heap_parseErrorTB,
           heap_unexpectedEndTagTB, heap_unexpectedStartTagTB]
         first
         | exact hwf
         | exact WF_popIf_eq _ _ _ _ hwf (by assumption)
         | (refine WF_popIf_eq _ _ _ _ ?_ (by assumption)
            exact WF_popIf_eq _ _ _ _ hwf (by assumption))
         | (refine WF_insertElement _ _ _ _ _ _ _ ?_ (by assumption)
            refine WF_reconstructAFE _ _ ?_ (by assumption)
            first
            | exact hwf
            | exact WF_popIf_eq _ _ _ _ hwf (by assumption)
            | (refine WF_popIf_eq _ _ _ _ ?_ (by assumption)
               exact WF_popIf_eq _ _ _ _ hwf (by assumption))))

set_option maxHeartbeats 1000000 in
/-- The `IN_SELECT` mode preserves well-formedness. -/
theorem WF_modeInSelect (tb tb' : TB) (token : Token) (r : Option Reproc)
    (hwf : WF tb.heap) (h : modeInSelect tb token = some (tb', r)) : WF tb'.heap := by
  cases token with
  | tag kind name attrs sc => exact WF_modeInSelectTag _ _ _ _ _ _ _ hwf h
  | character data0 =>
    unfold modeInSelect at h
    simp only [] at h
    repeat' (first | (split at h) | (simp only [] at h))
    all_goals
      first
      | exact Option.noConfusion h
      | (simp only [Option.some.injEq, Prod.mk.injEq] at h
         first
         | (obtain ⟨hA, -⟩ := h
            subst hA)
         | subst h
         try simp only []
         first
         | exact hwf
         | (simp only [heap_parseErrorTB]
            exact hwf)
         | (refine WF_appendTextTB _ _ _ ?_ (by assumption)
            refine WF_reconstructAFE _ _ ?_ (by assumption)
            first
            | exact hwf
            | (simp only [heap_parseErrorTB]
               exact hwf)))
  | comment d =>
    unfold modeInSelect at h
    simp only [] at h
    repeat' (first | (split at h) | (simp only [] at h))
    all_goals
      first
      | exact Option.noConfusion h
      | (simp only [Option.some.injEq, Prod.mk.injEq] at h
         first
         | (obtain ⟨hA, -⟩ := h
            subst hA)
         | subst h
         exact WF_appendComment _ _ _ _ hwf (by assumption))
  | eof =>
    unfold modeInSelect at h
    simp only [] at h
    exact WF_modeInBody _ _ _ _ hwf h
  | doctype a b c d =>
    unfold modeInSelect at h
    simp only [Option.some.injEq, Prod.mk.injEq] at h
    obtain ⟨hA, -⟩ := h
    subst hA
    exact hwf

set_option maxHeartbeats 2000000 in
/-- The `MODE_HANDLERS` dispatch preserves well-formedness. -/
theorem WF_modeDispatch (mode : Nat) (tb tb' : TB) (token : Token) (r : Option Reproc)
    (hwf : WF tb.heap) (h : modeDispatch mode tb token = some (tb', r)) :
    WF tb'.heap := by
  unfold modeDispatch at h
  repeat' split at h
  all_goals
    first
    | exact Option.noConfusion h
    | exact WF_modeInitial _ _ _ _ hwf h
    | exact WF_modeBeforeHtml _ _ _ _ hwf h
    | exact WF_modeBeforeHead _ _ _ _ hwf h
    | exact WF_modeInHead _ _ _ _ hwf h
    | exact WF_modeInHeadNoscript _ _ _ _ hwf h
    | exact WF_modeAfterHead _ _ _ _ hwf h
    | exact WF_modeText _ _ _ _ hwf h
    | exact WF_modeInBody _ _ _ _ hwf h
    | exact WF_modeAfterBody _ _ _ _ hwf h
    | exact WF_modeAfterAfterBody _ _ _ _ hwf h
    | exact WF_modeInSelect _ _ _ _ hwf h
    | exact WF_modeInTemplate _ _ _ _ hwf h

/-- The reprocess loop of `processToken` preserves well-formedness. -/
theorem WF_processLoop (fuel : Nat) : ∀ (tb tb' : TB) (token : Token) (f : Bool)
    (out : TokenSinkResult), WF tb.heap →
    processLoop fuel tb token f = some (tb', out) → WF tb'.heap := by
  induction fuel with
  | zero =>
    intro tb tb' token f out hwf h
    exact Option.noConfusion h
  | succ fuel ih =>
    intro tb tb' token f out hwf h
    have h2 : (let currentNode := tb.openElements.getLast?
      let isHtmlNamespace : Bool :=
        match currentNode with
        | none => true
        | some n =>
          decide ((getNode tb.heap n).nspace = none ∨
            (getNode tb.heap n).nspace = some "html")
      if f || isHtmlNamespace then
        match modeDispatch tb.mode tb token with
        | none => none
        | some (tb2, none) =>
          let out := tb2.tokenizerStateOverride.getD TokenSinkResult.Continue
          some ({ tb2 with tokenizerStateOverride := none }, out)
        | some (tb2, some (mode, tokenOverride, forceHtml)) =>
          processLoop fuel { tb2 with mode := mode } tokenOverride forceHtml
      else none) = some (tb', out) := h
    clear h
    repeat' (first | (split at h2) | (simp only [] at h2))
    all_goals
      first
      | exact Option.noConfusion h2
      | (refine ih _ _ _ _ _ ?_ h2
         try simp only []
         exact WF_modeDispatch _ _ _ _ _ hwf (by assumption))
      | (simp only [Option.some.injEq, Prod.mk.injEq] at h2
         first
         | (obtain ⟨h1, -⟩ := h2
            subst h1)
         | subst h2
         try simp only []
         exact WF_modeDispatch _ _ _ _ _ hwf (by assumption))

/-- `processToken` preserves well-formedness. -/
theorem WF_processTokenTB (tb tb' : TB) (token : Token) (out : TokenSinkResult)
    (hwf : WF tb.heap) (h : processTokenTB tb token = some (tb', out)) :
    WF tb'.heap := by
  unfold processTokenTB at h
  repeat' (first | (split at h) | (simp only [] at h))
  all_goals
    first
    | exact Option.noConfusion h
    | exact WF_processLoop 32 _ _ _ _ _ hwf h
    | (simp only [Option.some.injEq, Prod.mk.injEq] at h
       first
       | (obtain ⟨h1, -⟩ := h
          subst h1)
       | subst h
       try simp only [heap_parseErrorTB]
       exact hwf)


/-- `flushText` preserves any sink invariant. -/
theorem SP_flushText {σ : Type} {entities : List (String × String)}
    {opts : TokenizerOpts} {S : Sink σ} {P : σ → Prop} (hp : SinkPreserves S P)
    {ts ts' : TokSt} {s s' : σ} (h : flushText entities opts S ts s = some (ts', s'))
    (hP : P s) : P s' := by
  unfold flushText at h
  repeat' (first | (split at h) | (simp only [] at h))
  all_goals
    first
    | exact Option.noConfusion h
    | (simp only [Option.some.injEq, Prod.mk.injEq] at h
       obtain ⟨-, h2⟩ := h
       subst h2
       first
       | exact hP
       | exact hp.2 _ _ _ (by assumption) hP)

/-- `emitToken` preserves any sink invariant. -/
theorem SP_tokEmitToken {σ : Type} {S : Sink σ} {P : σ → Prop}
    (hp : SinkPreserves S P) {s s' : σ} {t : Token}
    (h : tokEmitToken S s t = some s') (hP : P s) : P s' := by
  unfold tokEmitToken at h
  repeat' (first | (split at h) | (simp only [] at h))
  all_goals
    first
    | exact Option.noConfusion h
    | (simp only [Option.some.injEq] at h
       subst h
       exact hp.1 _ _ _ _ (by assumption) hP)

/-- `emitCurrentTag` preserves any sink invariant. -/
theorem SP_emitCurrentTag {σ : Type} {S : Sink σ} {P : σ → Prop}
    (hp : SinkPreserves S P) {ts ts' : TokSt} {s s' : σ} {sw : Bool}
    (h : emitCurrentTag S ts s = some (ts', s', sw)) (hP : P s) : P s' := by
  unfold emitCurrentTag at h
  repeat' (first | (split at h) | (simp only [] at h))
  all_goals
    first
    | exact Option.noConfusion h
    | (simp only [Option.some.injEq, Prod.mk.injEq] at h
       obtain ⟨-, h2, -⟩ := h
       subst h2
       exact hp.1 _ _ _ _ (by assumption) hP)

/-- The `Data` state preserves any sink invariant. -/
theorem SP_stateData {σ : Type} {entities : List (String × String)}
    {opts : TokenizerOpts} {S : Sink σ} {P : σ → Prop} (hp : SinkPreserves S P)
    {ts ts' : TokSt} {s s' : σ} {done : Bool}
    (h : stateData entities opts S ts s = some (ts', s', done)) (hP : P s) :
    P s' := by
  unfold stateData at h
  repeat' (first | (split at h) | (simp only [] at h))
  all_goals
    first
    | exact Option.noConfusion h
    | (simp only [Option.some.injEq, Prod.mk.injEq] at h
       obtain ⟨-, h2, -⟩ := h
       subst h2
       first
       | exact hP
       | exact SP_flushText hp (by assumption) hP
       | exact SP_tokEmitToken hp (by assumption) (SP_flushText hp (by assumption) hP))

/-- The `TagOpen` state preserves any sink invariant. -/
theorem SP_stateTagOpen {σ : Type} {entities : List (String × String)}
    {opts : TokenizerOpts} {S : Sink σ} {P : σ → Prop} (hp : SinkPreserves S P)
    {ts ts' : TokSt} {s s' : σ} {done : Bool}
    (h : stateTagOpen entities opts S ts s = some (ts', s', done)) (hP : P s) :
    P s' := by
  unfold stateTagOpen at h
  repeat' (first | (split at h) | (simp only [] at h))
  all_goals
    first
    | exact Option.noConfusion h
    | (simp only [Option.some.injEq, Prod.mk.injEq] at h
       obtain ⟨-, h2, -⟩ := h
       subst h2
       first
       | exact hP
       | exact SP_flushText hp (by assumption) hP
       | exact SP_tokEmitToken hp (by assumption) (SP_flushText hp (by assumption) hP))

/-- The `EndTagOpen` state preserves any sink invariant. -/
theorem SP_stateEndTagOpen {σ : Type} {entities : List (String × String)}
    {opts : TokenizerOpts} {S : Sink σ} {P : σ → Prop} (hp : SinkPreserves S P)
    {ts ts' : TokSt} {s s' : σ} {done : Bool}
    (h : stateEndTagOpen entities opts S ts s = some (ts', s', done)) (hP : P s) :
    P s' := by
  unfold stateEndTagOpen at h
  repeat' (first | (split at h) | (simp only [] at h))
  all_goals
    first
    | exact Option.noConfusion h
    | (simp only [Option.some.injEq, Prod.mk.injEq] at h
       obtain ⟨-, h2, -⟩ := h
       subst h2
       first
       | exact hP
       | exact SP_flushText hp (by assumption) hP
       | exact SP_tokEmitToken hp (by assumption) (SP_flushText hp (by assumption) hP))

/-- The `TagName` state preserves any sink invariant. -/
theorem SP_stateTagName {σ : Type} {S : Sink σ} {P : σ → Prop}
    (hp : SinkPreserves S P) {ts ts' : TokSt} {s s' : σ} {done : Bool}
    (h : stateTagName S ts s = some (ts', s', done)) (hP : P s) : P s' := by
  unfold stateTagName at h
  repeat' (first | (split at h) | (simp only [] at h))
  all_goals
    first
    | exact Option.noConfusion h
    | (simp only [Option.some.injEq, Prod.mk.injEq] at h
       obtain ⟨-, h2, -⟩ := h
       subst h2
       first
       | exact hP
       | exact SP_tokEmitToken hp (by assumption) hP
       | exact SP_emitCurrentTag hp (by assumption) hP)

/-- The tokenizer step dispatch preserves any sink invariant. -/
theorem SP_stepTok {σ : Type} {entities : List (String × String)}
    {opts : TokenizerOpts} {S : Sink σ} {P : σ → Prop} (hp : SinkPreserves S P)
    {ts ts' : TokSt} {s s' : σ} {done : Bool}
    (h : stepTok entities opts S ts s = some (ts', s', done)) (hP : P s) : P s' := by
  unfold stepTok at h
  repeat' split at h
  all_goals
    first
    | exact Option.noConfusion h
    | exact SP_stateData hp h hP
    | exact SP_stateTagOpen hp h hP
    | exact SP_stateEndTagOpen hp h hP
    | exact SP_stateTagName hp h hP

/-- The tokenizer run loop preserves any sink invariant. -/
theorem SP_runTokLoop {σ : Type} {entities : List (String × String)}
    {opts : TokenizerOpts} {S : Sink σ} {P : σ → Prop} (hp : SinkPreserves S P) :
    ∀ (fuel : Nat) (ts ts' : TokSt) (s s' : σ), P s →
      runTokLoop entities opts S fuel ts s = some (ts', s') → P s' := by
  intro fuel
  induction fuel with
  | zero =>
    intro ts ts' s s' hP h
    exact Option.noConfusion h
  | succ fuel ih =>
    intro ts ts' s s' hP h
    have h2 : (match stepTok entities opts S ts s with
      | none => none
      | some (ts2, s2, done) =>
        if done then some (ts2, s2)
        else runTokLoop entities opts S fuel ts2 s2) = some (ts', s') := h
    clear h
    repeat' (first | (split at h2) | (simp only [] at h2))
    all_goals
      first
      | exact Option.noConfusion h2
      | (refine ih _ _ _ _ ?_ h2
         exact SP_stepTok hp (by assumption) hP)
      | (simp only [Option.some.injEq, Prod.mk.injEq] at h2
         obtain ⟨-, h3⟩ := h2
         subst h3
         exact SP_stepTok hp (by assumption) hP)

/-- `run` preserves any sink invariant. -/
theorem SP_runTok {σ : Type} {entities : List (String × String)}
    {opts : TokenizerOpts} {S : Sink σ} {P : σ → Prop} (hp : SinkPreserves S P)
    {input : String} {ts' : TokSt} {s s' : σ}
    (h : runTok entities opts S input s = some (ts', s')) (hP : P s) : P s' := by
  unfold runTok at h
  exact SP_runTokLoop hp _ _ _ _ _ hP h

/-- The tree-builder sink preserves heap well-formedness. -/
theorem tbSink_preserves_WF : SinkPreserves tbSink (fun tb => WF tb.heap) := by
  constructor
  · intro s t s' r h hP
    simp only [tbSink] at h
    cases hm : processTokenTB s t with
    | none =>
      rw [hm] at h
      exact Option.noConfusion h
    | some p =>
      rw [hm] at h
      simp only [Option.map] at h
      simp only [Option.some.injEq, Prod.mk.injEq] at h
      obtain ⟨h1, -⟩ := h
      subst h1
      exact WF_processTokenTB _ _ _ _ hP hm
  · intro s d s' h hP
    simp only [tbSink] at h
    cases hm : processTokenTB s (Token.character d) with
    | none =>
      rw [hm] at h
      exact Option.noConfusion h
    | some p =>
      rw [hm] at h
      simp only [Option.map] at h
      simp only [Option.some.injEq] at h
      subst h
      exact WF_processTokenTB _ _ _ _ hP hm

/-- The empty heap is well-formed. -/
theorem WF_nil : WF ([] : Heap) := by
  refine ⟨?_, ?_, ?_⟩ <;> intro p hp <;> simp at hp

/-- Every tree builder `createTreeBuilder` returns starts well-formed. -/
theorem WF_createTreeBuilder (fc : Option FragmentContext)
    (iframeSrcdoc collectErrors : Bool) (tb : TB)
    (h : createTreeBuilder fc iframeSrcdoc collectErrors = some tb) :
    WF tb.heap := by
  unfold createTreeBuilder at h
  repeat' (first | (split at h) | (simp only [] at h))
  all_goals
    first
    | exact Option.noConfusion h
    | (simp only [Option.some.injEq] at h
       subst h
       try simp only []
       first
       | exact WF_mkNode _ _ _ _ _ WF_nil
       | (refine WF_nodeAppendChild _ _ _
            (WF_mkNode _ _ _ _ _ (WF_mkNode _ _ _ _ _ WF_nil)) ?_
            (mkNode_detached _ _ _ _ _ (WF_mkNode _ _ _ _ _ WF_nil).1)
          rw [mkNode_snd]
          exact mkNode_fst_length_lt _ _ _ _ _))

/-- Every heap `parseDocument` returns is well-formed: correct parent
pointers, disjoint child lists, and duplicate-free child lists. -/
theorem WF_parseDocument (entities : List (String × String)) (html : String)
    (fc : Option FragmentContext) (iframeSrcdoc collectErrors : Bool)
    (opts : TokenizerOpts) (r : ParseResult)
    (h : parseDocument entities html fc iframeSrcdoc collectErrors opts = some r) :
    WF r.tb.heap := by
  unfold parseDocument at h
  repeat' (first | (split at h) | (simp only [] at h))
  all_goals
    first
    | exact Option.noConfusion h
    | (simp only [Option.some.injEq] at h
       subst h
       try simp only []
       refine WF_finishTreeBuilder _ _ ?_ (by assumption)
       refine SP_runTok tbSink_preserves_WF (by assumption) ?_
       exact WF_createTreeBuilder _ _ _ _ (by assumption))


/-- C1 (corrected): parsing preserves the parent-pointer invariant — every
heap `parseDocument` returns satisfies `parentOk` (each node in a
`childNodes` list names the list owner as its `parentNode`) — and the four
`Node` operations preserve `parentOk` under the detachment discipline the
tree builder observes: `appendChild` and `insertBefore` require the
inserted node detached (the source never detaches in `appendChild`, and
appending a still-attached node breaks the predicate), while `removeChild`
and `replaceChild` preserve it on heaps with duplicate-free, pairwise
disjoint child lists (`replaceChild` with its replacement detached). -/
theorem node_parent_pointer_invariant
    (entities : List (String × String)) (html : String)
    (fc : Option FragmentContext) (iframeSrcdoc collectErrors : Bool)
    (opts : TokenizerOpts) (h : Heap) (p c newN : Nat) :
    (∀ r, parseDocument entities html fc iframeSrcdoc collectErrors opts = some r →
      parentOk r.tb.heap) ∧
    (parentOk h → p < h.length → c < h.length → detachedNode h c →
      parentOk (nodeAppendChild h p c)) ∧
    (∀ h', parentOk h → childListsDisjoint h → childOnceInList h → p < h.length →
      nodeRemoveChild h p c = some h' → parentOk h') ∧
    (∀ ref h', parentOk h → p < h.length → c < h.length → detachedNode h c →
      nodeInsertBefore h p c (some ref) = some h' → parentOk h') ∧
    (∀ h', parentOk h → childListsDisjoint h → childOnceInList h → p < h.length →
      newN < h.length → detachedNode h newN →
      nodeReplaceChild h p newN c = some h' → parentOk h') :=
  ⟨fun r hr =>
    (WF_parseDocument entities html fc iframeSrcdoc collectErrors opts r hr).1,
   fun h1 h2 h3 h4 => parentOk_nodeAppendChild h p c h1 h2 h3 h4,
   fun h' h1 h2 h3 h4 h5 => parentOk_nodeRemoveChild h h' p c h1 h2 h3 h4 h5,
   fun ref h' h1 h2 h3 h4 h5 => parentOk_nodeInsertBefore h h' p c ref h1 h2 h3 h4 h5,
   fun h' h1 h2 h3 h4 h5 h6 h7 =>
     parentOk_nodeReplaceChild h h' p newN c h1 h2 h3 h4 h5 h6 h7⟩

/-- Witness for C1: the empty-input parse result satisfies the
parent-pointer invariant, and appending the detached node 2 of the sample
heap under node 0 preserves it. -/
theorem node_parent_pointer_invariant_witness :
    (∃ r, parseDocument [] "" none false false {} = some r ∧ parentOk r.tb.heap) ∧
    parentOk (nodeAppendChild sampleAttachedHeap 0 2) := by
  constructor
  · have hs : (parseDocument [] "" none false false {}).isSome = true := by rfl
    obtain ⟨r, hr⟩ := Option.isSome_iff_exists.mp hs
    exact ⟨r, hr,
      (node_parent_pointer_invariant [] "" none false false {}
        sampleAttachedHeap 0 2 0).1 r hr⟩
  · exact (node_parent_pointer_invariant [] "" none false false {}
      sampleAttachedHeap 0 2 0).2.1
      (by unfold parentOk; decide) (by decide) (by decide)
      (by unfold detachedNode; decide)

/-- Counterexample for C1 as literally claimed: `Node.appendChild` pushes
and re-points without detaching, so appending the still-attached node 1
(a child of node 0) under node 2 leaves node 1 in node 0's child list
while its `parentNode` names node 2 — the parent-pointer predicate fails
on the resulting heap. -/
theorem node_parent_pointer_counterexample :
    parentOk sampleAttachedHeap ∧
    ¬parentOk (nodeAppendChild sampleAttachedHeap 2 1) := by
  constructor
  · unfold parentOk
    decide
  · unfold parentOk
    decide


end JustHTML
